import Mathlib

/-!
# SLADE palette translations (`src/Graphics/Translation.cpp`)

A shallow embedding of the `Translation` class: the table analyser `read`,
the clause parser `parse`, the serializer `asText`, the evaluator `translate`
and the preset blends of `specialBlend`.

Conventions of the embedding.

* `uint8_t` values are natural numbers below 256; a store into a `uint8_t`
  is `toUInt8` (reduction modulo 256), `short` and `int` values are integers.
* `float` and `double` values are rationals. Every floating-point operation
  of the source is the exact operation followed by the rounding `rnd` of a
  `FloatFormat`, about which only two facts of IEEE round-to-nearest are
  assumed: it is monotone, and it leaves representable numbers unchanged.
  `exactArith` is the format that never rounds.
* The palette (`Palette8bit`), the tokenizer and the console variables are
  collaborators that live outside the translated file; they are parameters
  or small models, each marked as such.
-/

namespace SLADE

/-! ## Numeric conventions -/

/-- The rounding operator of a binary floating-point format with `prec`
significand bits (24 for `float`, 53 for `double`). Round-to-nearest is
monotone and exact on every number `m * 2 ^ e` with `|m| < 2 ^ prec`
(the exponent window keeps clear of overflow and underflow). -/
structure FloatFormat (prec : Nat) where
  rnd : ℚ → ℚ
  mono : ∀ x y : ℚ, x ≤ y → rnd x ≤ rnd y
  exact : ∀ m e : Int, |m| < 2 ^ prec → -100 ≤ e → e ≤ 100 →
    rnd ((m : ℚ) * (2 : ℚ) ^ e) = (m : ℚ) * (2 : ℚ) ^ e

/-- Exact arithmetic: the format whose rounding is the identity. -/
def exactArith (prec : Nat) : FloatFormat prec where
  rnd := fun x => x
  mono := fun _ _ h => h
  exact := fun _ _ _ _ _ => rfl

/-- C conversion of a floating value to `int`: truncation toward zero. -/
def truncToInt (x : ℚ) : Int := Int.tdiv x.num (x.den : Int)

/-- Store of an `int` into a `uint8_t`: reduction modulo 256. -/
def toUInt8 (z : Int) : Nat := (z % 256).toNat

/-- Modelled from the spec: the macro `MIN(a, b)` of `Main.h`, which is not
among the sources, on `int`s: the smaller of the two. -/
def MIN (a b : Int) : Int := if a < b then a else b

/-! ## Colours and palettes -/

/-- Modelled from the spec: the colour record `rgba_t`, whose declaration is
not among the sources: four `uint8_t` channels, a `short` palette index (`-1`
when unresolved) and a `char` blend mode. -/
structure rgba_t where
  r : Nat
  g : Nat
  b : Nat
  a : Nat
  index : Int
  blend : Int
deriving DecidableEq

/-- Modelled from the spec: the three-channel constructor `rgba_t(r, g, b)`,
an opaque colour with no palette index. No theorem below depends on the
alpha, index or blend it leaves. -/
def rgba_t.rgb (r g b : Nat) : rgba_t :=
  { r := r, g := g, b := b, a := 255, index := -1, blend := -1 }

/-- Modelled from the spec: the default constructor `rgba_t()`, black with no
palette index. No theorem below depends on the alpha, index or blend it
leaves. -/
def rgba_t.zero : rgba_t :=
  { r := 0, g := 0, b := 0, a := 0, index := -1, blend := -1 }

/-- Modelled from the spec: the palette collaborator `Palette8bit`, which is
not among the sources: the colour stored at an index (`colour`) and the index
nearest to a colour (`nearestColour`). -/
structure Palette8bit where
  colour : Nat → rgba_t
  nearestColour : rgba_t → Int

/-- The collaborators `translate` reaches through globals: the `float` and
`double` formats of the platform, the greyscale console variables
`col_greyscale_r/g/b`, `MainEditor::currentPalette()` and the C library's
rendering of a `float` as text. -/
structure Env where
  f32 : FloatFormat 24
  f64 : FloatFormat 53
  col_greyscale_r : ℚ
  col_greyscale_g : ℚ
  col_greyscale_b : ℚ
  currentPalette : Palette8bit
  formatFloat : ℚ → String

/-! ## Constants -/

/-- Colours used by the "Ice" translation, based on the Hexen palette. -/
def IceRange : List rgba_t :=
  [ rgba_t.rgb 10 8 18, rgba_t.rgb 15 15 26,
    rgba_t.rgb 20 16 36, rgba_t.rgb 30 26 46,
    rgba_t.rgb 40 36 57, rgba_t.rgb 50 46 67,
    rgba_t.rgb 59 57 78, rgba_t.rgb 69 67 88,
    rgba_t.rgb 79 77 99, rgba_t.rgb 89 87 109,
    rgba_t.rgb 99 97 120, rgba_t.rgb 109 107 130,
    rgba_t.rgb 118 118 141, rgba_t.rgb 128 128 151,
    rgba_t.rgb 138 138 162, rgba_t.rgb 148 148 172 ]

def BLEND_ICE : Nat := 0
def BLEND_DESAT_FIRST : Nat := 1
def BLEND_DESAT_LAST : Nat := 31
def BLEND_INVERSE : Nat := 32
def BLEND_RED : Nat := 33
def BLEND_GREEN : Nat := 34
def BLEND_BLUE : Nat := 35
def BLEND_GOLD : Nat := 36
def BLEND_INVALID : Nat := 37

/-! ## Translation ranges and translations -/

/-- Modelled from the spec: the six `TransRange` subclasses of
`Translation.h`, which is not among the sources, with the field names that
`parse` assigns. Every range has the origin bounds `o_start`, `o_end`
(`uint8_t`); the remaining fields are those of the subclass. -/
inductive TransRange where
  | palette (o_start o_end d_start d_end : Nat)
  | colour (o_start o_end : Nat) (d_start d_end : rgba_t)
  | desat (o_start o_end : Nat) (d_sr d_sg d_sb d_er d_eg d_eb : ℚ)
  | blend (o_start o_end : Nat) (col : rgba_t)
  | tint (o_start o_end : Nat) (col : rgba_t) (amount : Nat)
  | special (o_start o_end : Nat) (special : String)
deriving DecidableEq

/-- Modelled from the spec: the accessor `TransRange::oStart()`. -/
def TransRange.oStart : TransRange → Nat
  | .palette s _ _ _ => s
  | .colour s _ _ _ => s
  | .desat s _ _ _ _ _ _ _ => s
  | .blend s _ _ => s
  | .tint s _ _ _ => s
  | .special s _ _ => s

/-- Modelled from the spec: the accessor `TransRange::oEnd()`. -/
def TransRange.oEnd : TransRange → Nat
  | .palette _ e _ _ => e
  | .colour _ e _ _ => e
  | .desat _ e _ _ _ _ _ _ => e
  | .blend _ e _ => e
  | .tint _ e _ _ => e
  | .special _ e _ => e

/-- The state of a `Translation`, the three members `Translation.cpp` works
on: the owned list of ranges, the name of a built-in translation (empty when
none) and the desaturation amount (`uint8_t`). -/
structure Translation where
  translations : List TransRange
  built_in_name : String
  desat_amount : Nat
deriving DecidableEq

/-- The constructor `Translation::Translation()`. -/
def Translation.new : Translation :=
  { translations := [], built_in_name := "", desat_amount := 0 }

/-- Modelled from the spec: the accessor `Translation::nRanges()`, the number
of ranges. -/
def Translation.nRanges (t : Translation) : Nat := t.translations.length

/-! ## `Translation::read` -/

/-- The local variables of `read` that live across loop iterations, with
the list of ranges built so far. -/
structure ReadState where
  i : Nat
  val : Nat
  o_start : Nat
  d_start : Nat
  translations : List TransRange
deriving DecidableEq

/-- One pass through the body of the `while (i < 255)` loop of `read`. -/
def readBody (data : Nat → Nat) (s : ReadState) : ReadState :=
  let i := s.i + 1
  if data i ≠ s.val + 1 ∨ i = 255 then
    let o_end := i - 1
    let d_end := s.val
    { i := i
      val := data i
      o_start := i
      d_start := data i
      translations :=
        if s.o_start ≠ s.d_start ∧ o_end ≠ d_end then
          s.translations ++ [TransRange.palette s.o_start o_end s.d_start d_end]
        else s.translations }
  else
    { s with i := i, val := data i }

/-- The `while (i < 255)` loop of `read`, run for at most `fuel` passes. -/
def readLoop (data : Nat → Nat) : Nat → ReadState → ReadState
  | 0, s => s
  | fuel + 1, s => if s.i < 255 then readLoop data fuel (readBody data s) else s

/-- The state in which `read` enters its loop. -/
def readInit (data : Nat → Nat) (translations : List TransRange) : ReadState :=
  { i := 0, val := data 0, o_start := 0, d_start := data 0, translations := translations }

/-- `Translation::read`: analyse the 256-entry table `data` (entry `k` is
`data k`, a byte) and append the ranges found. The loop counter starts at 0
and every pass adds one, so 255 passes always reach the exit `i = 255`. -/
def Translation.read (t : Translation) (data : Nat → Nat) : Translation :=
  { t with translations := (readLoop data 255 (readInit data t.translations)).translations }

/-! ## `Translation::specialBlend` -/

/-- The start and end coefficients `(sr, sg, sb, er, eg, eb)` chosen by the
`switch (type)` of `specialBlend`; all six stay 0 for a type it has no case
for. -/
def blendCoefficients (type : Nat) : ℚ × ℚ × ℚ × ℚ × ℚ × ℚ :=
  if type = BLEND_INVERSE then (1, 1, 1, 0, 0, 0)
  else if type = BLEND_GOLD then (0, 0, 0, 3 / 2, 3 / 4, 0)
  else if type = BLEND_RED then (0, 0, 0, 3 / 2, 0, 0)
  else if type = BLEND_GREEN then (0, 0, 0, 5 / 4, 3 / 2, 1)
  else if type = BLEND_BLUE then (0, 0, 0, 0, 0, 3 / 2)
  else (0, 0, 0, 0, 0, 0)

/-- The greyscale value `(col.r*77 + col.g*143 + col.b*37) / 256.f`: an `int`
converted to `float`, then a `float` division. -/
def greyZDoom (F : FloatFormat 24) (col : rgba_t) : ℚ :=
  F.rnd (F.rnd ((col.r * 77 + col.g * 143 + col.b * 37 : Nat) : ℚ) / 256)

/-- One channel of the desaturate branch,
`MIN(255, int((c * (31 - amount) + grey * amount) / 31))` stored in a
`uint8_t`. -/
def desatChannel (F : FloatFormat 24) (c : Nat) (grey amount : ℚ) : Nat :=
  toUInt8 (MIN 255 (truncToInt
    (F.rnd (F.rnd (F.rnd ((c : ℚ) * F.rnd (31 - amount)) + F.rnd (grey * amount)) / 31))))

/-- One channel of the preset gradients, `MIN(255, int(s + grey*(e - s)))`
stored in a `uint8_t`. -/
def gradientChannel (F : FloatFormat 24) (s e grey : ℚ) : Nat :=
  toUInt8 (MIN 255 (truncToInt (F.rnd (s + F.rnd (grey * F.rnd (e - s))))))

/-- `Translation::specialBlend`: apply one of the special colour blending
modes from ZDoom to `col`; `type` is a `uint8_t` blend code. -/
def specialBlend (F : FloatFormat 24) (col : rgba_t) (type : Nat) (pal : Palette8bit) :
    rgba_t :=
  if type = BLEND_INVALID then col
  else
    let grey := greyZDoom F col
    if type = BLEND_ICE then
      let di := toUInt8 (MIN (truncToInt grey >>> 4) 15)
      let c := IceRange.getD di rgba_t.zero
      let colour := { col with r := c.r, g := c.g, b := c.b, a := c.a }
      { colour with index := pal.nearestColour colour }
    else if BLEND_DESAT_FIRST ≤ type ∧ type ≤ BLEND_DESAT_LAST then
      let amount : ℚ := (type : ℚ) - 1
      let colour1 := { col with r := desatChannel F col.r grey amount }
      let colour2 := { colour1 with g := desatChannel F colour1.g grey amount }
      let colour3 := { colour2 with b := desatChannel F colour2.b grey amount }
      { colour3 with index := pal.nearestColour colour3 }
    else
      let (sr, sg, sb, er, eg, eb) := blendCoefficients type
      let colour :=
        { col with
          r := gradientChannel F sr er grey
          g := gradientChannel F sg eg grey
          b := gradientChannel F sb eb grey }
      { colour with index := pal.nearestColour colour }

/-! ## `Translation::translate` -/

/-- Modelled from the spec: the comparison `S_CMPNOCASE` of `Main.h`, which
is not among the sources: equality of two strings up to letter case. -/
def S_CMPNOCASE (s1 s2 : String) : Bool :=
  s1.data.map Char.toLower == s2.data.map Char.toLower

/-- Modelled from the spec: `spec.Right(2).ToLong(&temp)` of the string
library, which is not among the sources: the last two characters read as a
decimal number the way `strtol` does (two digits, or one digit after a blank
or a sign), `none` when they are no number. -/
def rightTwoToLong (s : String) : Option Int :=
  match s.data.reverse with
  | d0 :: d1 :: _ =>
    if d0.isDigit then
      if d1.isDigit then some (((d1.toNat - 48) * 10 + (d0.toNat - 48) : Nat) : Int)
      else if d1.isWhitespace ∨ d1 = Char.ofNat 43 then some ((d0.toNat - 48 : Nat) : Int)
      else if d1 = Char.ofNat 45 then some (-((d0.toNat - 48 : Nat) : Int))
      else none
    else none
  | _ => none

/-- The blend code `translate` derives from the name of a built-in
translation. -/
def builtInType (built_in_name : String) (desat_amount : Nat) : Nat :=
  if S_CMPNOCASE built_in_name "ice" then BLEND_ICE
  else if S_CMPNOCASE built_in_name "inverse" then BLEND_INVERSE
  else if S_CMPNOCASE built_in_name "red" then BLEND_RED
  else if S_CMPNOCASE built_in_name "green" then BLEND_GREEN
  else if S_CMPNOCASE built_in_name "blue" then BLEND_BLUE
  else if S_CMPNOCASE built_in_name "gold" then BLEND_GOLD
  else if S_CMPNOCASE built_in_name "desaturate" then desat_amount
  else BLEND_INVALID

/-- The blend code `translate` derives from the name of a special range. -/
def specialType (spec : String) : Nat :=
  if S_CMPNOCASE spec "ice" then BLEND_ICE
  else if S_CMPNOCASE spec "inverse" then BLEND_INVERSE
  else if S_CMPNOCASE spec "red" then BLEND_RED
  else if S_CMPNOCASE spec "green" then BLEND_GREEN
  else if S_CMPNOCASE spec "blue" then BLEND_BLUE
  else if S_CMPNOCASE spec "gold" then BLEND_GOLD
  else if "desat".data <+: spec.data.map Char.toLower then
    match rightTwoToLong spec with
    | some temp => if temp < 32 ∧ temp > 0 then toUInt8 temp else BLEND_INVALID
    | none => BLEND_INVALID
  else BLEND_INVALID

/-- How far along the origin range the index `i` is (`range_frac`, a
`double`): 0 for a one-entry range. -/
def rangeFrac (F : FloatFormat 53) (i o_start o_end : Nat) : ℚ :=
  if o_start ≠ o_end then F.rnd (((i : ℚ) - o_start) / ((o_end : ℚ) - o_start)) else 0

/-- The `double` expression `s + range_frac * (e - s)` stored in a `uint8_t`:
the fraction is dropped. -/
def lerpByte (F : FloatFormat 53) (s e : Nat) (range_frac : ℚ) : Nat :=
  toUInt8 (truncToInt (F.rnd ((s : ℚ) + F.rnd (range_frac * ((e : ℚ) - s)))))

/-- The loop of `translate` over the ranges not yet visited: `col` is the
input colour, `i` its resolved palette index and `colour` the working result.
A special range returns from the whole function. -/
def translateRanges (env : Env) (col : rgba_t) (pal : Palette8bit) (i : Nat) :
    List TransRange → rgba_t → rgba_t
  | [], colour => colour
  | r :: rest, colour =>
    if i < r.oStart ∨ i > r.oEnd then translateRanges env col pal i rest colour
    else
      match r with
      | .palette o_start o_end d_start d_end =>
        let range_frac := rangeFrac env.f64 i o_start o_end
        let di := lerpByte env.f64 d_start d_end range_frac
        let c := pal.colour di
        translateRanges env col pal i rest
          { colour with r := c.r, g := c.g, b := c.b, a := c.a, index := (di : Int) }
      | .colour o_start o_end d_start d_end =>
        let range_frac := rangeFrac env.f64 i o_start o_end
        let colour1 :=
          { colour with
            r := lerpByte env.f64 d_start.r d_end.r range_frac
            g := lerpByte env.f64 d_start.g d_end.g range_frac
            b := lerpByte env.f64 d_start.b d_end.b range_frac }
        translateRanges env col pal i rest
          { colour1 with index := pal.nearestColour colour1 }
      | .desat _ _ d_sr d_sg d_sb d_er d_eg d_eb =>
        let F := env.f32
        let gcol := pal.colour i
        let grey : ℚ :=
          F.rnd (F.rnd (F.rnd (F.rnd ((gcol.r : ℚ) * F.rnd (3 / 10))
              + F.rnd ((gcol.g : ℚ) * F.rnd (59 / 100)))
            + F.rnd ((gcol.b : ℚ) * F.rnd (11 / 100))) / 255)
        let chan (s e : ℚ) : Nat :=
          toUInt8 (MIN 255 (truncToInt
            (F.rnd (F.rnd (s + F.rnd (grey * F.rnd (e - s))) * 255))))
        let colour1 :=
          { colour with r := chan d_sr d_er, g := chan d_sg d_eg, b := chan d_sb d_eb }
        translateRanges env col pal i rest
          { colour1 with index := pal.nearestColour colour1 }
      | .blend _ _ blend =>
        let F := env.f32
        let grey0 : ℚ :=
          F.rnd (F.rnd (F.rnd (F.rnd ((col.r : ℚ) * env.col_greyscale_r)
              + F.rnd ((col.g : ℚ) * env.col_greyscale_g))
            + F.rnd ((col.b : ℚ) * env.col_greyscale_b)) / 255)
        let grey : ℚ := if grey0 > 1 then 1 else grey0
        let colour1 :=
          { colour with
            r := toUInt8 (truncToInt (F.rnd ((blend.r : ℚ) * grey)))
            g := toUInt8 (truncToInt (F.rnd ((blend.g : ℚ) * grey)))
            b := toUInt8 (truncToInt (F.rnd ((blend.b : ℚ) * grey))) }
        translateRanges env col pal i rest
          { colour1 with index := pal.nearestColour colour1 }
      | .tint _ _ tint tintAmount =>
        let F := env.f32
        let amount : ℚ := F.rnd ((tintAmount : ℚ) * F.rnd (1 / 100))
        let inv_amt : ℚ := F.rnd (1 - amount)
        let chan (c t : Nat) : Nat :=
          toUInt8 (truncToInt (F.rnd (F.rnd ((c : ℚ) * inv_amt) + F.rnd ((t : ℚ) * amount))))
        let colour1 :=
          { colour with
            r := chan col.r tint.r, g := chan col.g tint.g, b := chan col.b tint.b }
        translateRanges env col pal i rest
          { colour1 with index := pal.nearestColour colour1 }
      | .special _ _ spec =>
        specialBlend env.f32 col (specialType spec) pal

/-- The palette index `translate` works with: the colour's own index, or
the nearest palette index when the colour has none (`index == -1`); the
value is stored in a `uint8_t`. -/
def resolveIndex (col : rgba_t) (pal : Palette8bit) : Nat :=
  if col.index = -1 then toUInt8 (pal.nearestColour col) else toUInt8 col.index

/-- `Translation::translate`: apply the translation to the colour `col`.
A missing palette (`pal == NULL`) is replaced by the current palette. -/
def Translation.translate (env : Env) (t : Translation) (col : rgba_t)
    (pal : Option Palette8bit) : rgba_t :=
  let colour := { col with blend := -1 }
  let pal := pal.getD env.currentPalette
  let i := resolveIndex col pal
  if t.built_in_name.length ≠ 0 then
    specialBlend env.f32 col (builtInType t.built_in_name t.desat_amount) pal
  else
    translateRanges env col pal i t.translations colour

/-! ## The tokenizer -/

/-- Modelled from the spec: the token cursor of `Utility/Tokenizer`, which is
not among the sources: the tokens of the opened string that are still to be
read. -/
structure Tokenizer where
  tokens : List String
deriving DecidableEq

/-- The token under construction, closed: nothing when it is empty. -/
def flushToken (cur : List Char) : List String :=
  if cur = [] then [] else [String.mk cur]

/-- Modelled from the spec: the split of a text into tokens. Blanks separate
tokens and every special character is a token of its own; `cur` holds the
characters of the token being read. -/
def tokenize (special : List Char) : List Char → List Char → List String
  | [], cur => flushToken cur
  | c :: cs, cur =>
    if c.isWhitespace then flushToken cur ++ tokenize special cs []
    else if c ∈ special then flushToken cur ++ String.mk [c] :: tokenize special cs []
    else tokenize special cs (cur ++ [c])

/-- Modelled from the spec: `setSpecialCharacters` followed by `openString`. -/
def Tokenizer.openString (special : String) (text : String) : Tokenizer :=
  { tokens := tokenize special.data text.data [] }

/-- Modelled from the spec: `peekToken`, the next token without consuming it
(the empty string at the end of the text). -/
def Tokenizer.peekToken (tz : Tokenizer) : String := tz.tokens.headD ""

/-- Modelled from the spec: `skipToken`, which consumes the next token. -/
def Tokenizer.skipToken (tz : Tokenizer) : Tokenizer := { tokens := tz.tokens.tail }

/-- Modelled from the spec: `getToken`, which consumes and returns the next
token. -/
def Tokenizer.getToken (tz : Tokenizer) : String × Tokenizer :=
  (tz.peekToken, tz.skipToken)

/-- Modelled from the spec: `checkToken`, which consumes the next token and
tells whether it is the literal `check`. -/
def Tokenizer.checkToken (tz : Tokenizer) (check : String) : Bool × Tokenizer :=
  (decide (tz.peekToken = check), tz.skipToken)

/-- The value of a run of leading decimal digits, `acc` being the value read
so far. -/
def readDigits : List Char → Nat → Nat
  | [], acc => acc
  | c :: cs, acc => if c.isDigit then readDigits cs (acc * 10 + (c.toNat - 48)) else acc

/-- Modelled from the spec: C `atoi` on a token: an optional sign and the
leading decimal digits, 0 when there is none. -/
def atoi : List Char → Int
  | [] => 0
  | c :: cs =>
    if c = Char.ofNat 45 then -((readDigits cs 0 : Nat) : Int)
    else if c = Char.ofNat 43 then ((readDigits cs 0 : Nat) : Int)
    else ((readDigits (c :: cs) 0 : Nat) : Int)

/-- Modelled from the spec: `getInteger`, the next token read as an `int`. -/
def Tokenizer.getInteger (tz : Tokenizer) : Int × Tokenizer :=
  (atoi tz.peekToken.data, tz.skipToken)

/-- The value of an unsigned decimal numeral `digits[.digits]`. -/
def readDecimal (cs : List Char) : ℚ :=
  let whole := cs.takeWhile Char.isDigit
  let rest := cs.dropWhile Char.isDigit
  let frac :=
    match rest with
    | c :: ds => if c = Char.ofNat 46 then ds.takeWhile Char.isDigit else []
    | [] => []
  (readDigits whole 0 : ℚ) + (readDigits frac 0 : ℚ) / (10 : ℚ) ^ frac.length

/-- Modelled from the spec: C `atof` on a token: an optional sign and a
decimal numeral (exponents are not modelled). -/
def atof : List Char → ℚ
  | [] => 0
  | c :: cs =>
    if c = Char.ofNat 45 then -(readDecimal cs)
    else if c = Char.ofNat 43 then readDecimal cs
    else readDecimal (c :: cs)

/-- Modelled from the spec: `getFloat`, the next token read as a `double`. -/
def Tokenizer.getFloat (tz : Tokenizer) : ℚ × Tokenizer :=
  (atof tz.peekToken.data, tz.skipToken)

/-- The idiom `if (!tz.checkToken(check)) return;`: the cursor after the
token when it is `check`, `none` for the early return. -/
def Tokenizer.expect (tz : Tokenizer) (check : String) : Option Tokenizer :=
  if (tz.checkToken check).1 then some (tz.checkToken check).2 else none

/-- Modelled from the spec: `wxString::Lower`. -/
def lower (s : String) : String := String.mk (s.data.map Char.toLower)

/-! ## `Translation::parse` -/

/-- The three reads `c.r = tz.getInteger(); "," c.g = ...; "," c.b = ...` into
a default-constructed `rgba_t`, each value stored in a `uint8_t` channel;
`none` when a comma is missing. -/
def readColour (tz : Tokenizer) : Option (rgba_t × Tokenizer) := do
  let (r, tz) := tz.getInteger
  let tz ← tz.expect ","
  let (g, tz) := tz.getInteger
  let tz ← tz.expect ","
  let (b, tz) := tz.getInteger
  some ({ rgba_t.zero with r := toUInt8 r, g := toUInt8 g, b := toUInt8 b }, tz)

/-- The three reads `sr = tz.getFloat(); "," sg = ...; "," sb = ...`, each
`double` stored in a `float`; `none` when a comma is missing. -/
def readFloats (F : FloatFormat 24) (tz : Tokenizer) : Option ((ℚ × ℚ × ℚ) × Tokenizer) := do
  let (r, tz) := tz.getFloat
  let tz ← tz.expect ","
  let (g, tz) := tz.getFloat
  let tz ← tz.expect ","
  let (b, tz) := tz.getFloat
  some ((F.rnd r, F.rnd g, F.rnd b), tz)

/-- The part of `parse` after the test for built-in names: read one
`origin=destination` clause and build its range; `none` for each early
`return`, where nothing is pushed to the list. -/
def parseRange (env : Env) (tz : Tokenizer) : Option TransRange := do
  -- Read original range
  let (x, tz) := tz.getInteger
  let o_start := toUInt8 x
  let (o_end, tz) ←
    if tz.peekToken = "=" then some (o_start, tz)
    else (tz.expect ":").map (fun tz1 => (toUInt8 tz1.getInteger.1, tz1.getInteger.2))
  let tz ← tz.expect "="
  -- Check for reverse origin range
  let reverse : Bool := decide (o_start > o_end)
  -- Type of translation depends on next token
  if tz.peekToken = "[" then
    -- Colour translation
    let tz := tz.getToken.2
    let (start, tz) ← readColour tz
    let tz ← tz.expect "]"
    let tz ← tz.expect ":"
    let tz ← tz.expect "["
    let (stop, tz) ← readColour tz
    let _ ← tz.expect "]"
    if reverse then some (TransRange.colour o_end o_start stop start)
    else some (TransRange.colour o_start o_end start stop)
  else if tz.peekToken = "%" then
    -- Desat colour translation
    let tz := tz.getToken.2
    let tz ← tz.expect "["
    let ((sr, sg, sb), tz) ← readFloats env.f32 tz
    let tz ← tz.expect "]"
    let tz ← tz.expect ":"
    let tz ← tz.expect "["
    let ((er, eg, eb), tz) ← readFloats env.f32 tz
    let _ ← tz.expect "]"
    if reverse then some (TransRange.desat o_end o_start er eg eb sr sg sb)
    else some (TransRange.desat o_start o_end sr sg sb er eg eb)
  else if tz.peekToken = "#" then
    -- Colourise translation
    let tz := tz.skipToken
    let tz ← tz.expect "["
    let (col, tz) ← readColour tz
    let _ ← tz.expect "]"
    some (TransRange.blend o_start o_end col)
  else if tz.peekToken = "@" then
    -- Tint translation
    let tz := tz.skipToken
    let (amount, tz) := tz.getInteger
    let tz ← tz.expect "["
    let (col, tz) ← readColour tz
    let _ ← tz.expect "]"
    some (TransRange.tint o_start o_end col (toUInt8 amount))
  else if tz.peekToken = "$" then
    let tz := tz.skipToken
    let (special, _) := tz.getToken
    some (TransRange.special o_start o_end special)
  else
    -- Palette range translation
    let (y, tz) := tz.getInteger
    let d_start := toUInt8 y
    let d_end := if (tz.checkToken ":").1 then toUInt8 (tz.checkToken ":").2.getInteger.1 else d_start
    if reverse then some (TransRange.palette o_end o_start d_end d_start)
    else some (TransRange.palette o_start o_end d_start d_end)

/-- `Translation::parse`: parse the text definition `definition` (in zdoom
format). -/
def Translation.parse (env : Env) (t : Translation) (definition : String) : Translation :=
  let tz := Tokenizer.openString "[]:%,=#@$" definition
  -- Test for ZDoom built-in translation
  let test := lower tz.peekToken
  if test = "inverse" then { t with built_in_name := "Inverse" }
  else if test = "gold" then { t with built_in_name := "Gold" }
  else if test = "red" then { t with built_in_name := "Red" }
  else if test = "green" then { t with built_in_name := "Green" }
  else if test = "blue" then { t with built_in_name := "Blue" }
  else if test = "ice" then { t with built_in_name := "Ice" }
  else if test = "desaturate" then { t with built_in_name := "Desaturate" }
  else
    match parseRange env tz with
    | some tr => { t with translations := t.translations ++ [tr] }
    | none => t

/-! ## `Translation::asText` -/

/-- The text `r,g,b` of a colour's channels. -/
def rgbText (c : rgba_t) : String :=
  toString c.r ++ "," ++ toString c.g ++ "," ++ toString c.b

/-- Modelled from the spec: `TransRange::asText` of `Translation.h`, which is
not among the sources: the range in its grammar form, the origin interval,
`=`, and the destination of its variant. -/
def TransRange.asText (env : Env) : TransRange → String
  | .palette o_start o_end d_start d_end =>
    toString o_start ++ ":" ++ toString o_end ++ "=" ++ toString d_start ++ ":" ++ toString d_end
  | .colour o_start o_end d_start d_end =>
    toString o_start ++ ":" ++ toString o_end ++ "=[" ++ rgbText d_start ++ "]:[" ++
      rgbText d_end ++ "]"
  | .desat o_start o_end d_sr d_sg d_sb d_er d_eg d_eb =>
    toString o_start ++ ":" ++ toString o_end ++ "=%[" ++
      env.formatFloat d_sr ++ "," ++ env.formatFloat d_sg ++ "," ++ env.formatFloat d_sb ++ "]:[" ++
      env.formatFloat d_er ++ "," ++ env.formatFloat d_eg ++ "," ++ env.formatFloat d_eb ++ "]"
  | .blend o_start o_end col =>
    toString o_start ++ ":" ++ toString o_end ++ "=#[" ++ rgbText col ++ "]"
  | .tint o_start o_end col amount =>
    toString o_start ++ ":" ++ toString o_end ++ "=@" ++ toString amount ++ "[" ++
      rgbText col ++ "]"
  | .special o_start o_end name =>
    toString o_start ++ ":" ++ toString o_end ++ "=$" ++ name

/-- The double quote character. -/
def dquote : String := String.mk [Char.ofNat 34]

/-- Modelled from the spec: `wxString::RemoveLast(n)`, the string without its
last `n` characters. -/
def removeLast (s : String) (n : Nat) : String := String.mk (s.data.take (s.data.length - n))

/-- `Translation::asText`: a string representation of the translation (in
zdoom format). -/
def Translation.asText (env : Env) (t : Translation) : String :=
  if t.built_in_name.isEmpty then
    -- Go through translation ranges
    let ret := t.translations.foldl
      (fun ret r => ret ++ (dquote ++ r.asText env ++ dquote ++ ", ")) ""
    -- If any translations were defined, remove last ", "
    if !ret.isEmpty then removeLast ret 2 else ret
  else
    -- ZDoom built-in translation
    if t.built_in_name = "Desaturate" then t.built_in_name ++ (", " ++ toString t.desat_amount)
    else t.built_in_name

/-! ## Concrete collaborators for worked examples -/

/-- A greyscale palette: entry `i` is the grey `(i, i, i)`, and the nearest
index to a colour is its red channel. -/
def greyPalette : Palette8bit where
  colour := fun i => rgba_t.rgb i i i
  nearestColour := fun c => (c.r : Int)

/-- An environment in exact arithmetic, with the greyscale palette as the
current palette and equal greyscale weights. -/
def exactEnv : Env where
  f32 := exactArith 24
  f64 := exactArith 53
  col_greyscale_r := 1 / 4
  col_greyscale_g := 1 / 2
  col_greyscale_b := 1 / 4
  currentPalette := greyPalette
  formatFloat := fun _ => "0.00"

/-- The identity table, `table[i] = i`. -/
def identityTable : Nat → Nat := fun i => i

/-- The table that is the identity except on `a..b`, where every entry is
shifted by `k`. -/
def shiftTable (a b : Nat) (k : Int) : Nat → Nat :=
  fun i => if a ≤ i ∧ i ≤ b then ((i : Int) + k).toNat else i

/-- The table that is the identity below 240 and maps `240..255` down by 16,
onto `224..239`. -/
def topBlockTable : Nat → Nat :=
  fun i => if 240 ≤ i then i - 16 else i

/-- What a range built by `read` from the table `data` looks like: a Palette
range `[o, e] -> [d, f]` of equal lengths that is no identity and agrees with
the table on every index it covers, all below `bound`. -/
def TableRange (data : Nat → Nat) (bound : Nat) (r : TransRange) : Prop :=
  ∃ o e d f : Nat, r = TransRange.palette o e d f ∧ o ≤ e ∧ e < bound ∧
    f = d + (e - o) ∧ o ≠ d ∧ ∀ j, o ≤ j → j ≤ e → data j = d + (j - o)

/-- The loop invariant of `read`, started on an empty list: the current run
`o_start..i` climbs by one per step, the ranges emitted so far lie below
`o_start` in increasing order and agree with the table, and every index below
`o_start` is covered by one of them or is mapped to itself. -/
def ReadInv (data : Nat → Nat) (s : ReadState) : Prop :=
  s.i ≤ 255 ∧ s.o_start ≤ s.i ∧ (s.i = 255 → s.o_start = 255) ∧
  s.val = data s.i ∧ s.d_start = data s.o_start ∧
  (∀ j, s.o_start ≤ j → j ≤ s.i → data j = s.d_start + (j - s.o_start)) ∧
  (∀ r ∈ s.translations, TableRange data s.o_start r) ∧
  s.translations.Pairwise (fun p q => p.oEnd < q.oStart) ∧
  (∀ j, j < s.o_start →
    (∃ r ∈ s.translations, r.oStart ≤ j ∧ j ≤ r.oEnd) ∨ data j = j)

/-- The test `r->getType() == TRANS_SPECIAL` of `translate`. -/
def TransRange.isSpecial : TransRange → Bool
  | .special _ _ _ => true
  | _ => false

/-- The literal tokens that `parse` checks with `checkToken` in a destination
opening with `first`, each with its place counted from the first token of the
destination. `[` opens a Colour destination `[r,g,b]:[r,g,b]`, `%` a
Desaturated one `%[f,f,f]:[f,f,f]`, `#` a Blend one `#[r,g,b]` and `@` a Tint
one `@n[r,g,b]`; the Special and Palette destinations require none. -/
def requiredLiterals (first : String) : List (Nat × String) :=
  if first = "[" then
    [(2, ","), (4, ","), (6, "]"), (7, ":"), (8, "["), (10, ","), (12, ","), (14, "]")]
  else if first = "%" then
    [(1, "["), (3, ","), (5, ","), (7, "]"), (8, ":"), (9, "["), (11, ","), (13, ","),
      (15, "]")]
  else if first = "#" then [(1, "["), (3, ","), (5, ","), (7, "]")]
  else if first = "@" then [(2, "["), (4, ","), (6, ","), (8, "]")]
  else []

/-- A literal that the destination `dest` requires is absent: some required
place holds another token, or none. -/
def destinationLacksLiteral (dest : List String) : Bool :=
  (requiredLiterals (dest.headD "")).any (fun pl => dest.getD pl.1 "" != pl.2)

/-- A required literal token is absent from the tokens of a clause: the token
after the origin start is neither `=` nor `:`, or the origin `start:end` is
not followed by `=`, or the destination lacks one of its literals. -/
def missingLiteral (toks : List String) : Bool :=
  if toks.getD 1 "" = "=" then destinationLacksLiteral (toks.drop 2)
  else if toks.getD 1 "" = ":" then
    if toks.getD 3 "" = "=" then destinationLacksLiteral (toks.drop 4) else true
  else true

/-! ## Clearing, copying and editing the list of ranges -/

/-- The six variants a range can have, one per subclass of `TransRange`. -/
inductive RangeKind where
  | palette
  | colour
  | desat
  | blend
  | tint
  | special
deriving DecidableEq

/-- The variant of a range: the subclass it is an object of. -/
def TransRange.kind : TransRange → RangeKind
  | .palette _ _ _ _ => RangeKind.palette
  | .colour _ _ _ _ => RangeKind.colour
  | .desat _ _ _ _ _ _ _ _ => RangeKind.desat
  | .blend _ _ _ => RangeKind.blend
  | .tint _ _ _ _ => RangeKind.tint
  | .special _ _ _ => RangeKind.special

/-- Modelled from the spec: what `Translation.cpp` uses of `Translation.h`,
which is not among the sources, besides the fields of the ranges: the six
type tags `TRANS_PALETTE` ... `TRANS_SPECIAL` (distinct enumerators) and the
range that the default constructor of each subclass builds (a range of that
subclass; its field values are left open). -/
structure RangeClasses where
  TRANS_PALETTE : Int
  TRANS_COLOUR : Int
  TRANS_DESAT : Int
  TRANS_BLEND : Int
  TRANS_TINT : Int
  TRANS_SPECIAL : Int
  tags_nodup :
    [TRANS_PALETTE, TRANS_COLOUR, TRANS_DESAT, TRANS_BLEND, TRANS_TINT, TRANS_SPECIAL].Nodup
  TransRangePalette : TransRange
  TransRangeColour : TransRange
  TransRangeDesat : TransRange
  TransRangeBlend : TransRange
  TransRangeTint : TransRange
  TransRangeSpecial : TransRange
  palette_kind : TransRangePalette.kind = RangeKind.palette
  colour_kind : TransRangeColour.kind = RangeKind.colour
  desat_kind : TransRangeDesat.kind = RangeKind.desat
  blend_kind : TransRangeBlend.kind = RangeKind.blend
  tint_kind : TransRangeTint.kind = RangeKind.tint
  special_kind : TransRangeSpecial.kind = RangeKind.special

/-- The type tag of a variant. -/
def RangeClasses.tag (cls : RangeClasses) : RangeKind → Int
  | RangeKind.palette => cls.TRANS_PALETTE
  | RangeKind.colour => cls.TRANS_COLOUR
  | RangeKind.desat => cls.TRANS_DESAT
  | RangeKind.blend => cls.TRANS_BLEND
  | RangeKind.tint => cls.TRANS_TINT
  | RangeKind.special => cls.TRANS_SPECIAL

/-- Modelled from the spec: the member `type` of a range, the tag its
constructor stores. -/
def TransRange.type (cls : RangeClasses) (r : TransRange) : Int := cls.tag r.kind

/-- Modelled from the spec: the copy constructors of the six subclasses
(`new TransRangePalette(copy)` and so on): a new range of the same subclass
holding every field of the original. -/
def TransRange.copyOf : TransRange → TransRange
  | .palette o_start o_end d_start d_end => .palette o_start o_end d_start d_end
  | .colour o_start o_end d_start d_end => .colour o_start o_end d_start d_end
  | .desat o_start o_end d_sr d_sg d_sb d_er d_eg d_eb =>
    .desat o_start o_end d_sr d_sg d_sb d_er d_eg d_eb
  | .blend o_start o_end col => .blend o_start o_end col
  | .tint o_start o_end col amount => .tint o_start o_end col amount
  | .special o_start o_end name => .special o_start o_end name

/-- `Translation::clear`: clears the translation. -/
def Translation.clear (_t : Translation) : Translation :=
  { translations := [], built_in_name := "", desat_amount := 0 }

/-- One round of the loop of `Translation::copy`: the six tests of the type
tag of the range `r`, each pushing a copy of `r` when it holds. -/
def copyRange (cls : RangeClasses) (translations : List TransRange) (r : TransRange) :
    List TransRange :=
  let t1 := if r.type cls = cls.TRANS_PALETTE then translations ++ [r.copyOf] else translations
  let t2 := if r.type cls = cls.TRANS_COLOUR then t1 ++ [r.copyOf] else t1
  let t3 := if r.type cls = cls.TRANS_DESAT then t2 ++ [r.copyOf] else t2
  let t4 := if r.type cls = cls.TRANS_BLEND then t3 ++ [r.copyOf] else t3
  let t5 := if r.type cls = cls.TRANS_TINT then t4 ++ [r.copyOf] else t4
  if r.type cls = cls.TRANS_SPECIAL then t5 ++ [r.copyOf] else t5

/-- `Translation::copy`: copies translation information from `copy`. The
result is the pair of the two objects afterwards, this translation first and
`copy`, which is only read, second. -/
def Translation.copy (cls : RangeClasses) (t copy : Translation) :
    Translation × Translation :=
  -- Clear current definitions
  let t0 := t.clear
  -- Copy translations
  let translations := copy.translations.foldl (copyRange cls) t0.translations
  ({ translations := translations
     built_in_name := copy.built_in_name
     desat_amount := copy.desat_amount }, copy)

/-- The `switch` of `Translation::addRange` that creates the range. The case
`TRANS_SPECIAL` has no `break`: after building a special range control runs
on into `default`, which replaces it by a palette range. -/
def newRange (cls : RangeClasses) (type : Int) : TransRange :=
  if type = cls.TRANS_COLOUR then cls.TransRangeColour
  else if type = cls.TRANS_DESAT then cls.TransRangeDesat
  else if type = cls.TRANS_BLEND then cls.TransRangeBlend
  else if type = cls.TRANS_TINT then cls.TransRangeTint
  else if type = cls.TRANS_SPECIAL then
    (fun (_tr : TransRange) => cls.TransRangePalette) cls.TransRangeSpecial
  else cls.TransRangePalette

/-- `Translation::addRange`: adds a new translation range of `type` at `pos`
in the list. -/
def Translation.addRange (cls : RangeClasses) (t : Translation) (type pos : Int) :
    Translation :=
  let tr := newRange cls type
  if pos < 0 ∨ pos ≥ (t.translations.length : Int) then
    { t with translations := t.translations ++ [tr] }
  else
    { t with translations := t.translations.insertIdx pos.toNat tr }

/-- `Translation::removeRange`: removes the translation range at `pos`. -/
def Translation.removeRange (t : Translation) (pos : Int) : Translation :=
  if pos < 0 ∨ pos ≥ (t.translations.length : Int) then t
  else { t with translations := t.translations.eraseIdx pos.toNat }

/-- `Translation::swapRanges`: swaps the translation range at `pos1` with the
one at `pos2`. -/
def Translation.swapRanges (t : Translation) (pos1 pos2 : Int) : Translation :=
  if pos1 < 0 ∨ pos2 < 0 ∨ pos1 ≥ (t.translations.length : Int)
      ∨ pos2 ≥ (t.translations.length : Int) then t
  else
    match t.translations[pos1.toNat]?, t.translations[pos2.toNat]? with
    | some temp, some other =>
      { t with translations := (t.translations.set pos1.toNat other).set pos2.toNat temp }
    | _, _ => t

/-- Type tags and default ranges for worked examples: the tags 1 to 6 and
ranges over the single index 0. -/
def exampleClasses : RangeClasses where
  TRANS_PALETTE := 1
  TRANS_COLOUR := 2
  TRANS_DESAT := 3
  TRANS_BLEND := 4
  TRANS_TINT := 5
  TRANS_SPECIAL := 6
  tags_nodup := by decide
  TransRangePalette := .palette 0 0 0 0
  TransRangeColour := .colour 0 0 (rgba_t.rgb 0 0 0) (rgba_t.rgb 255 255 255)
  TransRangeDesat := .desat 0 0 0 0 0 2 2 2
  TransRangeBlend := .blend 0 0 (rgba_t.rgb 255 0 0)
  TransRangeTint := .tint 0 0 (rgba_t.rgb 255 0 0) 50
  TransRangeSpecial := .special 0 0 ""
  palette_kind := rfl
  colour_kind := rfl
  desat_kind := rfl
  blend_kind := rfl
  tint_kind := rfl
  special_kind := rfl

/-! # Theorems -/

/-! ### Rounding and conversions -/

theorem FloatFormat.rnd_int {p : Nat} (F : FloatFormat p) (m : Int) (hm : |m| < 2 ^ p) :
    F.rnd (m : ℚ) = m := by
  have h := F.exact m 0 hm (by norm_num) (by norm_num)
  simpa using h

theorem FloatFormat.rnd_nat {p : Nat} (F : FloatFormat p) (n : Nat) (hn : n < 2 ^ p) :
    F.rnd (n : ℚ) = n := by
  have h := F.rnd_int (n : Int) (by
    rw [abs_of_nonneg (by positivity)]
    exact_mod_cast hn)
  simpa using h

theorem FloatFormat.rnd_div_pow {p : Nat} (F : FloatFormat p) (m : Int) (k : Nat)
    (hm : |m| < 2 ^ p) (hk : k ≤ 100) : F.rnd ((m : ℚ) / 2 ^ k) = (m : ℚ) / 2 ^ k := by
  have h := F.exact m (-(k : Int)) hm (by omega) (by omega)
  rw [zpow_neg, zpow_natCast] at h
  rw [div_eq_mul_inv]
  exact h

theorem truncToInt_eq {x : ℚ} {k : Int} (hk : 0 ≤ k) (h1 : (k : ℚ) ≤ x) (h2 : x < k + 1) :
    truncToInt x = k := by
  unfold truncToInt
  have hx : 0 ≤ x := le_trans (by exact_mod_cast hk) h1
  have hnum : 0 ≤ x.num := Rat.num_nonneg.mpr hx
  rw [Int.tdiv_eq_ediv hnum (by positivity)]
  have : ⌊x⌋ = k := by
    rw [Int.floor_eq_iff]
    exact ⟨h1, h2⟩
  rw [← this, Rat.floor_def]



theorem toUInt8_natCast {n : Nat} (h : n ≤ 255) : toUInt8 (n : Int) = n := by
  unfold toUInt8
  omega

theorem MIN_255_natCast {n : Nat} (h : n ≤ 255) : MIN 255 (n : Int) = n := by
  unfold MIN
  split <;> omega

theorem greyZDoom_eq (F : FloatFormat 24) (col : rgba_t)
    (hr : col.r ≤ 255) (hg : col.g ≤ 255) (hb : col.b ≤ 255) :
    greyZDoom F col = ((col.r * 77 + col.g * 143 + col.b * 37 : Nat) : ℚ) / 256 := by
  unfold greyZDoom
  have hN : col.r * 77 + col.g * 143 + col.b * 37 < 2 ^ 24 := by norm_num; omega
  rw [F.rnd_nat _ hN]
  have h := F.rnd_div_pow ((col.r * 77 + col.g * 143 + col.b * 37 : Nat) : Int) 8
    (by rw [abs_of_nonneg (by positivity)]; exact_mod_cast hN) (by norm_num)
  norm_num at h ⊢
  exact h

theorem desatChannel_zero (F : FloatFormat 24) (c : Nat) (grey : ℚ) (hc : c ≤ 255) :
    desatChannel F c grey 0 = c := by
  unfold desatChannel
  have h31 : F.rnd ((31 : ℚ) - 0) = 31 := by
    have h := F.rnd_nat 31 (by norm_num)
    simpa using h
  have hmul : F.rnd ((c : ℚ) * 31) = (c : ℚ) * 31 := by
    have h := F.rnd_nat (c * 31) (by norm_num; omega)
    push_cast at h
    exact h
  have h0 : F.rnd (grey * 0) = 0 := by
    have h := F.rnd_nat 0 (by norm_num)
    simpa using h
  have hc' : F.rnd (c : ℚ) = c := F.rnd_nat c (by norm_num; omega)
  rw [h31, hmul, h0, add_zero, hmul, mul_div_assoc, div_self (by norm_num), mul_one, hc']
  have ht : truncToInt (c : ℚ) = (c : Int) :=
    truncToInt_eq (by positivity) (by simp) (by simp)
  rw [ht, MIN_255_natCast hc, toUInt8_natCast hc]



theorem desatChannel_thirty (F : FloatFormat 24) (c N : Nat) (hc : c ≤ 255) (hN : N ≤ 65535) :
    desatChannel F c ((N : ℚ) / 256) 30 = (256 * c + 30 * N) / 7936 := by
  unfold desatChannel
  have h1 : F.rnd ((31 : ℚ) - 30) = 1 := by
    have h := F.rnd_nat 1 (by norm_num)
    norm_num at h ⊢
    exact h
  have hc' : F.rnd (c : ℚ) = c := F.rnd_nat c (by norm_num; omega)
  have hg : F.rnd ((N : ℚ) / 256 * 30) = ((30 * N : Nat) : ℚ) / 2 ^ 8 := by
    have h := F.rnd_div_pow ((30 * N : Nat) : Int) 8
      (by rw [abs_of_nonneg (by positivity)]; norm_num; omega) (by norm_num)
    have e : (N : ℚ) / 256 * 30 = (((30 * N : Nat) : Int) : ℚ) / 2 ^ 8 := by
      push_cast; ring
    rw [e, h, Int.cast_natCast]
  have hs : F.rnd ((c : ℚ) + ((30 * N : Nat) : ℚ) / 2 ^ 8)
      = ((256 * c + 30 * N : Nat) : ℚ) / 2 ^ 8 := by
    have h := F.rnd_div_pow ((256 * c + 30 * N : Nat) : Int) 8
      (by rw [abs_of_nonneg (by positivity)]; norm_num; omega) (by norm_num)
    have e : (c : ℚ) + ((30 * N : Nat) : ℚ) / 2 ^ 8
        = (((256 * c + 30 * N : Nat) : Int) : ℚ) / 2 ^ 8 := by
      push_cast; ring
    rw [e, h, Int.cast_natCast]
  rw [h1, mul_one, hc', hg, hs]
  set M := 256 * c + 30 * N with hM
  set k := M / 7936 with hk
  have hdm : 7936 * k + M % 7936 = M := Nat.div_add_mod M 7936
  have hmod : M % 7936 < 7936 := Nat.mod_lt _ (by norm_num)
  have hk255 : k ≤ 255 := by omega
  have hMq : (M : ℚ) = 7936 * k + (M % 7936 : Nat) := by exact_mod_cast hdm.symm
  have hρ : ((M % 7936 : Nat) : ℚ) ≤ 7935 := by
    have : M % 7936 ≤ 7935 := by omega
    exact_mod_cast this
  have hρ0 : (0 : ℚ) ≤ ((M % 7936 : Nat) : ℚ) := by positivity
  -- the representable number just below `k + 1`
  have hy : F.rnd ((((k + 1) * 8192 - 1 : Nat) : Int) / 2 ^ 13)
      = ((((k + 1) * 8192 - 1 : Nat) : Int) : ℚ) / 2 ^ 13 :=
    F.rnd_div_pow _ 13 (by rw [abs_of_nonneg (by positivity)]; norm_num; omega) (by norm_num)
  have hkr : F.rnd (k : ℚ) = k := F.rnd_nat k (by norm_num; omega)
  have hycast : ((((k + 1) * 8192 - 1 : Nat) : Int) : ℚ) = ((k : ℚ) + 1) * 8192 - 1 := by
    have : 1 ≤ (k + 1) * 8192 := by omega
    push_cast [Nat.cast_sub this]
    ring
  have hlow : (k : ℚ) ≤ F.rnd ((M : ℚ) / 2 ^ 8 / 31) := by
    rw [← hkr]
    apply F.mono
    rw [hMq, le_div_iff₀ (by norm_num), le_div_iff₀ (by norm_num)]
    linarith
  have hup : F.rnd ((M : ℚ) / 2 ^ 8 / 31) < (k : ℚ) + 1 := by
    have h1 : F.rnd ((M : ℚ) / 2 ^ 8 / 31)
        ≤ F.rnd ((((k + 1) * 8192 - 1 : Nat) : Int) / 2 ^ 13) := by
      apply F.mono
      rw [hycast, hMq, div_div, div_le_div_iff₀ (by norm_num) (by norm_num)]
      linarith
    rw [hy, hycast] at h1
    have h2 : (((k : ℚ) + 1) * 8192 - 1) / 2 ^ 13 < (k : ℚ) + 1 := by
      rw [div_lt_iff₀ (by norm_num)]
      norm_num
    linarith
  have ht : truncToInt (F.rnd ((M : ℚ) / 2 ^ 8 / 31)) = (k : Int) :=
    truncToInt_eq (by positivity) (by exact_mod_cast hlow) (by exact_mod_cast hup)
  rw [ht, MIN_255_natCast hk255, toUInt8_natCast hk255]

/-! ### specialBlend: the two ends of the Desaturate family -/

/-- C10: for every input colour with channels in 0..255, `specialBlend` with
Desaturate level 1 (amount 0) leaves the r, g and b channels as they were. -/
theorem specialBlend_desat_first_keeps_rgb (F : FloatFormat 24) (col : rgba_t)
    (pal : Palette8bit) (hr : col.r ≤ 255) (hg : col.g ≤ 255) (hb : col.b ≤ 255) :
    (specialBlend F col BLEND_DESAT_FIRST pal).r = col.r ∧
    (specialBlend F col BLEND_DESAT_FIRST pal).g = col.g ∧
    (specialBlend F col BLEND_DESAT_FIRST pal).b = col.b := by
  have e : ((BLEND_DESAT_FIRST : Nat) : ℚ) - 1 = 0 := by norm_num [BLEND_DESAT_FIRST]
  simp only [specialBlend, e]
  simp [BLEND_DESAT_FIRST, BLEND_INVALID, BLEND_ICE, BLEND_DESAT_LAST,
    desatChannel_zero F _ _ hr, desatChannel_zero F _ _ hg, desatChannel_zero F _ _ hb]

/-- Witness for C10 at the colour (200, 100, 50). -/
theorem specialBlend_desat_first_keeps_rgb_witness :
    (specialBlend (exactArith 24) (rgba_t.rgb 200 100 50) BLEND_DESAT_FIRST greyPalette).r = 200 ∧
    (specialBlend (exactArith 24) (rgba_t.rgb 200 100 50) BLEND_DESAT_FIRST greyPalette).g = 100 ∧
    (specialBlend (exactArith 24) (rgba_t.rgb 200 100 50) BLEND_DESAT_FIRST greyPalette).b = 50 :=
  specialBlend_desat_first_keeps_rgb (exactArith 24) (rgba_t.rgb 200 100 50) greyPalette
    (by decide) (by decide) (by decide)

theorem specialBlend_desat_last_rgb (F : FloatFormat 24) (col : rgba_t) (pal : Palette8bit)
    (hr : col.r ≤ 255) (hg : col.g ≤ 255) (hb : col.b ≤ 255) :
    (specialBlend F col BLEND_DESAT_LAST pal).r
      = (256 * col.r + 30 * (col.r * 77 + col.g * 143 + col.b * 37)) / 7936 ∧
    (specialBlend F col BLEND_DESAT_LAST pal).g
      = (256 * col.g + 30 * (col.r * 77 + col.g * 143 + col.b * 37)) / 7936 ∧
    (specialBlend F col BLEND_DESAT_LAST pal).b
      = (256 * col.b + 30 * (col.r * 77 + col.g * 143 + col.b * 37)) / 7936 := by
  have e : ((BLEND_DESAT_LAST : Nat) : ℚ) - 1 = 30 := by norm_num [BLEND_DESAT_LAST]
  have hN : col.r * 77 + col.g * 143 + col.b * 37 ≤ 65535 := by omega
  have h1 := desatChannel_thirty F _ _ hr hN
  have h2 := desatChannel_thirty F _ _ hg hN
  have h3 := desatChannel_thirty F _ _ hb hN
  simp only [specialBlend, e, greyZDoom_eq F col hr hg hb]
  simp only [BLEND_DESAT_FIRST, BLEND_INVALID, BLEND_ICE, BLEND_DESAT_LAST]
  simp only [Nat.reduceEqDiff, if_false, Nat.one_le_ofNat, le_refl, and_self, if_true]
  exact ⟨h1, h2, h3⟩



theorem floor_toward_grey (c N : Nat) :
    ⌊((c : ℚ) + 30 * ((N : ℚ) / 256)) / 31⌋ = (((256 * c + 30 * N) / 7936 : Nat) : Int) := by
  have e : ((c : ℚ) + 30 * ((N : ℚ) / 256)) / 31
      = (((256 * c + 30 * N : Nat) : Int) : ℚ) / ((7936 : Nat) : ℚ) := by
    push_cast
    ring
  rw [e, Rat.floor_intCast_div_natCast]
  push_cast
  rfl

theorem truncToInt_natCast_div (N d : Nat) (hd : 0 < d) :
    truncToInt ((N : ℚ) / d) = ((N / d : Nat) : Int) := by
  have hdm : d * (N / d) + N % d = N := Nat.div_add_mod N d
  have hmod : N % d < d := Nat.mod_lt _ hd
  generalize N / d = q at hdm
  generalize N % d = ρ at hdm hmod
  have hdq : (0 : ℚ) < d := by exact_mod_cast hd
  have hNq : (N : ℚ) = d * q + ρ := by exact_mod_cast hdm.symm
  have hmq : (ρ : ℚ) < d := by exact_mod_cast hmod
  have hm0 : (0 : ℚ) ≤ (ρ : ℚ) := by positivity
  apply truncToInt_eq (by positivity)
  · rw [le_div_iff₀ hdq, Int.cast_natCast]
    linarith
  · rw [div_lt_iff₀ hdq, Int.cast_natCast]
    linarith

/-- C9 (amended): for every input colour with channels in 0..255, the grey
value of `specialBlend` is exactly `(77 r + 143 g + 37 b) / 256`, and
`specialBlend` with Desaturate level 31 (amount 30) sets each of r, g, b to
the integer part of `(c + 30 * grey) / 31`, where `c` is that channel of the
input and `grey = (77 r + 143 g + 37 b) / 256`: the channel moves 30/31 of the
way to grey. When the input is already grey (`r = g = b`) the three output
channels equal the truncated grey value. -/
theorem specialBlend_desat_last_toward_grey (F : FloatFormat 24) (col : rgba_t)
    (pal : Palette8bit) (hr : col.r ≤ 255) (hg : col.g ≤ 255) (hb : col.b ≤ 255) :
    greyZDoom F col = (77 * (col.r : ℚ) + 143 * (col.g : ℚ) + 37 * (col.b : ℚ)) / 256 ∧
    (((specialBlend F col BLEND_DESAT_LAST pal).r : Int)
        = ⌊((col.r : ℚ) + 30 * greyZDoom F col) / 31⌋ ∧
      ((specialBlend F col BLEND_DESAT_LAST pal).g : Int)
        = ⌊((col.g : ℚ) + 30 * greyZDoom F col) / 31⌋ ∧
      ((specialBlend F col BLEND_DESAT_LAST pal).b : Int)
        = ⌊((col.b : ℚ) + 30 * greyZDoom F col) / 31⌋) ∧
    (col.r = col.g → col.g = col.b →
      ((specialBlend F col BLEND_DESAT_LAST pal).r : Int) = truncToInt (greyZDoom F col) ∧
      ((specialBlend F col BLEND_DESAT_LAST pal).g : Int) = truncToInt (greyZDoom F col) ∧
      ((specialBlend F col BLEND_DESAT_LAST pal).b : Int) = truncToInt (greyZDoom F col)) := by
  obtain ⟨h1, h2, h3⟩ := specialBlend_desat_last_rgb F col pal hr hg hb
  rw [greyZDoom_eq F col hr hg hb, floor_toward_grey, floor_toward_grey, floor_toward_grey,
    h1, h2, h3]
  refine ⟨by push_cast; ring, ⟨rfl, rfl, rfl⟩, ?_⟩
  intro hrg hgb
  have ht := truncToInt_natCast_div (col.r * 77 + col.g * 143 + col.b * 37) 256 (by norm_num)
  rw [show ((256 : Nat) : ℚ) = 256 by norm_num] at ht
  rw [ht]
  rw [hrg, hgb] at *
  have e1 : (256 * col.b + 30 * (col.b * 77 + col.b * 143 + col.b * 37)) / 7936 = col.b := by
    omega
  have e2 : (col.b * 77 + col.b * 143 + col.b * 37) / 256 = col.b := by omega
  rw [e1, e2]
  exact ⟨rfl, rfl, rfl⟩

/-- Witness for C9 (amended) at the grey colour (100, 100, 100). -/
theorem specialBlend_desat_last_toward_grey_witness :
    greyZDoom (exactArith 24) (rgba_t.rgb 100 100 100)
      = (77 * ((rgba_t.rgb 100 100 100).r : ℚ) + 143 * ((rgba_t.rgb 100 100 100).g : ℚ)
          + 37 * ((rgba_t.rgb 100 100 100).b : ℚ)) / 256 ∧
    (((specialBlend (exactArith 24) (rgba_t.rgb 100 100 100) BLEND_DESAT_LAST greyPalette).r : Int)
        = ⌊(((rgba_t.rgb 100 100 100).r : ℚ)
            + 30 * greyZDoom (exactArith 24) (rgba_t.rgb 100 100 100)) / 31⌋ ∧
      ((specialBlend (exactArith 24) (rgba_t.rgb 100 100 100) BLEND_DESAT_LAST greyPalette).g : Int)
        = ⌊(((rgba_t.rgb 100 100 100).g : ℚ)
            + 30 * greyZDoom (exactArith 24) (rgba_t.rgb 100 100 100)) / 31⌋ ∧
      ((specialBlend (exactArith 24) (rgba_t.rgb 100 100 100) BLEND_DESAT_LAST greyPalette).b : Int)
        = ⌊(((rgba_t.rgb 100 100 100).b : ℚ)
            + 30 * greyZDoom (exactArith 24) (rgba_t.rgb 100 100 100)) / 31⌋) ∧
    (((specialBlend (exactArith 24) (rgba_t.rgb 100 100 100) BLEND_DESAT_LAST greyPalette).r : Int)
        = truncToInt (greyZDoom (exactArith 24) (rgba_t.rgb 100 100 100)) ∧
      ((specialBlend (exactArith 24) (rgba_t.rgb 100 100 100) BLEND_DESAT_LAST greyPalette).g : Int)
        = truncToInt (greyZDoom (exactArith 24) (rgba_t.rgb 100 100 100)) ∧
      ((specialBlend (exactArith 24) (rgba_t.rgb 100 100 100) BLEND_DESAT_LAST greyPalette).b : Int)
        = truncToInt (greyZDoom (exactArith 24) (rgba_t.rgb 100 100 100))) :=
  have h := specialBlend_desat_last_toward_grey (exactArith 24) (rgba_t.rgb 100 100 100)
    greyPalette (by decide) (by decide) (by decide)
  ⟨h.1, h.2.1, h.2.2 rfl rfl⟩

/-- C9 (counterexample): on pure red (255, 0, 0) Desaturate level 31 gives the
channels (82, 74, 74) in every floating-point format, while the grey value
19635/256 truncates to 76: no output channel equals it. -/
theorem specialBlend_desat_last_not_grey :
    (∀ (F : FloatFormat 24) (pal : Palette8bit),
      (specialBlend F (rgba_t.rgb 255 0 0) BLEND_DESAT_LAST pal).r = 82 ∧
      (specialBlend F (rgba_t.rgb 255 0 0) BLEND_DESAT_LAST pal).g = 74 ∧
      (specialBlend F (rgba_t.rgb 255 0 0) BLEND_DESAT_LAST pal).b = 74) ∧
    (∀ F : FloatFormat 24, truncToInt (greyZDoom F (rgba_t.rgb 255 0 0)) = 76) := by
  constructor
  · intro F pal
    exact specialBlend_desat_last_rgb F (rgba_t.rgb 255 0 0) pal (by decide) (by decide)
      (by decide)
  · intro F
    rw [greyZDoom_eq F _ (by decide) (by decide) (by decide)]
    have ht := truncToInt_natCast_div
      ((rgba_t.rgb 255 0 0).r * 77 + (rgba_t.rgb 255 0 0).g * 143 + (rgba_t.rgb 255 0 0).b * 37)
      256 (by norm_num)
    rw [show ((256 : Nat) : ℚ) = 256 by norm_num] at ht
    rw [ht]
    decide

/-! ### translate -/

/-- C5: a Translation whose `built_in_name` is "Ice" translates every colour
to `specialBlend(col, BLEND_ICE, pal)`, whatever its list of ranges holds; so
two such Translations that differ only in their lists agree on every colour. -/
theorem translate_ice_ignores_ranges (env : Env) (ranges ranges2 : List TransRange)
    (amount : Nat) (col : rgba_t) (pal : Option Palette8bit) :
    Translation.translate env
        { translations := ranges, built_in_name := "Ice", desat_amount := amount } col pal
      = specialBlend env.f32 col BLEND_ICE (pal.getD env.currentPalette) ∧
    Translation.translate env
        { translations := ranges, built_in_name := "Ice", desat_amount := amount } col pal
      = Translation.translate env
        { translations := ranges2, built_in_name := "Ice", desat_amount := amount } col pal := by
  have hlen : ("Ice" : String).length ≠ 0 := by decide
  have hty : builtInType "Ice" amount = BLEND_ICE := by
    unfold builtInType
    rw [if_pos (by decide)]
  constructor <;> simp only [Translation.translate, hlen, hty, ne_eq, not_false_eq_true, if_true]

theorem translateRanges_palette_hit (env : Env) (col : rgba_t) (pal : Palette8bit) (i : Nat)
    (o_start o_end d_start d_end : Nat) (rest : List TransRange) (colour : rgba_t)
    (h1 : o_start ≤ i) (h2 : i ≤ o_end) :
    translateRanges env col pal i (TransRange.palette o_start o_end d_start d_end :: rest) colour
      = translateRanges env col pal i rest
        { colour with
          r := (pal.colour (lerpByte env.f64 d_start d_end (rangeFrac env.f64 i o_start o_end))).r
          g := (pal.colour (lerpByte env.f64 d_start d_end (rangeFrac env.f64 i o_start o_end))).g
          b := (pal.colour (lerpByte env.f64 d_start d_end (rangeFrac env.f64 i o_start o_end))).b
          a := (pal.colour (lerpByte env.f64 d_start d_end (rangeFrac env.f64 i o_start o_end))).a
          index := (lerpByte env.f64 d_start d_end (rangeFrac env.f64 i o_start o_end) : Int) } := by
  have h : ¬ (i < o_start ∨ i > o_end) := by omega
  simp only [translateRanges, TransRange.oStart, TransRange.oEnd, h, if_false]

theorem translateRanges_miss (env : Env) (col : rgba_t) (pal : Palette8bit) (i : Nat)
    (r : TransRange) (rest : List TransRange) (colour : rgba_t)
    (h : i < r.oStart ∨ i > r.oEnd) :
    translateRanges env col pal i (r :: rest) colour
      = translateRanges env col pal i rest colour := by
  simp only [translateRanges, h, if_true]

theorem lerpByte_example (F : FloatFormat 53) :
    lerpByte F 100 120 (rangeFrac F 10 5 15) = 110 := by
  have hf : rangeFrac F 10 5 15 = 1 / 2 := by
    unfold rangeFrac
    rw [if_pos (by decide)]
    have h := F.rnd_div_pow 1 1 (by norm_num) (by norm_num)
    norm_num at h ⊢
    exact h
  have h10 : F.rnd ((1 : ℚ) / 2 * (((120 : Nat) : ℚ) - ((100 : Nat) : ℚ))) = 10 := by
    have h := F.rnd_nat 10 (by norm_num)
    norm_num at h ⊢
    exact h
  have h110 : F.rnd ((((100 : Nat) : ℚ)) + 10) = ((110 : Nat) : ℚ) := by
    have h := F.rnd_nat 110 (by norm_num)
    norm_num at h ⊢
    exact h
  unfold lerpByte
  rw [hf, h10, h110]
  have ht : truncToInt ((110 : Nat) : ℚ) = ((110 : Nat) : Int) :=
    truncToInt_eq (by positivity) (by simp) (by simp)
  rw [ht]
  exact toUInt8_natCast (by norm_num)

/-- C4: with two Palette ranges P1 then P2 whose origin intervals both
contain the resolved index of the colour, `translate` returns exactly what it
returns when the list holds only P2. With `[0,20] -> [0,20]` then
`[5,15] -> [100,120]`, index 10 yields destination index 110 and the palette
colour at 110. -/
theorem translate_palette_last_wins (env : Env) (col : rgba_t) (pal : Option Palette8bit)
    (amount : Nat) :
    (∀ o1 e1 d1 f1 o2 e2 d2 f2 : Nat,
      o1 ≤ resolveIndex col (pal.getD env.currentPalette) →
      resolveIndex col (pal.getD env.currentPalette) ≤ e1 →
      o2 ≤ resolveIndex col (pal.getD env.currentPalette) →
      resolveIndex col (pal.getD env.currentPalette) ≤ e2 →
      Translation.translate env
          { translations := [TransRange.palette o1 e1 d1 f1, TransRange.palette o2 e2 d2 f2]
            built_in_name := "", desat_amount := amount } col pal
        = Translation.translate env
          { translations := [TransRange.palette o2 e2 d2 f2]
            built_in_name := "", desat_amount := amount } col pal) ∧
    (resolveIndex col (pal.getD env.currentPalette) = 10 →
      (Translation.translate env
          { translations := [TransRange.palette 0 20 0 20, TransRange.palette 5 15 100 120]
            built_in_name := "", desat_amount := amount } col pal).index = 110 ∧
      (Translation.translate env
          { translations := [TransRange.palette 0 20 0 20, TransRange.palette 5 15 100 120]
            built_in_name := "", desat_amount := amount } col pal).r
        = ((pal.getD env.currentPalette).colour 110).r ∧
      (Translation.translate env
          { translations := [TransRange.palette 0 20 0 20, TransRange.palette 5 15 100 120]
            built_in_name := "", desat_amount := amount } col pal).g
        = ((pal.getD env.currentPalette).colour 110).g ∧
      (Translation.translate env
          { translations := [TransRange.palette 0 20 0 20, TransRange.palette 5 15 100 120]
            built_in_name := "", desat_amount := amount } col pal).b
        = ((pal.getD env.currentPalette).colour 110).b ∧
      (Translation.translate env
          { translations := [TransRange.palette 0 20 0 20, TransRange.palette 5 15 100 120]
            built_in_name := "", desat_amount := amount } col pal).a
        = ((pal.getD env.currentPalette).colour 110).a) := by
  have hlen : ¬ (("" : String).length ≠ 0) := by decide
  constructor
  · intro o1 e1 d1 f1 o2 e2 d2 f2 h1 h2 h3 h4
    simp only [Translation.translate, hlen, if_false]
    rw [translateRanges_palette_hit env _ _ _ _ _ _ _ _ _ h1 h2,
      translateRanges_palette_hit env _ _ _ _ _ _ _ _ _ h3 h4,
      translateRanges_palette_hit env _ _ _ _ _ _ _ _ _ h3 h4]
  · intro h10
    simp only [Translation.translate, hlen, if_false]
    rw [translateRanges_palette_hit env _ _ _ _ _ _ _ _ _ (by omega) (by omega),
      translateRanges_palette_hit env _ _ _ _ _ _ _ _ _ (by omega) (by omega), h10,
      lerpByte_example]
    simp [translateRanges]

/-- Witness for C4: index 10 under `[0,20] -> [0,20]` then `[5,15] -> [100,120]`
in exact arithmetic on the greyscale palette. -/
theorem translate_palette_last_wins_witness :
    Translation.translate exactEnv
        { translations := [TransRange.palette 0 20 0 20, TransRange.palette 5 15 100 120]
          built_in_name := "", desat_amount := 0 }
        { r := 10, g := 10, b := 10, a := 255, index := 10, blend := -1 } none
      = Translation.translate exactEnv
        { translations := [TransRange.palette 5 15 100 120]
          built_in_name := "", desat_amount := 0 }
        { r := 10, g := 10, b := 10, a := 255, index := 10, blend := -1 } none ∧
    (Translation.translate exactEnv
        { translations := [TransRange.palette 0 20 0 20, TransRange.palette 5 15 100 120]
          built_in_name := "", desat_amount := 0 }
        { r := 10, g := 10, b := 10, a := 255, index := 10, blend := -1 } none).index = 110 :=
  ⟨(translate_palette_last_wins exactEnv
      { r := 10, g := 10, b := 10, a := 255, index := 10, blend := -1 } none 0).1
      0 20 0 20 5 15 100 120 (by decide) (by decide) (by decide) (by decide),
   ((translate_palette_last_wins exactEnv
      { r := 10, g := 10, b := 10, a := 255, index := 10, blend := -1 } none 0).2
    (by decide)).1⟩

/-! ### read -/

theorem readLoop_run (data : Nat → Nat) (o d : Nat) (tr : List TransRange) :
    ∀ (n i : Nat), i + n ≤ 254 →
      (∀ j, i ≤ j → j < i + n → data (j + 1) = data j + 1) →
      readLoop data (255 - i) { i := i, val := data i, o_start := o, d_start := d, translations := tr }
        = readLoop data (255 - (i + n))
          { i := i + n, val := data (i + n), o_start := o, d_start := d, translations := tr } := by
  intro n
  induction n with
  | zero => intro i _ _; rfl
  | succ n ih =>
    intro i hi hrun
    have hfuel : 255 - i = (255 - (i + 1)) + 1 := by omega
    have hstep : data (i + 1) = data i + 1 := hrun i (le_refl _) (by omega)
    have hbody : readBody data
        { i := i, val := data i, o_start := o, d_start := d, translations := tr }
        = { i := i + 1, val := data (i + 1), o_start := o, d_start := d, translations := tr } := by
      have hc : ¬ (data (i + 1) ≠ data i + 1 ∨ i + 1 = 255) := by omega
      simp only [readBody, hc, if_false]
    rw [hfuel, readLoop, if_pos (by show i < 255; omega), hbody,
      ih (i + 1) (by omega) (fun j h1 h2 => hrun j (by omega) (by omega))]
    have e : i + 1 + n = i + (n + 1) := by omega
    rw [e]

theorem readLoop_close (data : Nat → Nat) (i o d : Nat) (tr : List TransRange) (hi : i ≤ 254)
    (hbrk : data (i + 1) ≠ data i + 1 ∨ i + 1 = 255) :
    readLoop data (255 - i) { i := i, val := data i, o_start := o, d_start := d, translations := tr }
      = readLoop data (255 - (i + 1))
        { i := i + 1, val := data (i + 1), o_start := i + 1, d_start := data (i + 1)
          translations :=
            if o ≠ d ∧ i ≠ data i then tr ++ [TransRange.palette o i d (data i)] else tr } := by
  have hfuel : 255 - i = (255 - (i + 1)) + 1 := by omega
  rw [hfuel, readLoop, if_pos (by show i < 255; omega)]
  simp only [readBody, hbrk, if_true, Nat.add_sub_cancel]

/-! #### The loop invariant -/

theorem TableRange.mono {data : Nat → Nat} {b1 b2 : Nat} {r : TransRange}
    (h : TableRange data b1 r) (hb : b1 ≤ b2) : TableRange data b2 r := by
  obtain ⟨o, e, d, f, hr, h1, h2, h3, h4, h5⟩ := h
  exact ⟨o, e, d, f, hr, h1, by omega, h3, h4, h5⟩

theorem readInit_inv (data : Nat → Nat) : ReadInv data (readInit data []) := by
  refine ⟨by simp [readInit], by simp [readInit], by simp [readInit], rfl, rfl, ?_, ?_, ?_, ?_⟩
  · intro j h1 h2
    have : j = 0 := by simp [readInit] at h2; exact h2
    subst this
    simp [readInit]
  · intro r hr
    simp [readInit] at hr
  · simp [readInit]
  · intro j hj
    simp [readInit] at hj

theorem readBody_inv (data : Nat → Nat) (s : ReadState) (h : ReadInv data s)
    (hi : s.i < 255) : ReadInv data (readBody data s) := by
  obtain ⟨h1, h2, h3, h4, h5, h6, h7, h8, h9⟩ := h
  by_cases hbrk : data (s.i + 1) ≠ s.val + 1 ∨ s.i + 1 = 255
  · -- the run `o_start..i` is closed
    have hbody : readBody data s
        = { i := s.i + 1, val := data (s.i + 1), o_start := s.i + 1, d_start := data (s.i + 1)
            translations :=
              if s.o_start ≠ s.d_start ∧ s.i ≠ s.val then
                s.translations ++ [TransRange.palette s.o_start s.i s.d_start s.val]
              else s.translations } := by
      simp only [readBody, hbrk, if_true, Nat.add_sub_cancel]
    rw [hbody]
    have hval : s.val = s.d_start + (s.i - s.o_start) := by
      rw [h4]; exact h6 s.i h2 (le_refl _)
    have hlast : ∀ j, s.i + 1 ≤ j → j ≤ s.i + 1 →
        data j = data (s.i + 1) + (j - (s.i + 1)) := by
      intro j hj1 hj2
      have : j = s.i + 1 := by omega
      subst this
      simp
    by_cases hkeep : s.o_start ≠ s.d_start ∧ s.i ≠ s.val
    · rw [if_pos hkeep]
      refine ⟨by show s.i + 1 ≤ 255; omega, le_refl _, fun _ => by assumption, rfl, rfl,
        hlast, ?_, ?_, ?_⟩
      · intro r hr
        simp only [List.mem_append, List.mem_singleton] at hr
        rcases hr with hr | hr
        · exact (h7 r hr).mono (by show s.o_start ≤ s.i + 1; omega)
        · exact ⟨s.o_start, s.i, s.d_start, s.val, hr, h2, Nat.lt_succ_self _,
            hval, hkeep.1, h6⟩
      · show List.Pairwise _ (s.translations ++ [_])
        rw [List.pairwise_append]
        refine ⟨h8, by simp, ?_⟩
        intro p hp q hq
        simp only [List.mem_singleton] at hq
        subst hq
        obtain ⟨o, e, d, f, hr, -, he, -⟩ := h7 p hp
        subst hr
        exact he
      · intro j hj
        have hj' : j < s.i + 1 := hj
        by_cases hlt : j < s.o_start
        · rcases h9 j hlt with ⟨r, hr, hc⟩ | hid
          · exact Or.inl ⟨r, List.mem_append_left _ hr, hc⟩
          · exact Or.inr hid
        · refine Or.inl ⟨_, List.mem_append_right _ (List.mem_singleton_self _), ?_⟩
          show s.o_start ≤ j ∧ j ≤ s.i
          omega
    · rw [if_neg hkeep]
      have hsame : s.o_start = s.d_start := by
        by_contra hne
        apply hkeep
        refine ⟨hne, ?_⟩
        omega
      refine ⟨by show s.i + 1 ≤ 255; omega, le_refl _, fun _ => by assumption, rfl, rfl,
        hlast, ?_, h8, ?_⟩
      · intro r hr
        exact (h7 r hr).mono (by show s.o_start ≤ s.i + 1; omega)
      · intro j hj
        have hj' : j < s.i + 1 := hj
        by_cases hlt : j < s.o_start
        · exact h9 j hlt
        · refine Or.inr ?_
          rw [h6 j (by omega) (by omega), ← hsame]
          omega
  · -- the run goes on
    have hnext : data (s.i + 1) = s.val + 1 := by
      by_contra hne
      exact hbrk (Or.inl hne)
    have hnot : s.i + 1 ≠ 255 := fun h => hbrk (Or.inr h)
    have hbody : readBody data s = { s with i := s.i + 1, val := data (s.i + 1) } := by
      simp only [readBody, hbrk, if_false]
    rw [hbody]
    refine ⟨by show s.i + 1 ≤ 255; omega, by show s.o_start ≤ s.i + 1; omega,
      fun h => absurd h hnot, rfl, h5, ?_, h7, h8, h9⟩
    intro j hj1 hj2
    have hj1' : s.o_start ≤ j := hj1
    have hj2' : j ≤ s.i + 1 := hj2
    show data j = s.d_start + (j - s.o_start)
    by_cases hle : j ≤ s.i
    · exact h6 j hj1' hle
    · have hj : j = s.i + 1 := by omega
      have hv := h6 s.i h2 (le_refl _)
      rw [hj, hnext, h4, hv]
      omega

theorem readLoop_inv (data : Nat → Nat) :
    ∀ (fuel : Nat) (s : ReadState), ReadInv data s → 255 - s.i ≤ fuel →
      ReadInv data (readLoop data fuel s) ∧ (readLoop data fuel s).i = 255 := by
  intro fuel
  induction fuel with
  | zero =>
    intro s h hf
    exact ⟨h, by have := h.1; simp only [readLoop]; omega⟩
  | succ n ih =>
    intro s h hf
    rw [readLoop]
    by_cases hi : s.i < 255
    · rw [if_pos hi]
      have hb := readBody_inv data s h hi
      have hi' : (readBody data s).i = s.i + 1 := by
        by_cases hbrk : data (s.i + 1) ≠ s.val + 1 ∨ s.i + 1 = 255
        · simp only [readBody, hbrk, if_true]
        · simp only [readBody, hbrk, if_false]
      exact ih _ hb (by omega)
    · rw [if_neg hi]
      exact ⟨h, by have := h.1; omega⟩

/-- What `read` builds from any table on an empty Translation: the ranges are
Palette ranges within `0..254`, none an identity, each agreeing with the table
on the indices it covers, in increasing order without overlap; and every index
`0..254` is covered by a range or mapped to itself by the table. -/
theorem read_structure (data : Nat → Nat) :
    (∀ r ∈ (Translation.new.read data).translations, TableRange data 255 r) ∧
    (Translation.new.read data).translations.Pairwise (fun p q => p.oEnd < q.oStart) ∧
    (∀ j, j ≤ 254 →
      (∃ r ∈ (Translation.new.read data).translations, r.oStart ≤ j ∧ j ≤ r.oEnd)
        ∨ ((∀ r ∈ (Translation.new.read data).translations, ¬ (r.oStart ≤ j ∧ j ≤ r.oEnd))
            ∧ data j = j)) := by
  obtain ⟨hinv, hi⟩ := readLoop_inv data 255 (readInit data []) (readInit_inv data)
    (by simp [readInit])
  obtain ⟨-, -, h3, -, -, -, h7, h8, h9⟩ := hinv
  have ho := h3 hi
  rw [ho] at h7 h9
  refine ⟨h7, h8, ?_⟩
  intro j hj
  rcases h9 j (by omega) with hc | hid
  · exact Or.inl hc
  · by_cases hcov : ∃ r ∈ (Translation.new.read data).translations, r.oStart ≤ j ∧ j ≤ r.oEnd
    · exact Or.inl hcov
    · refine Or.inr ⟨?_, hid⟩
      intro r hr hc
      exact hcov ⟨r, hr, hc⟩

/-! #### Tables with one shifted block -/

theorem readLoop_shift_phase1 (a b : Nat) (k : Int) (hab : a ≤ b) (hb : b ≤ 254)
    (hk : k ≠ 0) (hlo : 0 ≤ (a : Int) + k) :
    readLoop (shiftTable a b k) (255 - 0)
        { i := 0, val := shiftTable a b k 0, o_start := 0, d_start := shiftTable a b k 0
          translations := [] }
      = readLoop (shiftTable a b k) (255 - a)
        { i := a, val := shiftTable a b k a, o_start := a, d_start := shiftTable a b k a
          translations := [] } := by
  cases a with
  | zero => rfl
  | succ n =>
    have hout : ∀ j, j ≤ n → shiftTable (n + 1) b k j = j := by
      intro j hj
      have hc : ¬ (n + 1 ≤ j ∧ j ≤ b) := by omega
      simp only [shiftTable, hc, if_false]
    have hin : shiftTable (n + 1) b k (n + 1) = (((n + 1 : Nat) : Int) + k).toNat := by
      have hc : n + 1 ≤ n + 1 ∧ n + 1 ≤ b := by omega
      simp only [shiftTable, hc, and_self, if_true]
    have h1 := readLoop_run (shiftTable (n + 1) b k) 0 (shiftTable (n + 1) b k 0) [] n 0
      (by omega) (fun j _ h2 => by rw [hout j (by omega), hout (j + 1) (by omega)])
    rw [h1, Nat.zero_add]
    have h2 := readLoop_close (shiftTable (n + 1) b k) n 0 (shiftTable (n + 1) b k 0) []
      (by omega) (Or.inl (by rw [hin, hout n (le_refl _)]; push_cast; omega))
    rw [h2, hout 0 (by omega)]
    simp

theorem readLoop_shift_phase2 (a b : Nat) (k : Int) (hab : a ≤ b) (hb : b ≤ 254)
    (hk : k ≠ 0) (hlo : 0 ≤ (a : Int) + k) :
    readLoop (shiftTable a b k) (255 - a)
        { i := a, val := shiftTable a b k a, o_start := a, d_start := shiftTable a b k a
          translations := [] }
      = readLoop (shiftTable a b k) (255 - (b + 1))
        { i := b + 1, val := b + 1, o_start := b + 1, d_start := b + 1
          translations :=
            [TransRange.palette a b (((a : Int) + k).toNat) (((b : Int) + k).toNat)] } := by
  have hin : ∀ j, a ≤ j → j ≤ b → shiftTable a b k j = ((j : Int) + k).toNat := by
    intro j h1 h2
    have hc : a ≤ j ∧ j ≤ b := ⟨h1, h2⟩
    simp only [shiftTable, hc, and_self, if_true]
  have hout : shiftTable a b k (b + 1) = b + 1 := by
    have hc : ¬ (a ≤ b + 1 ∧ b + 1 ≤ b) := by omega
    simp only [shiftTable, hc, if_false]
  have h1 := readLoop_run (shiftTable a b k) a (shiftTable a b k a) [] (b - a) a
    (by omega) (fun j h1 h2 => by
      rw [hin j h1 (by omega), hin (j + 1) (by omega) (by omega)]
      push_cast
      omega)
  have e : a + (b - a) = b := by omega
  rw [e] at h1
  rw [h1]
  have h2 := readLoop_close (shiftTable a b k) b a (shiftTable a b k a) [] hb
    (Or.inl (by rw [hout, hin b hab (le_refl _)]; omega))
  rw [h2, hout, hin a (le_refl _) hab, hin b hab (le_refl _)]
  have hc : a ≠ ((a : Int) + k).toNat ∧ b ≠ ((b : Int) + k).toNat := by omega
  simp only [hc, ne_eq, not_false_eq_true, and_self, if_true, List.nil_append]

theorem readLoop_shift_phase3 (a b : Nat) (k : Int) (hb : b ≤ 254) (tr : List TransRange) :
    (readLoop (shiftTable a b k) (255 - (b + 1))
        { i := b + 1, val := b + 1, o_start := b + 1, d_start := b + 1
          translations := tr }).translations = tr := by
  by_cases hlast : b = 254
  · subst hlast
    rfl
  · have hout : ∀ j, b + 1 ≤ j → shiftTable a b k j = j := by
      intro j hj
      have hc : ¬ (a ≤ j ∧ j ≤ b) := by omega
      simp only [shiftTable, hc, if_false]
    have h1 := readLoop_run (shiftTable a b k) (b + 1) (b + 1) tr (254 - (b + 1)) (b + 1)
      (by omega) (fun j h1 _ => by rw [hout j h1, hout (j + 1) (by omega)])
    have e : b + 1 + (254 - (b + 1)) = 254 := by omega
    rw [e, hout (b + 1) (le_refl _), hout 254 (by omega)] at h1
    rw [h1]
    have h2 := readLoop_close (shiftTable a b k) 254 (b + 1) (b + 1) tr (le_refl _)
      (Or.inr rfl)
    rw [hout 254 (by omega)] at h2
    rw [h2]
    simp [readLoop]

/-- C7: for `0 ≤ a ≤ b ≤ 254` and a non-zero shift `k` with `0 ≤ a + k` and
`b + k ≤ 255`, `read` on an empty Translation, given the table that maps `i` to
`i + k` on `a..b` and to `i` elsewhere, emits exactly one range, the Palette
range `[a, b] -> [a + k, b + k]`. -/
theorem read_shifted_block (a b : Nat) (k : Int) (hab : a ≤ b) (hb : b ≤ 254) (hk : k ≠ 0)
    (hlo : 0 ≤ (a : Int) + k) (_hhi : (b : Int) + k ≤ 255) :
    (Translation.new.read (shiftTable a b k)).translations
      = [TransRange.palette a b (((a : Int) + k).toNat) (((b : Int) + k).toNat)] := by
  show (readLoop (shiftTable a b k) (255 - 0)
    { i := 0, val := shiftTable a b k 0, o_start := 0, d_start := shiftTable a b k 0
      translations := [] }).translations = _
  rw [readLoop_shift_phase1 a b k hab hb hk hlo, readLoop_shift_phase2 a b k hab hb hk hlo,
    readLoop_shift_phase3 a b k hb]

/-- Witness for C7 with `a = 10`, `b = 19`, `k = 5`: the table with
`table[i] = i + 5` on `10..19` yields exactly `[10, 19] -> [15, 24]`. -/
theorem read_shifted_block_witness :
    (Translation.new.read (shiftTable 10 19 5)).translations
      = [TransRange.palette 10 19 15 24] :=
  read_shifted_block 10 19 5 (by decide) (by decide) (by decide) (by decide) (by decide)

theorem read_of_identity (data : Nat → Nat) (hid : ∀ i, data i = i) :
    (Translation.new.read data).translations = [] := by
  have h1 := readLoop_run data 0 (data 0) [] 254 0 (by norm_num)
    (fun j _ _ => by rw [hid j, hid (j + 1)])
  have h2 := readLoop_close data 254 0 (data 0) [] (le_refl _) (Or.inr rfl)
  show (readLoop data (255 - 0)
    { i := 0, val := data 0, o_start := 0, d_start := data 0
      translations := [] }).translations = []
  rw [h1, h2, hid 0]
  simp [readLoop]

/-- C6: `read` applied on an empty Translation to the identity table leaves
the list of ranges empty. -/
theorem read_identity_table_empty :
    (Translation.new.read identityTable).translations = [] :=
  read_of_identity identityTable (fun _ => rfl)

set_option maxRecDepth 100000 in
theorem read_topBlockTable :
    (Translation.new.read topBlockTable).translations
      = [TransRange.palette 240 254 224 238] := by decide

/-- C1 (the code at the failing input): on the table that is the identity
below 240 and maps `240..255` onto `224..239`, `read` emits the single range
`[240, 254] -> [224, 238]`; index 255 is covered by no range although
`table[255] = 239`, and `translate` returns a colour of index 255 with its
index 255 unchanged. -/
theorem read_leaves_index_255_out (env : Env) (r g b a : Nat) (blend : Int)
    (pal : Option Palette8bit) :
    (Translation.new.read topBlockTable).translations = [TransRange.palette 240 254 224 238] ∧
    topBlockTable 255 = 239 ∧
    (∀ range ∈ (Translation.new.read topBlockTable).translations,
      ¬ (range.oStart ≤ 255 ∧ 255 ≤ range.oEnd)) ∧
    (Translation.translate env (Translation.new.read topBlockTable)
      { r := r, g := g, b := b, a := a, index := 255, blend := blend } pal).index = 255 := by
  have hlen : ¬ (("" : String).length ≠ 0) := by decide
  have hidx : ∀ p : Palette8bit,
      resolveIndex { r := r, g := g, b := b, a := a, index := 255, blend := blend } p = 255 := by
    intro p
    simp [resolveIndex, toUInt8]
  refine ⟨read_topBlockTable, by decide, ?_, ?_⟩
  · rw [read_topBlockTable]
    simp [TransRange.oEnd]
  · have ht : Translation.new.read topBlockTable
        = { translations := [TransRange.palette 240 254 224 238], built_in_name := ""
            desat_amount := 0 } := by
      have h := read_topBlockTable
      simp only [Translation.read, Translation.new] at h ⊢
      rw [h]
    rw [ht]
    simp only [Translation.translate, hlen, if_false, hidx]
    rw [translateRanges_miss _ _ _ _ _ _ _ (Or.inr (by simp [TransRange.oEnd]))]
    rfl

/-- C2 (the code at the failing input): parsing the Blend clause
`16:0=#[255,0,0]`, whose origin is written reversed, appends one range with
`o_start = 16` and `o_end = 0`: the origin is not normalised. The Tint clause
`16:0=@50[255,0,0]` and the Special clause `16:0=$ice` behave alike, while the
Palette clause `16:0=32:48` is normalised to `0..16`. -/
theorem parse_reversed_blend_not_normalised (env : Env) :
    ((Translation.new.parse env "16:0=#[255,0,0]").translations.map
        (fun r => (r.oStart, r.oEnd)) = [(16, 0)] ∧
      (Translation.new.parse env "16:0=@50[255,0,0]").translations.map
        (fun r => (r.oStart, r.oEnd)) = [(16, 0)] ∧
      (Translation.new.parse env "16:0=$ice").translations
        = [TransRange.special 16 0 "ice"] ∧
      (Translation.new.parse env "16:0=32:48").translations
        = [TransRange.palette 0 16 48 32]) ∧
    ¬ ((16 : Nat) ≤ 0) := by
  refine ⟨⟨rfl, rfl, rfl, rfl⟩, ?_⟩
  decide

/-! ### The tokenizer on clause texts -/

theorem tokenize_word (special : List Char) :
    ∀ (w rest cur : List Char),
      (∀ c ∈ w, c.isWhitespace = false ∧ c ∉ special) →
      tokenize special (w ++ rest) cur = tokenize special rest (cur ++ w) := by
  intro w
  induction w with
  | nil => intro rest cur _; simp
  | cons c w ih =>
    intro rest cur h
    have hc := h c (List.mem_cons_self _ _)
    have hws : ¬ (c.isWhitespace = true) := by simp [hc.1]
    rw [List.cons_append, tokenize, if_neg hws, if_neg hc.2,
      ih rest (cur ++ [c]) (fun x hx => h x (List.mem_cons_of_mem _ hx))]
    simp

theorem tokenize_special_char (special : List Char) (c : Char) (rest cur : List Char)
    (hws : c.isWhitespace = false) (hc : c ∈ special) :
    tokenize special (c :: rest) cur
      = flushToken cur ++ String.mk [c] :: tokenize special rest [] := by
  have hws' : ¬ (c.isWhitespace = true) := by simp [hws]
  rw [tokenize, if_neg hws', if_pos hc]

/-- A word followed by a special character: the word and the character are
two tokens. -/
theorem tokenize_word_special (special : List Char) (w : List Char) (c : Char)
    (rest : List Char) (hw : ∀ x ∈ w, x.isWhitespace = false ∧ x ∉ special) (hne : w ≠ [])
    (hws : c.isWhitespace = false) (hc : c ∈ special) :
    tokenize special (w ++ c :: rest) []
      = String.mk w :: String.mk [c] :: tokenize special rest [] := by
  rw [tokenize_word special w _ [] hw, tokenize_special_char special c rest _ hws hc]
  simp [flushToken, hne]

/-- A word at the end of the text is the last token. -/
theorem tokenize_word_end (special : List Char) (w : List Char)
    (hw : ∀ x ∈ w, x.isWhitespace = false ∧ x ∉ special) (hne : w ≠ []) :
    tokenize special w [] = [String.mk w] := by
  have h := tokenize_word special w [] [] hw
  rw [List.append_nil] at h
  rw [h]
  simp [tokenize, flushToken, hne]

set_option maxRecDepth 1000000 in
theorem byteText_facts_fin : ∀ n : Fin 256,
    atoi (toString n.val).data = (n.val : Int) ∧ (toString n.val).data ≠ [] ∧
    (∀ c ∈ (toString n.val).data, c.isWhitespace = false ∧ c ∉ "[]:%,=#@$".data) ∧
    (toString n.val ≠ "=" ∧ toString n.val ≠ "[" ∧ toString n.val ≠ "%" ∧
      toString n.val ≠ "#" ∧ toString n.val ≠ "@" ∧ toString n.val ≠ "$") ∧
    (lower (toString n.val) ≠ "inverse" ∧ lower (toString n.val) ≠ "gold" ∧
      lower (toString n.val) ≠ "red" ∧ lower (toString n.val) ≠ "green" ∧
      lower (toString n.val) ≠ "blue" ∧ lower (toString n.val) ≠ "ice" ∧
      lower (toString n.val) ≠ "desaturate") := by
  decide

/-- What `parse` needs to know about the decimal text of a byte. -/
theorem byteText_facts (n : Nat) (h : n ≤ 255) :
    atoi (toString n).data = (n : Int) ∧ (toString n).data ≠ [] ∧
    (∀ c ∈ (toString n).data, c.isWhitespace = false ∧ c ∉ "[]:%,=#@$".data) ∧
    (toString n ≠ "=" ∧ toString n ≠ "[" ∧ toString n ≠ "%" ∧
      toString n ≠ "#" ∧ toString n ≠ "@" ∧ toString n ≠ "$") ∧
    (lower (toString n) ≠ "inverse" ∧ lower (toString n) ≠ "gold" ∧
      lower (toString n) ≠ "red" ∧ lower (toString n) ≠ "green" ∧
      lower (toString n) ≠ "blue" ∧ lower (toString n) ≠ "ice" ∧
      lower (toString n) ≠ "desaturate") :=
  byteText_facts_fin ⟨n, by omega⟩

/-- `parseRange` on the tokens of a Palette clause `A:B=C:D`. -/
theorem parseRange_palette_tokens (env : Env) (A B C D : String) (a b c d : Nat)
    (ha : a ≤ 255) (hb : b ≤ 255) (hc : c ≤ 255) (hd : d ≤ 255)
    (hA : atoi A.data = a) (hB : atoi B.data = b) (hC : atoi C.data = c)
    (hD : atoi D.data = d)
    (hC1 : C ≠ "[") (hC2 : C ≠ "%") (hC3 : C ≠ "#") (hC4 : C ≠ "@") (hC5 : C ≠ "$") :
    parseRange env { tokens := [A, ":", B, "=", C, ":", D] }
      = some (if a > b then TransRange.palette b a d c else TransRange.palette a b c d) := by
  simp [parseRange, Tokenizer.getInteger, Tokenizer.peekToken, Tokenizer.skipToken,
    Tokenizer.expect, Tokenizer.checkToken, Tokenizer.getToken, hA, hB, hC, hD,
    toUInt8_natCast ha, toUInt8_natCast hb, toUInt8_natCast hc, toUInt8_natCast hd,
    hC1, hC2, hC3, hC4, hC5]
  split <;> rfl

/-- `parse` when the first token is no built-in name: the clause is read by
`parseRange`. -/
theorem parse_of_tokens (env : Env) (t : Translation) (text : String) (first : String)
    (rest : List String)
    (htok : tokenize "[]:%,=#@$".data text.data [] = first :: rest)
    (hfirst : lower first ≠ "inverse" ∧ lower first ≠ "gold" ∧ lower first ≠ "red" ∧
      lower first ≠ "green" ∧ lower first ≠ "blue" ∧ lower first ≠ "ice" ∧
      lower first ≠ "desaturate") :
    t.parse env text
      = match parseRange env { tokens := first :: rest } with
        | some tr => { t with translations := t.translations ++ [tr] }
        | none => t := by
  obtain ⟨h1, h2, h3, h4, h5, h6, h7⟩ := hfirst
  simp only [Translation.parse, Tokenizer.openString, htok, Tokenizer.peekToken, List.headD_cons,
    h1, h2, h3, h4, h5, h6, h7, if_false]

theorem tokenize_palette_text (a b c d : Nat) (ha : a ≤ 255) (hb : b ≤ 255) (hc : c ≤ 255)
    (hd : d ≤ 255) :
    tokenize "[]:%,=#@$".data
        (toString a ++ ":" ++ toString b ++ "=" ++ toString c ++ ":" ++ toString d).data []
      = [toString a, ":", toString b, "=", toString c, ":", toString d] := by
  obtain ⟨-, hna, hwa, -, -⟩ := byteText_facts a ha
  obtain ⟨-, hnb, hwb, -, -⟩ := byteText_facts b hb
  obtain ⟨-, hnc, hwc, -, -⟩ := byteText_facts c hc
  obtain ⟨-, hnd, hwd, -, -⟩ := byteText_facts d hd
  have e : (toString a ++ ":" ++ toString b ++ "=" ++ toString c ++ ":" ++ toString d).data
      = (toString a).data ++ ':' :: ((toString b).data ++ '=' :: ((toString c).data
          ++ ':' :: (toString d).data)) := by
    simp only [String.data_append, List.append_assoc]
    rfl
  rw [e, tokenize_word_special _ _ _ _ hwa hna (by decide) (by decide),
    tokenize_word_special _ _ _ _ hwb hnb (by decide) (by decide),
    tokenize_word_special _ _ _ _ hwc hnc (by decide) (by decide),
    tokenize_word_end _ _ hwd hnd]

/-- `parse` on the Palette clause `a:b=c:d` of four bytes: one Palette range
is appended, with both pairs swapped when the origin is written reversed. -/
theorem parse_palette_text (env : Env) (t : Translation) (a b c d : Nat) (ha : a ≤ 255)
    (hb : b ≤ 255) (hc : c ≤ 255) (hd : d ≤ 255) :
    t.parse env (toString a ++ ":" ++ toString b ++ "=" ++ toString c ++ ":" ++ toString d)
      = { t with translations := t.translations ++
            [if a > b then TransRange.palette b a d c else TransRange.palette a b c d] } := by
  obtain ⟨hA, -, -, -, hpa⟩ := byteText_facts a ha
  obtain ⟨hB, -, -, -, -⟩ := byteText_facts b hb
  obtain ⟨hC, -, -, ⟨-, hc1, hc2, hc3, hc4, hc5⟩, -⟩ := byteText_facts c hc
  obtain ⟨hD, -, -, -, -⟩ := byteText_facts d hd
  rw [parse_of_tokens env t _ _ _ (tokenize_palette_text a b c d ha hb hc hd) hpa,
    parseRange_palette_tokens env _ _ _ _ a b c d ha hb hc hd hA hB hC hD hc1 hc2 hc3 hc4 hc5]

/-- C3: for bytes `a > b`, `c`, `d`, parsing the Palette clause `a:b=c:d` on an
empty Translation yields exactly one range, the Palette range with
`o_start = b`, `o_end = a`, `d_start = d`, `d_end = c`. -/
theorem parse_reversed_palette (env : Env) (a b c d : Nat) (ha : a ≤ 255) (hb : b ≤ 255)
    (hc : c ≤ 255) (hd : d ≤ 255) (hrev : a > b) :
    Translation.new.parse env
        (toString a ++ ":" ++ toString b ++ "=" ++ toString c ++ ":" ++ toString d)
      = { translations := [TransRange.palette b a d c], built_in_name := ""
          desat_amount := 0 } := by
  rw [parse_palette_text env _ a b c d ha hb hc hd, if_pos hrev]
  rfl

/-- Witness for C3: `16:0=32:48` yields `o_start = 0`, `o_end = 16`,
`d_start = 48`, `d_end = 32`. -/
theorem parse_reversed_palette_witness :
    Translation.new.parse exactEnv "16:0=32:48"
      = { translations := [TransRange.palette 0 16 48 32], built_in_name := ""
          desat_amount := 0 } :=
  parse_reversed_palette exactEnv 16 0 32 48 (by decide) (by decide) (by decide) (by decide)
    (by decide)

theorem tokenize_special_first (special : List Char) (c : Char) (rest : List Char)
    (hws : c.isWhitespace = false) (hc : c ∈ special) :
    tokenize special (c :: rest) [] = String.mk [c] :: tokenize special rest [] := by
  rw [tokenize_special_char special c rest [] hws hc]
  rfl

/-- `readColour` on the tokens `R , G , B` of three bytes. -/
theorem readColour_tokens (R G B : String) (r g b : Nat) (rest : List String)
    (hr : r ≤ 255) (hg : g ≤ 255) (hb : b ≤ 255)
    (hR : atoi R.data = r) (hG : atoi G.data = g) (hB : atoi B.data = b) :
    readColour { tokens := R :: "," :: G :: "," :: B :: rest }
      = some ({ rgba_t.zero with r := r, g := g, b := b }, { tokens := rest }) := by
  simp [readColour, Tokenizer.getInteger, Tokenizer.peekToken, Tokenizer.skipToken,
    Tokenizer.expect, Tokenizer.checkToken, hR, hG, hB,
    toUInt8_natCast hr, toUInt8_natCast hg, toUInt8_natCast hb]

/-- `parseRange` on the tokens of a Colour clause `A:B=[R1,G1,B1]:[R2,G2,B2]`. -/
theorem parseRange_colour_tokens (env : Env) (A B R1 G1 B1 R2 G2 B2 : String)
    (a b r1 g1 b1 r2 g2 b2 : Nat)
    (ha : a ≤ 255) (hb : b ≤ 255)
    (hr1 : r1 ≤ 255) (hg1 : g1 ≤ 255) (hb1 : b1 ≤ 255)
    (hr2 : r2 ≤ 255) (hg2 : g2 ≤ 255) (hb2 : b2 ≤ 255)
    (hA : atoi A.data = a) (hB : atoi B.data = b)
    (hR1 : atoi R1.data = r1) (hG1 : atoi G1.data = g1) (hB1 : atoi B1.data = b1)
    (hR2 : atoi R2.data = r2) (hG2 : atoi G2.data = g2) (hB2 : atoi B2.data = b2) :
    parseRange env
        { tokens := [A, ":", B, "=", "[", R1, ",", G1, ",", B1, "]", ":", "[",
            R2, ",", G2, ",", B2, "]"] }
      = some (if a > b then
            TransRange.colour b a { rgba_t.zero with r := r2, g := g2, b := b2 }
              { rgba_t.zero with r := r1, g := g1, b := b1 }
          else
            TransRange.colour a b { rgba_t.zero with r := r1, g := g1, b := b1 }
              { rgba_t.zero with r := r2, g := g2, b := b2 }) := by
  have h1 := readColour_tokens R1 G1 B1 r1 g1 b1
    ["]", ":", "[", R2, ",", G2, ",", B2, "]"] hr1 hg1 hb1 hR1 hG1 hB1
  have h2 := readColour_tokens R2 G2 B2 r2 g2 b2 ["]"] hr2 hg2 hb2 hR2 hG2 hB2
  simp [parseRange, Tokenizer.getInteger, Tokenizer.peekToken, Tokenizer.skipToken,
    Tokenizer.expect, Tokenizer.checkToken, Tokenizer.getToken, hA, hB, h1, h2,
    toUInt8_natCast ha, toUInt8_natCast hb]
  split <;> rfl

theorem tokenize_byte_special (n : Nat) (hn : n ≤ 255) (c : Char) (rest : List Char)
    (hws : c.isWhitespace = false) (hc : c ∈ "[]:%,=#@$".data) :
    tokenize "[]:%,=#@$".data ((toString n).data ++ c :: rest) []
      = toString n :: String.mk [c] :: tokenize "[]:%,=#@$".data rest [] := by
  obtain ⟨-, hne, hw, -, -⟩ := byteText_facts n hn
  rw [tokenize_word_special _ _ _ _ hw hne hws hc]

theorem tokenize_rgb (r g b : Nat) (hr : r ≤ 255) (hg : g ≤ 255) (hb : b ≤ 255)
    (rest : List Char) :
    tokenize "[]:%,=#@$".data
        ((toString r).data ++ ',' :: ((toString g).data ++ ',' :: ((toString b).data
          ++ ']' :: rest))) []
      = toString r :: "," :: toString g :: "," :: toString b :: "]"
          :: tokenize "[]:%,=#@$".data rest [] := by
  rw [tokenize_byte_special r hr _ _ (by decide) (by decide),
    tokenize_byte_special g hg _ _ (by decide) (by decide),
    tokenize_byte_special b hb _ _ (by decide) (by decide)]

theorem tokenize_colour_text (env : Env) (a b : Nat) (s e : rgba_t) (ha : a ≤ 255)
    (hb : b ≤ 255) (hsr : s.r ≤ 255) (hsg : s.g ≤ 255) (hsb : s.b ≤ 255) (her : e.r ≤ 255)
    (heg : e.g ≤ 255) (heb : e.b ≤ 255) :
    tokenize "[]:%,=#@$".data ((TransRange.colour a b s e).asText env).data []
      = [toString a, ":", toString b, "=", "[", toString s.r, ",", toString s.g, ",",
          toString s.b, "]", ":", "[", toString e.r, ",", toString e.g, ",", toString e.b,
          "]"] := by
  have e1 : ((TransRange.colour a b s e).asText env).data
      = (toString a).data ++ ':' :: ((toString b).data ++ '=' :: '[' ::
          ((toString s.r).data ++ ',' :: ((toString s.g).data ++ ',' :: ((toString s.b).data
            ++ ']' :: ':' :: '[' ::
          ((toString e.r).data ++ ',' :: ((toString e.g).data ++ ',' :: ((toString e.b).data
            ++ ']' :: []))))))) := by
    simp only [TransRange.asText, rgbText, String.data_append, List.append_assoc]
    rfl
  rw [e1, tokenize_byte_special a ha _ _ (by decide) (by decide),
    tokenize_byte_special b hb _ _ (by decide) (by decide),
    tokenize_special_first _ _ _ (by decide) (by decide),
    tokenize_rgb _ _ _ hsr hsg hsb,
    tokenize_special_first _ _ _ (by decide) (by decide),
    tokenize_special_first _ _ _ (by decide) (by decide),
    tokenize_rgb _ _ _ her heg heb]
  rfl

theorem parse_colour_text (env : Env) (t : Translation) (a b : Nat) (s e : rgba_t)
    (ha : a ≤ 255) (hb : b ≤ 255) (hsr : s.r ≤ 255) (hsg : s.g ≤ 255) (hsb : s.b ≤ 255)
    (her : e.r ≤ 255) (heg : e.g ≤ 255) (heb : e.b ≤ 255) :
    t.parse env ((TransRange.colour a b s e).asText env)
      = { t with translations := t.translations ++
            [if a > b then
              TransRange.colour b a { rgba_t.zero with r := e.r, g := e.g, b := e.b }
                { rgba_t.zero with r := s.r, g := s.g, b := s.b }
            else
              TransRange.colour a b { rgba_t.zero with r := s.r, g := s.g, b := s.b }
                { rgba_t.zero with r := e.r, g := e.g, b := e.b }] } := by
  rw [parse_of_tokens env t _ _ _
      (tokenize_colour_text env a b s e ha hb hsr hsg hsb her heg heb)
      (byteText_facts a ha).2.2.2.2,
    parseRange_colour_tokens env _ _ _ _ _ _ _ _ a b s.r s.g s.b e.r e.g e.b ha hb
      hsr hsg hsb her heg heb
      (byteText_facts a ha).1 (byteText_facts b hb).1
      (byteText_facts s.r hsr).1 (byteText_facts s.g hsg).1 (byteText_facts s.b hsb).1
      (byteText_facts e.r her).1 (byteText_facts e.g heg).1 (byteText_facts e.b heb).1]

theorem tokenize_single_value_text (a c : Nat) (ha : a ≤ 255) (hc : c ≤ 255) :
    tokenize "[]:%,=#@$".data (toString a ++ "=" ++ toString c).data []
      = [toString a, "=", toString c] := by
  obtain ⟨-, hnc, hwc, -, -⟩ := byteText_facts c hc
  have e : (toString a ++ "=" ++ toString c).data
      = (toString a).data ++ '=' :: (toString c).data := by
    simp only [String.data_append, List.append_assoc]
    rfl
  rw [e, tokenize_byte_special a ha _ _ (by decide) (by decide),
    tokenize_word_end _ _ hwc hnc]

/-- `parseRange` on the tokens of a single-value clause `A=C`. -/
theorem parseRange_single_value_tokens (env : Env) (A C : String) (a c : Nat)
    (ha : a ≤ 255) (hc : c ≤ 255) (hA : atoi A.data = a) (hC : atoi C.data = c)
    (hC1 : C ≠ "[") (hC2 : C ≠ "%") (hC3 : C ≠ "#") (hC4 : C ≠ "@") (hC5 : C ≠ "$") :
    parseRange env { tokens := [A, "=", C] } = some (TransRange.palette a a c c) := by
  simp [parseRange, Tokenizer.getInteger, Tokenizer.peekToken, Tokenizer.skipToken,
    Tokenizer.expect, Tokenizer.checkToken, Tokenizer.getToken, hA, hC,
    toUInt8_natCast ha, toUInt8_natCast hc, hC1, hC2, hC3, hC4, hC5]

/-- C11: for bytes `a` and `c`, parsing the single-value clause `a=c` on an
empty Translation yields exactly one range, the Palette range with
`o_start = o_end = a` and `d_start = d_end = c`. -/
theorem parse_single_value (env : Env) (a c : Nat) (ha : a ≤ 255) (hc : c ≤ 255) :
    Translation.new.parse env (toString a ++ "=" ++ toString c)
      = { translations := [TransRange.palette a a c c], built_in_name := ""
          desat_amount := 0 } := by
  obtain ⟨hA, -, -, -, hpa⟩ := byteText_facts a ha
  obtain ⟨hC, -, -, ⟨-, hc1, hc2, hc3, hc4, hc5⟩, -⟩ := byteText_facts c hc
  rw [parse_of_tokens env _ _ _ _ (tokenize_single_value_text a c ha hc) hpa,
    parseRange_single_value_tokens env _ _ a c ha hc hA hC hc1 hc2 hc3 hc4 hc5]
  rfl

/-- Witness for C11: `5=10` yields origin `5..5` and destination `10..10`. -/
theorem parse_single_value_witness :
    Translation.new.parse exactEnv "5=10"
      = { translations := [TransRange.palette 5 5 10 10], built_in_name := ""
          desat_amount := 0 } :=
  parse_single_value exactEnv 5 10 (by decide) (by decide)

/-- C14: for bytes `a ≤ b`, `c`, `d`, parsing the Palette clause `a:b=c:d` on
an empty Translation yields exactly one range, the Palette range with
`o_start = a`, `o_end = b`, `d_start = c`, `d_end = d`. -/
theorem parse_palette_clause (env : Env) (a b c d : Nat) (hab : a ≤ b) (hb : b ≤ 255)
    (hc : c ≤ 255) (hd : d ≤ 255) :
    Translation.new.parse env
        (toString a ++ ":" ++ toString b ++ "=" ++ toString c ++ ":" ++ toString d)
      = { translations := [TransRange.palette a b c d], built_in_name := ""
          desat_amount := 0 } := by
  rw [parse_palette_text env _ a b c d (by omega) hb hc hd, if_neg (by omega)]
  rfl

/-- Witness for C14: the documented example `0:16=32:48` yields the palette
range `0..16 -> 32..48`. -/
theorem parse_palette_clause_witness :
    Translation.new.parse exactEnv "0:16=32:48"
      = { translations := [TransRange.palette 0 16 32 48], built_in_name := ""
          desat_amount := 0 } :=
  parse_palette_clause exactEnv 0 16 32 48 (by decide) (by decide) (by decide) (by decide)

/-- C15: for bytes `a ≤ b` and two triples of bytes, parsing the Colour clause
`a:b=[r1,g1,b1]:[r2,g2,b2]` on an empty Translation yields exactly one range,
a Colour range with origin `a..b` whose `d_start` has the channels
`(r1, g1, b1)` and whose `d_end` has the channels `(r2, g2, b2)`. -/
theorem parse_colour_clause (env : Env) (a b r1 g1 b1 r2 g2 b2 : Nat) (hab : a ≤ b)
    (hb : b ≤ 255) (hr1 : r1 ≤ 255) (hg1 : g1 ≤ 255) (hb1 : b1 ≤ 255) (hr2 : r2 ≤ 255)
    (hg2 : g2 ≤ 255) (hb2 : b2 ≤ 255) :
    ∃ d_start d_end : rgba_t,
      Translation.new.parse env
          (toString a ++ ":" ++ toString b ++ "=[" ++
            (toString r1 ++ "," ++ toString g1 ++ "," ++ toString b1) ++ "]:[" ++
            (toString r2 ++ "," ++ toString g2 ++ "," ++ toString b2) ++ "]")
        = { translations := [TransRange.colour a b d_start d_end], built_in_name := ""
            desat_amount := 0 } ∧
      (d_start.r = r1 ∧ d_start.g = g1 ∧ d_start.b = b1) ∧
      (d_end.r = r2 ∧ d_end.g = g2 ∧ d_end.b = b2) := by
  refine ⟨{ rgba_t.zero with r := r1, g := g1, b := b1 },
    { rgba_t.zero with r := r2, g := g2, b := b2 }, ?_, ⟨rfl, rfl, rfl⟩, ⟨rfl, rfl, rfl⟩⟩
  have h := parse_colour_text env Translation.new a b (rgba_t.rgb r1 g1 b1)
    (rgba_t.rgb r2 g2 b2) (by omega) hb hr1 hg1 hb1 hr2 hg2 hb2
  rw [if_neg (by omega)] at h
  exact h

/-- Witness for C15: the documented example `0:16=[255,0,0]:[0,0,0]` yields
origin `0..16` with the gradient red to black. -/
theorem parse_colour_clause_witness :
    ∃ d_start d_end : rgba_t,
      Translation.new.parse exactEnv "0:16=[255,0,0]:[0,0,0]"
        = { translations := [TransRange.colour 0 16 d_start d_end], built_in_name := ""
            desat_amount := 0 } ∧
      (d_start.r = 255 ∧ d_start.g = 0 ∧ d_start.b = 0) ∧
      (d_end.r = 0 ∧ d_end.g = 0 ∧ d_end.b = 0) :=
  parse_colour_clause exactEnv 0 16 255 0 0 0 0 0 (by decide) (by decide) (by decide)
    (by decide) (by decide) (by decide) (by decide) (by decide)

/-- C16: one call of `parse`, on any text and from any state, leaves the list
of ranges as it was or appends exactly one range to it: the ranges already
there and their order are unchanged. A text holding several clauses adds
only the first, as `0:1=2:3,4:5=6:7` shows. -/
theorem parse_appends_at_most_one (env : Env) (t : Translation) (text : String) :
    ((t.parse env text).translations = t.translations ∨
      ∃ tr : TransRange, (t.parse env text).translations = t.translations ++ [tr]) ∧
    (t.parse env "0:1=2:3,4:5=6:7").translations
      = t.translations ++ [TransRange.palette 0 1 2 3] := by
  constructor
  · unfold Translation.parse
    simp only []
    split_ifs
    all_goals first
      | exact Or.inl rfl
      | (cases h : parseRange env (Tokenizer.openString "[]:%,=#@$" text) with
          | none => exact Or.inl rfl
          | some tr => exact Or.inr ⟨tr, rfl⟩)
  · rfl

/-- C13: when the first token of the text, in lower case, is one of the seven
keywords, `parse` sets `built_in_name` to the canonical name and changes
nothing else: no range is appended and `desat_amount` stays, whatever follows
the keyword. -/
theorem parse_builtin_keyword (env : Env) (t : Translation) (text : String) :
    (lower (Tokenizer.openString "[]:%,=#@$" text).peekToken = "inverse" →
      t.parse env text = { t with built_in_name := "Inverse" }) ∧
    (lower (Tokenizer.openString "[]:%,=#@$" text).peekToken = "gold" →
      t.parse env text = { t with built_in_name := "Gold" }) ∧
    (lower (Tokenizer.openString "[]:%,=#@$" text).peekToken = "red" →
      t.parse env text = { t with built_in_name := "Red" }) ∧
    (lower (Tokenizer.openString "[]:%,=#@$" text).peekToken = "green" →
      t.parse env text = { t with built_in_name := "Green" }) ∧
    (lower (Tokenizer.openString "[]:%,=#@$" text).peekToken = "blue" →
      t.parse env text = { t with built_in_name := "Blue" }) ∧
    (lower (Tokenizer.openString "[]:%,=#@$" text).peekToken = "ice" →
      t.parse env text = { t with built_in_name := "Ice" }) ∧
    (lower (Tokenizer.openString "[]:%,=#@$" text).peekToken = "desaturate" →
      t.parse env text = { t with built_in_name := "Desaturate" }) := by
  refine ⟨?_, ?_, ?_, ?_, ?_, ?_, ?_⟩ <;> intro h <;>
    simp only [Translation.parse, h] <;> rfl

/-- Witness for C13: `GOLD 0:1=2:3` and `Desaturate, 5` on a Translation that
holds one range and the amount 7. -/
theorem parse_builtin_keyword_witness :
    Translation.parse exactEnv
        { translations := [TransRange.palette 0 1 2 3], built_in_name := ""
          desat_amount := 7 } "GOLD 0:1=2:3"
      = { translations := [TransRange.palette 0 1 2 3], built_in_name := "Gold"
          desat_amount := 7 } ∧
    Translation.parse exactEnv
        { translations := [TransRange.palette 0 1 2 3], built_in_name := ""
          desat_amount := 7 } "Desaturate, 5"
      = { translations := [TransRange.palette 0 1 2 3], built_in_name := "Desaturate"
          desat_amount := 7 } :=
  ⟨(parse_builtin_keyword exactEnv _ "GOLD 0:1=2:3").2.1 (by decide),
   (parse_builtin_keyword exactEnv _ "Desaturate, 5").2.2.2.2.2.2 (by decide)⟩

/-! ### translate: ranges that do not match, and special ranges -/

theorem translateRanges_all_miss (env : Env) (col : rgba_t) (pal : Palette8bit) (i : Nat) :
    ∀ (ranges : List TransRange) (colour : rgba_t),
      (∀ r ∈ ranges, i < r.oStart ∨ i > r.oEnd) →
      translateRanges env col pal i ranges colour = colour := by
  intro ranges
  induction ranges with
  | nil => intro colour _; rfl
  | cons r rest ih =>
    intro colour h
    rw [translateRanges_miss env col pal i r rest colour (h r (List.mem_cons_self _ _))]
    exact ih colour (fun x hx => h x (List.mem_cons_of_mem _ hx))

/-- C17: in operator-list mode, when the resolved palette index of the colour
lies in no range's `[o_start, o_end]` (the empty list included), `translate`
returns the colour with the same r, g, b, a and index; only `blend` is set
to `-1`. -/
theorem translate_no_match (env : Env) (ranges : List TransRange) (amount : Nat)
    (col : rgba_t) (pal : Option Palette8bit)
    (h : ∀ r ∈ ranges, resolveIndex col (pal.getD env.currentPalette) < r.oStart ∨
      resolveIndex col (pal.getD env.currentPalette) > r.oEnd) :
    Translation.translate env
        { translations := ranges, built_in_name := "", desat_amount := amount } col pal
      = { col with blend := -1 } ∧
    (Translation.translate env
        { translations := ranges, built_in_name := "", desat_amount := amount } col pal).r
      = col.r ∧
    (Translation.translate env
        { translations := ranges, built_in_name := "", desat_amount := amount } col pal).g
      = col.g ∧
    (Translation.translate env
        { translations := ranges, built_in_name := "", desat_amount := amount } col pal).b
      = col.b ∧
    (Translation.translate env
        { translations := ranges, built_in_name := "", desat_amount := amount } col pal).a
      = col.a ∧
    (Translation.translate env
        { translations := ranges, built_in_name := "", desat_amount := amount } col pal).index
      = col.index := by
  have hlen : ¬ (("" : String).length ≠ 0) := by decide
  have e : Translation.translate env
      { translations := ranges, built_in_name := "", desat_amount := amount } col pal
      = { col with blend := -1 } := by
    simp only [Translation.translate, hlen, if_false]
    exact translateRanges_all_miss env col _ _ ranges _ h
  rw [e]
  exact ⟨rfl, rfl, rfl, rfl, rfl, rfl⟩

/-- Witness for C17: index 10 with the single range `[20, 30] -> [0, 10]`. -/
theorem translate_no_match_witness :
    Translation.translate exactEnv
        { translations := [TransRange.palette 20 30 0 10], built_in_name := ""
          desat_amount := 0 }
        { r := 1, g := 2, b := 3, a := 255, index := 10, blend := 0 } none
      = { r := 1, g := 2, b := 3, a := 255, index := 10, blend := -1 } :=
  (translate_no_match exactEnv [TransRange.palette 20 30 0 10] 0
    { r := 1, g := 2, b := 3, a := 255, index := 10, blend := 0 } none (by decide)).1

/-- The ranges before the first matching special range only change the working
colour; the special range then returns `specialBlend` of the input colour. -/
theorem translateRanges_first_special (env : Env) (col : rgba_t) (pal : Palette8bit)
    (i o e : Nat) (name : String) (post : List TransRange) (ho : o ≤ i) (he : i ≤ e) :
    ∀ (pre : List TransRange) (colour : rgba_t),
      (∀ r ∈ pre, r.isSpecial = false ∨ i < r.oStart ∨ i > r.oEnd) →
      translateRanges env col pal i (pre ++ TransRange.special o e name :: post) colour
        = specialBlend env.f32 col (specialType name) pal := by
  intro pre
  induction pre with
  | nil =>
    intro colour _
    have hin : ¬ (i < o ∨ i > e) := by omega
    simp only [List.nil_append, translateRanges, TransRange.oStart, TransRange.oEnd, hin,
      if_false]
  | cons r rest ih =>
    intro colour h
    have ih' := fun c => ih c (fun x hx => h x (List.mem_cons_of_mem _ hx))
    by_cases hmiss : i < r.oStart ∨ i > r.oEnd
    · rw [List.cons_append, translateRanges_miss env col pal i r _ colour hmiss]
      exact ih' colour
    · have hr := h r (List.mem_cons_self _ _)
      cases r with
      | special o1 e1 n1 =>
        rcases hr with hr | hr
        · exact absurd hr (by simp [TransRange.isSpecial])
        · exact absurd hr hmiss
      | palette _ _ _ _ =>
        simp only [List.cons_append, translateRanges, hmiss, if_false]
        exact ih' _
      | colour _ _ _ _ =>
        simp only [List.cons_append, translateRanges, hmiss, if_false]
        exact ih' _
      | desat _ _ _ _ _ _ _ _ =>
        simp only [List.cons_append, translateRanges, hmiss, if_false]
        exact ih' _
      | blend _ _ _ =>
        simp only [List.cons_append, translateRanges, hmiss, if_false]
        exact ih' _
      | tint _ _ _ _ =>
        simp only [List.cons_append, translateRanges, hmiss, if_false]
        exact ih' _

theorem translate_first_special (env : Env) (pre post : List TransRange) (o e : Nat)
    (name : String) (amount : Nat) (col : rgba_t) (pal : Option Palette8bit)
    (hpre : ∀ r ∈ pre, r.isSpecial = false ∨
      resolveIndex col (pal.getD env.currentPalette) < r.oStart ∨
      resolveIndex col (pal.getD env.currentPalette) > r.oEnd)
    (ho : o ≤ resolveIndex col (pal.getD env.currentPalette))
    (he : resolveIndex col (pal.getD env.currentPalette) ≤ e) :
    Translation.translate env
        { translations := pre ++ TransRange.special o e name :: post, built_in_name := ""
          desat_amount := amount } col pal
      = specialBlend env.f32 col (specialType name) (pal.getD env.currentPalette) := by
  have hlen : ¬ (("" : String).length ≠ 0) := by decide
  simp only [Translation.translate, hlen, if_false]
  exact translateRanges_first_special env col _ _ o e name post ho he pre _ hpre

theorem specialBlend_invalid (F : FloatFormat 24) (col : rgba_t) (pal : Palette8bit) :
    specialBlend F col BLEND_INVALID pal = col := by
  simp only [specialBlend, if_true]

theorem specialType_unknown (name : String)
    (h1 : S_CMPNOCASE name "ice" = false) (h2 : S_CMPNOCASE name "inverse" = false)
    (h3 : S_CMPNOCASE name "red" = false) (h4 : S_CMPNOCASE name "green" = false)
    (h5 : S_CMPNOCASE name "blue" = false) (h6 : S_CMPNOCASE name "gold" = false)
    (hdesat : ¬ ("desat".data <+: name.data.map Char.toLower) ∨
      ∀ n, rightTwoToLong name = some n → ¬ (0 < n ∧ n < 32)) :
    specialType name = BLEND_INVALID := by
  unfold specialType
  simp only [h1, h2, h3, h4, h5, h6, Bool.false_eq_true, if_false]
  by_cases hp : "desat".data <+: name.data.map Char.toLower
  · rw [if_pos hp]
    cases hn : rightTwoToLong name with
    | none => rfl
    | some n =>
      rcases hdesat with hd | hd
      · exact absurd hp hd
      · have hno := hd n hn
        have hc : ¬ (n < 32 ∧ n > 0) := fun hh => hno ⟨hh.2, hh.1⟩
        simp only [hc, if_false]
  · rw [if_neg hp]

/-- C18: unknown names pass the colour through. A Translation whose non-empty
`built_in_name` is none of the seven preset names (letter case aside) returns
the input colour unchanged; so does a Translation whose first matching Special
range has a name that is none of ice, inverse, red, green, blue, gold and no
`desat` name ending in a number from 1 to 31; and `specialBlend` with the type
`BLEND_INVALID` returns its input. -/
theorem unknown_names_pass_through (env : Env) (col : rgba_t) (pal : Option Palette8bit)
    (amount : Nat) :
    (∀ (ranges : List TransRange) (name : String), name.length ≠ 0 →
      S_CMPNOCASE name "ice" = false → S_CMPNOCASE name "inverse" = false →
      S_CMPNOCASE name "red" = false → S_CMPNOCASE name "green" = false →
      S_CMPNOCASE name "blue" = false → S_CMPNOCASE name "gold" = false →
      S_CMPNOCASE name "desaturate" = false →
      Translation.translate env
          { translations := ranges, built_in_name := name, desat_amount := amount } col pal
        = col) ∧
    (∀ (pre post : List TransRange) (o e : Nat) (name : String),
      (∀ r ∈ pre, r.isSpecial = false ∨
        resolveIndex col (pal.getD env.currentPalette) < r.oStart ∨
        resolveIndex col (pal.getD env.currentPalette) > r.oEnd) →
      o ≤ resolveIndex col (pal.getD env.currentPalette) →
      resolveIndex col (pal.getD env.currentPalette) ≤ e →
      S_CMPNOCASE name "ice" = false → S_CMPNOCASE name "inverse" = false →
      S_CMPNOCASE name "red" = false → S_CMPNOCASE name "green" = false →
      S_CMPNOCASE name "blue" = false → S_CMPNOCASE name "gold" = false →
      (¬ ("desat".data <+: name.data.map Char.toLower) ∨
        ∀ n, rightTwoToLong name = some n → ¬ (0 < n ∧ n < 32)) →
      Translation.translate env
          { translations := pre ++ TransRange.special o e name :: post, built_in_name := ""
            desat_amount := amount } col pal
        = col) ∧
    (∀ (F : FloatFormat 24) (p : Palette8bit), specialBlend F col BLEND_INVALID p = col) := by
  refine ⟨?_, ?_, fun F p => specialBlend_invalid F col p⟩
  · intro ranges name hlen h1 h2 h3 h4 h5 h6 h7
    have hty : builtInType name amount = BLEND_INVALID := by
      unfold builtInType
      simp only [h1, h2, h3, h4, h5, h6, h7, Bool.false_eq_true, if_false]
    simp only [Translation.translate, hlen, ne_eq, not_false_eq_true, if_true, hty]
    exact specialBlend_invalid _ _ _
  · intro pre post o e name hpre ho he h1 h2 h3 h4 h5 h6 hd
    rw [translate_first_special env pre post o e name amount col pal hpre ho he,
      specialType_unknown name h1 h2 h3 h4 h5 h6 hd]
    exact specialBlend_invalid _ _ _

/-- Witness for C18: the built-in name `Purple`, and the Special ranges named
`purple` and `desat00` behind a matching Palette range, on index 10. -/
theorem unknown_names_pass_through_witness :
    Translation.translate exactEnv
        { translations := [TransRange.palette 0 255 255 0], built_in_name := "Purple"
          desat_amount := 0 }
        { r := 1, g := 2, b := 3, a := 255, index := 10, blend := 0 } none
      = { r := 1, g := 2, b := 3, a := 255, index := 10, blend := 0 } ∧
    Translation.translate exactEnv
        { translations := [TransRange.palette 0 255 255 0] ++
            TransRange.special 0 255 "purple" :: []
          built_in_name := "", desat_amount := 0 }
        { r := 1, g := 2, b := 3, a := 255, index := 10, blend := 0 } none
      = { r := 1, g := 2, b := 3, a := 255, index := 10, blend := 0 } ∧
    Translation.translate exactEnv
        { translations := [TransRange.palette 0 255 255 0] ++
            TransRange.special 0 255 "desat00" :: []
          built_in_name := "", desat_amount := 0 }
        { r := 1, g := 2, b := 3, a := 255, index := 10, blend := 0 } none
      = { r := 1, g := 2, b := 3, a := 255, index := 10, blend := 0 } :=
  ⟨(unknown_names_pass_through exactEnv
      { r := 1, g := 2, b := 3, a := 255, index := 10, blend := 0 } none 0).1
      [TransRange.palette 0 255 255 0] "Purple" (by decide) (by decide) (by decide)
      (by decide) (by decide) (by decide) (by decide) (by decide),
   (unknown_names_pass_through exactEnv
      { r := 1, g := 2, b := 3, a := 255, index := 10, blend := 0 } none 0).2.1
      [TransRange.palette 0 255 255 0] [] 0 255 "purple" (by decide) (by decide) (by decide)
      (by decide) (by decide) (by decide) (by decide) (by decide) (by decide)
      (Or.inl (by decide)),
   (unknown_names_pass_through exactEnv
      { r := 1, g := 2, b := 3, a := 255, index := 10, blend := 0 } none 0).2.1
      [TransRange.palette 0 255 255 0] [] 0 255 "desat00" (by decide) (by decide) (by decide)
      (by decide) (by decide) (by decide) (by decide) (by decide) (by decide)
      (Or.inr (by
        intro n hn
        have h0 : rightTwoToLong "desat00" = some 0 := by decide
        rw [h0] at hn
        have : n = 0 := by injection hn with hn; exact hn.symm
        omega))⟩

theorem digit_value_le (c : Char) (h : c.isDigit = true) : c.toNat - 48 ≤ 9 := by
  simp only [Char.isDigit, Bool.and_eq_true, decide_eq_true_eq] at h
  have h2 : c.val ≤ 57 := h.2
  have : c.toNat ≤ 57 := by
    simp only [Char.toNat]
    exact h2
  omega

/-- The blend code of a special range named `desat` (any letter case) followed
by the two digits `d1 d0`: the number they spell when it lies in 1..31,
`BLEND_INVALID` otherwise. -/
theorem specialType_desat (name : String) (w : List Char) (d1 d0 : Char)
    (hname : name.data = w ++ [d1, d0]) (hw : w.map Char.toLower = "desat".data)
    (hd1 : d1.isDigit = true) (hd0 : d0.isDigit = true) :
    specialType name
      = if 0 < (d1.toNat - 48) * 10 + (d0.toNat - 48) ∧
            (d1.toNat - 48) * 10 + (d0.toNat - 48) < 32
        then (d1.toNat - 48) * 10 + (d0.toNat - 48) else BLEND_INVALID := by
  have hlow : name.data.map Char.toLower
      = 'd' :: 'e' :: 's' :: 'a' :: 't' :: [d1.toLower, d0.toLower] := by
    rw [hname, List.map_append, hw]
    rfl
  have hpre : "desat".data <+: name.data.map Char.toLower := by
    rw [hlow]
    exact ⟨[d1.toLower, d0.toLower], rfl⟩
  have hcmp : ∀ s : String, (s.data.map Char.toLower).head? ≠ some 'd' →
      S_CMPNOCASE name s = false := by
    intro s hs
    unfold S_CMPNOCASE
    rw [hlow]
    cases hsd : s.data.map Char.toLower with
    | nil => rfl
    | cons c cs =>
      rw [hsd] at hs
      have hc : c ≠ 'd' := fun hh => hs (by rw [hh]; rfl)
      simp [hc, Ne.symm hc]
  have hr : rightTwoToLong name
      = some ((((d1.toNat - 48) * 10 + (d0.toNat - 48) : Nat)) : Int) := by
    unfold rightTwoToLong
    rw [hname]
    simp [hd1, hd0]
  have h9a := digit_value_le d1 hd1
  have h9b := digit_value_le d0 hd0
  unfold specialType
  rw [hcmp "ice" (by decide), hcmp "inverse" (by decide), hcmp "red" (by decide),
    hcmp "green" (by decide), hcmp "blue" (by decide), hcmp "gold" (by decide)]
  simp only [Bool.false_eq_true, if_false, if_pos hpre, hr]
  by_cases hv : 0 < (d1.toNat - 48) * 10 + (d0.toNat - 48) ∧
      (d1.toNat - 48) * 10 + (d0.toNat - 48) < 32
  · rw [if_pos hv, if_pos (by constructor <;> omega)]
    exact toUInt8_natCast (by omega)
  · rw [if_neg hv, if_neg (by omega)]

/-- C19: when the first matching Special range is named `desat` (any letter
case) followed by two digits spelling `NN`, `translate` returns
`specialBlend(col, NN, pal)` for `NN` from 01 to 31; for `NN = 00` or `NN > 31`
the blend type is `BLEND_INVALID`. -/
theorem translate_special_desat (env : Env) (pre post : List TransRange) (o e : Nat)
    (name : String) (w : List Char) (d1 d0 : Char) (amount : Nat) (col : rgba_t)
    (pal : Option Palette8bit)
    (hname : name.data = w ++ [d1, d0]) (hw : w.map Char.toLower = "desat".data)
    (hd1 : d1.isDigit = true) (hd0 : d0.isDigit = true)
    (hpre : ∀ r ∈ pre, r.isSpecial = false ∨
      resolveIndex col (pal.getD env.currentPalette) < r.oStart ∨
      resolveIndex col (pal.getD env.currentPalette) > r.oEnd)
    (ho : o ≤ resolveIndex col (pal.getD env.currentPalette))
    (he : resolveIndex col (pal.getD env.currentPalette) ≤ e) :
    (1 ≤ (d1.toNat - 48) * 10 + (d0.toNat - 48) →
      (d1.toNat - 48) * 10 + (d0.toNat - 48) ≤ 31 →
      Translation.translate env
          { translations := pre ++ TransRange.special o e name :: post, built_in_name := ""
            desat_amount := amount } col pal
        = specialBlend env.f32 col ((d1.toNat - 48) * 10 + (d0.toNat - 48))
            (pal.getD env.currentPalette)) ∧
    ((d1.toNat - 48) * 10 + (d0.toNat - 48) = 0 ∨
        31 < (d1.toNat - 48) * 10 + (d0.toNat - 48) →
      specialType name = BLEND_INVALID) := by
  have hty := specialType_desat name w d1 d0 hname hw hd1 hd0
  constructor
  · intro h1 h2
    rw [translate_first_special env pre post o e name amount col pal hpre ho he, hty,
      if_pos (by omega)]
  · intro h
    rw [hty, if_neg (by omega)]

/-- Witness for C19: the Special range named `DeSat07` gives Desaturate level
7, and the names `desat00` and `desat32` give `BLEND_INVALID`. -/
theorem translate_special_desat_witness :
    Translation.translate exactEnv
        { translations := [] ++ TransRange.special 0 255 "DeSat07" :: []
          built_in_name := "", desat_amount := 0 }
        { r := 1, g := 2, b := 3, a := 255, index := 10, blend := 0 } none
      = specialBlend exactEnv.f32 { r := 1, g := 2, b := 3, a := 255, index := 10, blend := 0 }
          7 (none.getD exactEnv.currentPalette) ∧
    specialType "desat00" = BLEND_INVALID ∧ specialType "desat32" = BLEND_INVALID :=
  ⟨(translate_special_desat exactEnv [] [] 0 255 "DeSat07" "DeSat".data '0' '7' 0
      { r := 1, g := 2, b := 3, a := 255, index := 10, blend := 0 } none
      (by decide) (by decide) (by decide) (by decide) (by decide) (by decide) (by decide)).1
      (by decide) (by decide),
   (translate_special_desat exactEnv [] [] 0 255 "desat00" "desat".data '0' '0' 0
      { r := 1, g := 2, b := 3, a := 255, index := 10, blend := 0 } none
      (by decide) (by decide) (by decide) (by decide) (by decide) (by decide) (by decide)).2
      (Or.inl (by decide)),
   (translate_special_desat exactEnv [] [] 0 255 "desat32" "desat".data '3' '2' 0
      { r := 1, g := 2, b := 3, a := 255, index := 10, blend := 0 } none
      (by decide) (by decide) (by decide) (by decide) (by decide) (by decide) (by decide)).2
      (Or.inr (by decide))⟩

/-! ### asText of a built-in translation -/

/-- C20: when `built_in_name` is not empty, `asText` returns `built_in_name`
itself, except that for `Desaturate` it returns `Desaturate, ` followed by
`desat_amount` in decimal; the list of ranges does not influence the result. -/
theorem asText_builtin (env : Env) (t : Translation) (h : t.built_in_name ≠ "") :
    (t.built_in_name = "Desaturate" →
      t.asText env = "Desaturate, " ++ toString t.desat_amount) ∧
    (t.built_in_name ≠ "Desaturate" → t.asText env = t.built_in_name) ∧
    (∀ ranges : List TransRange,
      Translation.asText env { t with translations := ranges } = t.asText env) := by
  have he : t.built_in_name.isEmpty = false := by
    cases hb : t.built_in_name.isEmpty with
    | false => rfl
    | true => exact absurd ((String.isEmpty_iff _).mp hb) h
  refine ⟨?_, ?_, ?_⟩
  · intro hd
    simp only [Translation.asText, he, Bool.false_eq_true, if_false, hd, if_true]
    rfl
  · intro hd
    simp only [Translation.asText, he, Bool.false_eq_true, if_false, hd]
  · intro ranges
    simp only [Translation.asText, he, Bool.false_eq_true, if_false]

/-- Witness for C20: `Desaturate` with amount 12 gives `Desaturate, 12` and
`Ice` gives `Ice`, each with a range in the list. -/
theorem asText_builtin_witness :
    Translation.asText exactEnv
        { translations := [TransRange.palette 0 1 2 3], built_in_name := "Desaturate"
          desat_amount := 12 } = "Desaturate, 12" ∧
    Translation.asText exactEnv
        { translations := [TransRange.palette 0 1 2 3], built_in_name := "Ice"
          desat_amount := 12 } = "Ice" :=
  ⟨(asText_builtin exactEnv
      { translations := [TransRange.palette 0 1 2 3], built_in_name := "Desaturate"
        desat_amount := 12 } (by decide)).1 rfl,
   (asText_builtin exactEnv
      { translations := [TransRange.palette 0 1 2 3], built_in_name := "Ice"
        desat_amount := 12 } (by decide)).2.1 (by decide)⟩

/-! ### parse: absent literals -/

theorem peekToken_drop (toks : List String) (k : Nat) :
    Tokenizer.peekToken { tokens := toks.drop k } = toks.getD k "" := by
  simp [Tokenizer.peekToken, List.headD_eq_head?_getD, List.getD_eq_getElem?_getD]

theorem skipToken_drop (toks : List String) (k : Nat) :
    Tokenizer.skipToken { tokens := toks.drop k } = { tokens := toks.drop (k + 1) } := by
  simp [Tokenizer.skipToken]

theorem getD_drop_tokens (toks : List String) (k p : Nat) :
    (toks.drop k).getD p "" = toks.getD (k + p) "" := by
  simp [List.getD_eq_getElem?_getD]

theorem expect_drop (toks : List String) (k : Nat) (lit : String) :
    Tokenizer.expect { tokens := toks.drop k } lit
      = if toks.getD k "" = lit then some { tokens := toks.drop (k + 1) } else none := by
  simp [Tokenizer.expect, Tokenizer.checkToken, peekToken_drop, skipToken_drop]

theorem getInteger_drop (toks : List String) (k : Nat) :
    Tokenizer.getInteger { tokens := toks.drop k }
      = (atoi (toks.getD k "").data, { tokens := toks.drop (k + 1) }) := by
  simp [Tokenizer.getInteger, peekToken_drop, skipToken_drop]

theorem getFloat_drop (toks : List String) (k : Nat) :
    Tokenizer.getFloat { tokens := toks.drop k }
      = (atof (toks.getD k "").data, { tokens := toks.drop (k + 1) }) := by
  simp [Tokenizer.getFloat, peekToken_drop, skipToken_drop]

theorem readColour_drop (toks : List String) (k : Nat) :
    readColour { tokens := toks.drop k }
      = if toks.getD (k + 1) "" = "," then
          if toks.getD (k + 3) "" = "," then
            some ({ rgba_t.zero with
                    r := toUInt8 (atoi (toks.getD k "").data)
                    g := toUInt8 (atoi (toks.getD (k + 2) "").data)
                    b := toUInt8 (atoi (toks.getD (k + 4) "").data) },
                  { tokens := toks.drop (k + 5) })
          else none
        else none := by
  by_cases h1 : toks.getD (k + 1) "" = ","
  · by_cases h3 : toks.getD (k + 3) "" = ","
    · simp only [readColour, getInteger_drop, expect_drop, Nat.add_assoc, Nat.reduceAdd, h1, h3,
        if_true, bind, Option.bind]
    · simp only [readColour, getInteger_drop, expect_drop, Nat.add_assoc, Nat.reduceAdd, h1, h3,
        if_true, if_false, bind, Option.bind]
  · simp only [readColour, getInteger_drop, expect_drop, Nat.add_assoc, Nat.reduceAdd, h1,
        if_false, bind, Option.bind]

theorem readFloats_drop (F : FloatFormat 24) (toks : List String) (k : Nat) :
    readFloats F { tokens := toks.drop k }
      = if toks.getD (k + 1) "" = "," then
          if toks.getD (k + 3) "" = "," then
            some ((F.rnd (atof (toks.getD k "").data),
                    F.rnd (atof (toks.getD (k + 2) "").data),
                    F.rnd (atof (toks.getD (k + 4) "").data)),
                  { tokens := toks.drop (k + 5) })
          else none
        else none := by
  by_cases h1 : toks.getD (k + 1) "" = ","
  · by_cases h3 : toks.getD (k + 3) "" = ","
    · simp only [readFloats, getFloat_drop, expect_drop, Nat.add_assoc, Nat.reduceAdd, h1, h3,
        if_true, bind, Option.bind]
    · simp only [readFloats, getFloat_drop, expect_drop, Nat.add_assoc, Nat.reduceAdd, h1, h3,
        if_true, if_false, bind, Option.bind]
  · simp only [readFloats, getFloat_drop, expect_drop, Nat.add_assoc, Nat.reduceAdd, h1,
        if_false, bind, Option.bind]

theorem bind_ite_none {α β : Type} (c : Prop) [Decidable c] (a : Option α) (f : α → Option β) :
    Option.bind (if c then a else none) f = if c then Option.bind a f else none := by
  split <;> rfl

theorem map_ite_none {α β : Type} (c : Prop) [Decidable c] (a : Option α) (f : α → β) :
    Option.map f (if c then a else none) = if c then Option.map f a else none := by
  split <;> rfl

theorem headD_drop_tokens (toks : List String) (k : Nat) :
    (toks.drop k).headD "" = toks.getD k "" := by
  simp [List.headD_eq_head?_getD, List.getD_eq_getElem?_getD]

theorem ite_some_some_ne_none {α : Type} (c : Prop) [Decidable c] (a b : α) :
    ((if c then some a else some b) = none) = False := by
  split <;> simp

theorem parseRange_none_iff (env : Env) (toks : List String) :
    parseRange env { tokens := toks.drop 0 } = none ↔ missingLiteral toks = true := by
  simp only [parseRange, getInteger_drop, expect_drop, readColour_drop, readFloats_drop,
    peekToken_drop, skipToken_drop, Tokenizer.getToken, Tokenizer.checkToken,
    Nat.add_assoc, Nat.reduceAdd, Nat.zero_add, Option.bind_eq_bind, Option.some_bind,
    Option.none_bind, bind_ite_none, map_ite_none, Option.map_some']
  simp only [missingLiteral, destinationLacksLiteral, getD_drop_tokens,
    headD_drop_tokens, Nat.reduceAdd]
  by_cases h1 : toks.getD 1 "" = "="
  · simp only [h1, if_true]
    by_cases d0 : toks.getD 2 "" = "["
    · simp only [d0, if_true, if_false, requiredLiterals, List.any_cons,
        List.any_nil, getD_drop_tokens, Nat.reduceAdd, reduceCtorEq, String.reduceEq,
        ite_eq_right_iff, ite_some_some_ne_none, Bool.or_eq_true, bne_iff_ne, ne_eq,
        Bool.or_false, Bool.false_eq_true, or_false]
      tauto
    · by_cases d1 : toks.getD 2 "" = "%"
      · simp only [d0, d1, if_true, if_false, requiredLiterals, List.any_cons,
          List.any_nil, getD_drop_tokens, Nat.reduceAdd, reduceCtorEq, String.reduceEq,
          ite_eq_right_iff, ite_some_some_ne_none, Bool.or_eq_true, bne_iff_ne, ne_eq,
          Bool.or_false, Bool.false_eq_true, or_false]
        tauto
      · by_cases d2 : toks.getD 2 "" = "#"
        · simp only [d0, d1, d2, if_true, if_false, requiredLiterals, List.any_cons,
            List.any_nil, getD_drop_tokens, Nat.reduceAdd, reduceCtorEq, String.reduceEq,
            ite_eq_right_iff, ite_some_some_ne_none, Bool.or_eq_true, bne_iff_ne, ne_eq,
            Bool.or_false, Bool.false_eq_true, or_false]
          tauto
        · by_cases d3 : toks.getD 2 "" = "@"
          · simp only [d0, d1, d2, d3, if_true, if_false, requiredLiterals, List.any_cons,
              List.any_nil, getD_drop_tokens, Nat.reduceAdd, reduceCtorEq, String.reduceEq,
              ite_eq_right_iff, ite_some_some_ne_none, Bool.or_eq_true, bne_iff_ne, ne_eq,
              Bool.or_false, Bool.false_eq_true, or_false]
            tauto
          · by_cases d4 : toks.getD 2 "" = "$"
            · simp only [d0, d1, d2, d3, d4, if_true, if_false, requiredLiterals, List.any_cons,
                List.any_nil, getD_drop_tokens, Nat.reduceAdd, reduceCtorEq, String.reduceEq,
                ite_eq_right_iff, ite_some_some_ne_none, Bool.or_eq_true, bne_iff_ne, ne_eq,
                Bool.or_false, Bool.false_eq_true, or_false]
            · simp only [d0, d1, d2, d3, d4, if_true, if_false, requiredLiterals, List.any_nil,
                ite_some_some_ne_none, Bool.false_eq_true]
  · by_cases h2 : toks.getD 1 "" = ":"
    · by_cases h3 : toks.getD 3 "" = "="
      · simp only [h1, if_false, if_pos h2, if_pos h3]
        by_cases d0 : toks.getD 4 "" = "["
        · simp only [d0, if_true, if_false, requiredLiterals, List.any_cons,
            List.any_nil, getD_drop_tokens, Nat.reduceAdd, reduceCtorEq, String.reduceEq,
            ite_eq_right_iff, ite_some_some_ne_none, Bool.or_eq_true, bne_iff_ne, ne_eq,
            Bool.or_false, Bool.false_eq_true, or_false]
          tauto
        · by_cases d1 : toks.getD 4 "" = "%"
          · simp only [d0, d1, if_true, if_false, requiredLiterals, List.any_cons,
              List.any_nil, getD_drop_tokens, Nat.reduceAdd, reduceCtorEq, String.reduceEq,
              ite_eq_right_iff, ite_some_some_ne_none, Bool.or_eq_true, bne_iff_ne, ne_eq,
              Bool.or_false, Bool.false_eq_true, or_false]
            tauto
          · by_cases d2 : toks.getD 4 "" = "#"
            · simp only [d0, d1, d2, if_true, if_false, requiredLiterals, List.any_cons,
                List.any_nil, getD_drop_tokens, Nat.reduceAdd, reduceCtorEq, String.reduceEq,
                ite_eq_right_iff, ite_some_some_ne_none, Bool.or_eq_true, bne_iff_ne, ne_eq,
                Bool.or_false, Bool.false_eq_true, or_false]
              tauto
            · by_cases d3 : toks.getD 4 "" = "@"
              · simp only [d0, d1, d2, d3, if_true, if_false, requiredLiterals, List.any_cons,
                  List.any_nil, getD_drop_tokens, Nat.reduceAdd, reduceCtorEq, String.reduceEq,
                  ite_eq_right_iff, ite_some_some_ne_none, Bool.or_eq_true, bne_iff_ne, ne_eq,
                  Bool.or_false, Bool.false_eq_true, or_false]
                tauto
              · by_cases d4 : toks.getD 4 "" = "$"
                · simp only [d0, d1, d2, d3, d4, if_true, if_false, requiredLiterals, List.any_cons,
                    List.any_nil, getD_drop_tokens, Nat.reduceAdd, reduceCtorEq, String.reduceEq,
                    ite_eq_right_iff, ite_some_some_ne_none, Bool.or_eq_true, bne_iff_ne, ne_eq,
                    Bool.or_false, Bool.false_eq_true, or_false]
                · simp only [d0, d1, d2, d3, d4, if_true, if_false, requiredLiterals, List.any_nil,
                    ite_some_some_ne_none, Bool.false_eq_true]
      · simp only [h1, if_false, if_pos h2, if_neg h3]
    · simp only [h1, h2, if_false]

/-- `parseRange` gives up exactly when a required literal is absent from the
tokens. -/
theorem parseRange_none_iff_missing (env : Env) (toks : List String) :
    parseRange env { tokens := toks } = none ↔ missingLiteral toks = true :=
  parseRange_none_iff env toks

/-- C12: for a text whose first token is no built-in keyword, when a required
literal token is absent (the `=` or `:` after the origin start, the `=` after
the origin end, or a `,`, `]`, `:` or `[` of a Colour, Desaturated, Blend or
Tint destination) `parse` returns the Translation as it was: the list of
ranges, `built_in_name` and `desat_amount` are unchanged. When none is absent
`parse` appends exactly one range. -/
theorem parse_missing_literal (env : Env) (t : Translation) (text : String)
    (hkw : lower (Tokenizer.openString "[]:%,=#@$" text).peekToken ≠ "inverse" ∧
      lower (Tokenizer.openString "[]:%,=#@$" text).peekToken ≠ "gold" ∧
      lower (Tokenizer.openString "[]:%,=#@$" text).peekToken ≠ "red" ∧
      lower (Tokenizer.openString "[]:%,=#@$" text).peekToken ≠ "green" ∧
      lower (Tokenizer.openString "[]:%,=#@$" text).peekToken ≠ "blue" ∧
      lower (Tokenizer.openString "[]:%,=#@$" text).peekToken ≠ "ice" ∧
      lower (Tokenizer.openString "[]:%,=#@$" text).peekToken ≠ "desaturate") :
    (missingLiteral (Tokenizer.openString "[]:%,=#@$" text).tokens = true →
      t.parse env text = t) ∧
    (missingLiteral (Tokenizer.openString "[]:%,=#@$" text).tokens = false →
      ∃ tr : TransRange,
        t.parse env text = { t with translations := t.translations ++ [tr] }) := by
  obtain ⟨h1, h2, h3, h4, h5, h6, h7⟩ := hkw
  have hparse : t.parse env text
      = match parseRange env (Tokenizer.openString "[]:%,=#@$" text) with
        | some tr => { t with translations := t.translations ++ [tr] }
        | none => t := by
    simp only [Translation.parse, h1, h2, h3, h4, h5, h6, h7, if_false]
  have hiff := parseRange_none_iff_missing env (Tokenizer.openString "[]:%,=#@$" text).tokens
  constructor
  · intro hm
    rw [hparse, hiff.mpr hm]
  · intro hm
    cases hp : parseRange env (Tokenizer.openString "[]:%,=#@$" text) with
    | none =>
      have := hiff.mp hp
      rw [hm] at this
      exact absurd this (by decide)
    | some tr =>
      exact ⟨tr, by rw [hparse, hp]⟩

/-- Witness for C12: in `0:16=[255,0,0:[0,0,0]` the `]` after the first triple
is absent, in `5 10` the `=` after the origin start; both leave a Translation
that holds one range and the amount 3 as it was. -/
theorem parse_missing_literal_witness :
    Translation.parse exactEnv
        { translations := [TransRange.palette 1 2 3 4], built_in_name := ""
          desat_amount := 3 } "0:16=[255,0,0:[0,0,0]"
      = { translations := [TransRange.palette 1 2 3 4], built_in_name := ""
          desat_amount := 3 } ∧
    Translation.parse exactEnv
        { translations := [TransRange.palette 1 2 3 4], built_in_name := ""
          desat_amount := 3 } "5 10"
      = { translations := [TransRange.palette 1 2 3 4], built_in_name := ""
          desat_amount := 3 } :=
  ⟨(parse_missing_literal exactEnv _ "0:16=[255,0,0:[0,0,0]" (by decide)).1 (by decide),
   (parse_missing_literal exactEnv _ "5 10" (by decide)).1 (by decide)⟩

/-- The characters of a list of texts that each end in a separator: the
separator can be moved in front of every text but the first. -/
theorem flatten_sep_after (sep : List Char) (x : List Char) (xs : List (List Char)) :
    ((x :: xs).map (fun a => a ++ sep)).flatten
      = x ++ (xs.map (fun a => sep ++ a)).flatten ++ sep := by
  induction xs generalizing x with
  | nil => simp
  | cons y ys ih =>
    have h := ih y
    simp only [List.map_cons, List.flatten_cons] at h ⊢
    rw [h]
    simp [List.append_assoc]

/-- The characters of `String.intercalate`, from an accumulator. -/
theorem intercalate_go_data (s : String) (l : List String) (acc : String) :
    (String.intercalate.go acc s l).data
      = acc.data ++ (l.map (fun a => s.data ++ a.data)).flatten := by
  induction l generalizing acc with
  | nil => simp [String.intercalate.go]
  | cons a as ih =>
    simp [String.intercalate.go, ih, String.data_append, List.append_assoc]

/-- The characters of a text built by appending, for each element in turn,
its text and a separator. -/
theorem foldl_sep_data {α : Type} (q : α → String) (sep : String) (l : List α) (acc : String) :
    (l.foldl (fun ret r => ret ++ (q r ++ sep)) acc).data
      = acc.data ++ (l.map (fun r => (q r).data ++ sep.data)).flatten := by
  induction l generalizing acc with
  | nil => simp
  | cons a as ih =>
    simp [ih, String.data_append, List.append_assoc]

/-- The characters of such a text for a list that is not empty: the texts
with a separator between them, and one separator at the end. -/
theorem foldl_sep_data_cons {α : Type} (q : α → String) (sep : String) (r : α)
    (rest : List α) :
    ((r :: rest).foldl (fun ret r => ret ++ (q r ++ sep)) "").data
      = (sep.intercalate ((r :: rest).map q)).data ++ sep.data := by
  rw [foldl_sep_data]
  have hj := flatten_sep_after sep.data (q r).data (rest.map (fun r => (q r).data))
  simp only [List.map_cons, List.map_map, Function.comp_def] at hj
  simp only [List.map_cons, String.intercalate, intercalate_go_data, List.map_map,
    Function.comp_def]
  rw [hj]
  rfl

/-- Removing the last separator of such a text leaves the texts joined by the
separator. -/
theorem foldl_sep_removeLast {α : Type} (q : α → String) (sep : String) (r : α)
    (rest : List α) :
    removeLast ((r :: rest).foldl (fun ret r => ret ++ (q r ++ sep)) "") sep.data.length
      = sep.intercalate ((r :: rest).map q) := by
  apply String.ext
  simp only [removeLast]
  rw [foldl_sep_data_cons, List.length_append, Nat.add_sub_cancel, List.take_left]

/-- Such a text is not empty when the separator is not. -/
theorem foldl_sep_not_isEmpty {α : Type} (q : α → String) (sep : String) (r : α)
    (rest : List α) (hsep : 0 < sep.data.length) :
    ((r :: rest).foldl (fun ret r => ret ++ (q r ++ sep)) "").isEmpty = false := by
  rw [Bool.eq_false_iff]
  intro hE
  rw [String.isEmpty_iff] at hE
  have h := foldl_sep_data_cons q sep r rest
  rw [hE] at h
  have h2 := congrArg List.length h
  rw [List.length_append] at h2
  simp only [String.data, List.length_nil] at h2
  omega

theorem asText_ranges (env : Env) (l : List TransRange) (d : Nat) :
    Translation.asText env { translations := l, built_in_name := "", desat_amount := d }
      = ", ".intercalate (l.map (fun r => dquote ++ r.asText env ++ dquote)) := by
  cases l with
  | nil => rfl
  | cons r rest =>
    have h1 := foldl_sep_removeLast (fun r => dquote ++ r.asText env ++ dquote) ", " r rest
    have h2 := foldl_sep_not_isEmpty (fun r => dquote ++ r.asText env ++ dquote) ", " r rest
      (by decide)
    show (if "".isEmpty then _ else _) = _
    rw [if_pos (by rfl)]
    show (if (!(List.foldl (fun ret r =>
        ret ++ ((fun r => dquote ++ TransRange.asText env r ++ dquote) r ++ ", ")) ""
        (r :: rest)).isEmpty) = true then _ else _) = _
    rw [h2]
    exact h1

/-! ### C21: asText of a list of ranges -/

/-- C21: when `built_in_name` is empty, `asText` returns the empty string for
an empty list of ranges, and otherwise the texts of the ranges, each wrapped
in double quotes, in list order, joined by a comma and a blank, with no
separator before the first or after the last. -/
theorem asText_quoted_joined (env : Env) (t : Translation) (h : t.built_in_name = "") :
    (t.translations = [] → t.asText env = "") ∧
    t.asText env
      = ", ".intercalate (t.translations.map (fun r => dquote ++ r.asText env ++ dquote)) := by
  obtain ⟨l, name, d⟩ := t
  simp only at h
  subst h
  refine ⟨?_, asText_ranges env l d⟩
  intro hl
  simp only at hl
  subst hl
  rfl

/-- Witness for C21: a palette range and a blend range give the two quoted
texts with one separator between them. -/
theorem asText_quoted_joined_witness :
    Translation.asText exactEnv
        { translations := [TransRange.palette 0 1 2 3, TransRange.blend 4 5 (rgba_t.rgb 1 2 3)]
          built_in_name := "", desat_amount := 0 }
      = "\"0:1=2:3\", \"4:5=#[1,2,3]\"" :=
  ((asText_quoted_joined exactEnv
      { translations := [TransRange.palette 0 1 2 3, TransRange.blend 4 5 (rgba_t.rgb 1 2 3)]
        built_in_name := "", desat_amount := 0 } rfl).2).trans (by decide)
/-! ### C22: clear -/

/-- C22: after `clear`, from any state, the list of ranges is empty,
`built_in_name` is empty and `desat_amount` is 0, so that `asText` returns
the empty string and `translate` returns every colour with its r, g, b, a and
index unchanged. -/
theorem clear_resets (env : Env) (t : Translation) :
    t.clear.translations = [] ∧ t.clear.built_in_name = "" ∧ t.clear.desat_amount = 0 ∧
    t.clear.asText env = "" ∧
    ∀ (col : rgba_t) (pal : Option Palette8bit),
      (t.clear.translate env col pal).r = col.r ∧
      (t.clear.translate env col pal).g = col.g ∧
      (t.clear.translate env col pal).b = col.b ∧
      (t.clear.translate env col pal).a = col.a ∧
      (t.clear.translate env col pal).index = col.index := by
  refine ⟨rfl, rfl, rfl, rfl, ?_⟩
  intro col pal
  have hlen : ¬ (("" : String).length ≠ 0) := by decide
  have e : t.clear.translate env col pal = { col with blend := -1 } := by
    simp only [Translation.translate, Translation.clear, hlen, if_false, translateRanges]
  rw [e]
  exact ⟨rfl, rfl, rfl, rfl, rfl⟩

/-! ### C23: copy -/

/-- The type tag of a range tells its variant. -/
theorem tag_injective (cls : RangeClasses) (k1 k2 : RangeKind)
    (h : cls.tag k1 = cls.tag k2) : k1 = k2 := by
  have hn := cls.tags_nodup
  simp only [List.nodup_cons, List.mem_cons, List.mem_singleton, not_or, List.not_mem_nil,
    not_false_eq_true, List.nodup_nil, and_true] at hn
  obtain ⟨⟨h12, h13, h14, h15, h16⟩, ⟨h23, h24, h25, h26⟩, ⟨h34, h35, h36⟩, ⟨h45, h46⟩, h56⟩ := hn
  cases k1 <;> cases k2 <;> simp only [RangeClasses.tag] at h <;>
    first
      | rfl
      | exact absurd h h12 | exact absurd h h13 | exact absurd h h14 | exact absurd h h15
      | exact absurd h h16 | exact absurd h h23 | exact absurd h h24 | exact absurd h h25
      | exact absurd h h26 | exact absurd h h34 | exact absurd h h35 | exact absurd h h36
      | exact absurd h h45 | exact absurd h h46 | exact absurd h h56
      | exact absurd h.symm h12 | exact absurd h.symm h13 | exact absurd h.symm h14
      | exact absurd h.symm h15 | exact absurd h.symm h16 | exact absurd h.symm h23
      | exact absurd h.symm h24 | exact absurd h.symm h25 | exact absurd h.symm h26
      | exact absurd h.symm h34 | exact absurd h.symm h35 | exact absurd h.symm h36
      | exact absurd h.symm h45 | exact absurd h.symm h46 | exact absurd h.symm h56

/-- A copy constructor builds a range equal to the original. -/
theorem copyOf_eq (r : TransRange) : r.copyOf = r := by
  cases r <;> rfl

/-- One round of the loop of `copy` pushes exactly one range, the copy. -/
theorem copyRange_eq (cls : RangeClasses) (translations : List TransRange)
    (r : TransRange) : copyRange cls translations r = translations ++ [r] := by
  have hiff : ∀ k1 k2, cls.tag k1 = cls.tag k2 ↔ k1 = k2 :=
    fun k1 k2 => ⟨tag_injective cls k1 k2, fun h => by rw [h]⟩
  simp only [copyRange, TransRange.type, copyOf_eq,
    show cls.TRANS_PALETTE = cls.tag RangeKind.palette from rfl,
    show cls.TRANS_COLOUR = cls.tag RangeKind.colour from rfl,
    show cls.TRANS_DESAT = cls.tag RangeKind.desat from rfl,
    show cls.TRANS_BLEND = cls.tag RangeKind.blend from rfl,
    show cls.TRANS_TINT = cls.tag RangeKind.tint from rfl,
    show cls.TRANS_SPECIAL = cls.tag RangeKind.special from rfl, hiff]
  cases hk : r.kind <;> simp

/-- The loop of `copy` appends the ranges of the source in their order. -/
theorem foldl_copyRange (cls : RangeClasses) (l acc : List TransRange) :
    l.foldl (copyRange cls) acc = acc ++ l := by
  induction l generalizing acc with
  | nil => simp
  | cons r rest ih =>
    rw [List.foldl_cons, copyRange_eq, ih]
    simp

/-- C23: after `a.copy(b)`, whatever `a` held before, `a` has as many ranges
as `b`, at every position a range of the same variant with equal fields (the
lists of ranges are equal), and the `built_in_name` and `desat_amount` of `b`;
`b` itself is unchanged. -/
theorem copy_duplicates (cls : RangeClasses) (a b : Translation) :
    (a.copy cls b).1.nRanges = b.nRanges ∧
    (∀ (k : Nat) (h1 : k < (a.copy cls b).1.translations.length)
        (h2 : k < b.translations.length),
      ((a.copy cls b).1.translations.get ⟨k, h1⟩).kind = (b.translations.get ⟨k, h2⟩).kind ∧
      (a.copy cls b).1.translations.get ⟨k, h1⟩ = b.translations.get ⟨k, h2⟩) ∧
    (a.copy cls b).1.translations = b.translations ∧
    (a.copy cls b).1.built_in_name = b.built_in_name ∧
    (a.copy cls b).1.desat_amount = b.desat_amount ∧
    (a.copy cls b).1 = b ∧
    (a.copy cls b).2 = b := by
  have hl : (a.copy cls b).1.translations = b.translations := by
    simp only [Translation.copy, Translation.clear, foldl_copyRange, List.nil_append]
  refine ⟨?_, ?_, hl, rfl, rfl, ?_, rfl⟩
  · simp only [Translation.nRanges, hl]
  · intro k h1 h2
    have e : (a.copy cls b).1.translations.get ⟨k, h1⟩ = b.translations.get ⟨k, h2⟩ := by
      simp only [List.get_eq_getElem, hl]
    exact ⟨by rw [e], e⟩
  · obtain ⟨bl, bn, bd⟩ := b
    simp only [Translation.copy, Translation.clear, foldl_copyRange, List.nil_append]
/-! ### C24, C25: addRange -/

/-- The number of ranges after `addRange`: one more, for every type and
position. -/
theorem addRange_length (cls : RangeClasses) (t : Translation) (type pos : Int) :
    (t.addRange cls type pos).nRanges = t.nRanges + 1 := by
  simp only [Translation.addRange, Translation.nRanges]
  split_ifs with h
  · simp
  · have hp : pos.toNat ≤ t.translations.length := by omega
    simp [List.length_insertIdx, hp]

/-- Inserting at an index of the list: the elements before the index, the new
element, then the elements from the index on. -/
theorem insertIdx_take_drop {α : Type} (a : α) :
    ∀ (n : Nat) (l : List α), n ≤ l.length → l.insertIdx n a = l.take n ++ a :: l.drop n := by
  intro n
  induction n with
  | zero => intro l _; simp
  | succ k ih =>
    intro l hl
    cases l with
    | nil => simp at hl
    | cons x xs =>
      simp only [List.length_cons, Nat.add_le_add_iff_right] at hl
      simp [List.insertIdx_succ_cons, ih xs hl]

/-- C24: `addRange(type, pos)` adds exactly one range for every type and
position, and for the tags of the Palette, Colour, Desaturated, Blend and
Tint variants the range it creates has that variant; for the tag
`TRANS_SPECIAL` it creates a Palette range, not a Special one: on an empty
translation `addRange(TRANS_SPECIAL, pos)` leaves the single default Palette
range, exactly what `addRange(TRANS_PALETTE, pos)` leaves. -/
theorem addRange_special_adds_palette (cls : RangeClasses) (t : Translation) (pos : Int) :
    (∀ type : Int, (t.addRange cls type pos).nRanges = t.nRanges + 1) ∧
    (newRange cls cls.TRANS_PALETTE).kind = RangeKind.palette ∧
    (newRange cls cls.TRANS_COLOUR).kind = RangeKind.colour ∧
    (newRange cls cls.TRANS_DESAT).kind = RangeKind.desat ∧
    (newRange cls cls.TRANS_BLEND).kind = RangeKind.blend ∧
    (newRange cls cls.TRANS_TINT).kind = RangeKind.tint ∧
    (newRange cls cls.TRANS_SPECIAL).kind = RangeKind.palette ∧
    (newRange cls cls.TRANS_SPECIAL).kind ≠ RangeKind.special ∧
    (Translation.new.addRange cls cls.TRANS_SPECIAL pos).translations
      = [cls.TransRangePalette] ∧
    t.addRange cls cls.TRANS_SPECIAL pos = t.addRange cls cls.TRANS_PALETTE pos := by
  have hn := cls.tags_nodup
  simp only [List.nodup_cons, List.mem_cons, List.mem_singleton, not_or, List.not_mem_nil,
    not_false_eq_true, List.nodup_nil, and_true] at hn
  obtain ⟨⟨h12, h13, h14, h15, h16⟩, ⟨h23, h24, h25, h26⟩, ⟨h34, h35, h36⟩, ⟨h45, h46⟩, h56⟩ := hn
  have e1 : newRange cls cls.TRANS_PALETTE = cls.TransRangePalette := by
    simp only [newRange, h12, h13, h14, h15, h16, if_false, ite_self]
  have e2 : newRange cls cls.TRANS_COLOUR = cls.TransRangeColour := by
    simp only [newRange, if_true]
  have e3 : newRange cls cls.TRANS_DESAT = cls.TransRangeDesat := by
    simp only [newRange, Ne.symm h23, if_false, if_true]
  have e4 : newRange cls cls.TRANS_BLEND = cls.TransRangeBlend := by
    simp only [newRange, Ne.symm h24, Ne.symm h34, if_false, if_true]
  have e5 : newRange cls cls.TRANS_TINT = cls.TransRangeTint := by
    simp only [newRange, Ne.symm h25, Ne.symm h35, Ne.symm h45, if_false, if_true]
  have e6 : newRange cls cls.TRANS_SPECIAL = cls.TransRangePalette := by
    simp only [newRange, Ne.symm h26, Ne.symm h36, Ne.symm h46, Ne.symm h56, if_false, if_true]
  refine ⟨fun type => addRange_length cls t type pos, ?_, ?_, ?_, ?_, ?_, ?_, ?_, ?_, ?_⟩
  · rw [e1]; exact cls.palette_kind
  · rw [e2]; exact cls.colour_kind
  · rw [e3]; exact cls.desat_kind
  · rw [e4]; exact cls.blend_kind
  · rw [e5]; exact cls.tint_kind
  · rw [e6]; exact cls.palette_kind
  · rw [e6, cls.palette_kind]; decide
  · simp only [Translation.addRange, Translation.new, e6, List.length_nil, List.nil_append]
    rw [if_pos (by omega)]
  · simp only [Translation.addRange, e6, e1]

/-- C25: for a list of `n` ranges, `addRange(type, pos)` with `0 ≤ pos < n`
places the new range at index `pos`, after the ranges before `pos` and in
front of those previously at `pos..n-1`; with `pos < 0` or `pos ≥ n` it
places the new range at index `n`, the end; in both cases the ranges that
were there keep their order, and `built_in_name` and `desat_amount` are
unchanged. -/
theorem addRange_position (cls : RangeClasses) (t : Translation) (type pos : Int) :
    (0 ≤ pos ∧ pos < (t.nRanges : Int) →
      (t.addRange cls type pos).translations
          = t.translations.take pos.toNat ++ newRange cls type :: t.translations.drop pos.toNat ∧
      (t.addRange cls type pos).translations[pos.toNat]? = some (newRange cls type) ∧
      (∀ j, j < pos.toNat → (t.addRange cls type pos).translations[j]? = t.translations[j]?) ∧
      (∀ j, pos.toNat ≤ j →
        (t.addRange cls type pos).translations[j + 1]? = t.translations[j]?)) ∧
    (pos < 0 ∨ pos ≥ (t.nRanges : Int) →
      (t.addRange cls type pos).translations = t.translations ++ [newRange cls type] ∧
      (t.addRange cls type pos).translations[t.nRanges]? = some (newRange cls type) ∧
      (∀ j, j < t.nRanges → (t.addRange cls type pos).translations[j]? = t.translations[j]?)) ∧
    (t.addRange cls type pos).built_in_name = t.built_in_name ∧
    (t.addRange cls type pos).desat_amount = t.desat_amount := by
  refine ⟨?_, ?_, ?_, ?_⟩
  · rintro ⟨h0, hn⟩
    simp only [Translation.nRanges] at hn
    have hp : pos.toNat < t.translations.length := by omega
    have e : (t.addRange cls type pos).translations
        = t.translations.take pos.toNat ++ newRange cls type :: t.translations.drop pos.toNat := by
      simp only [Translation.addRange]
      rw [if_neg (by omega)]
      exact insertIdx_take_drop _ _ _ (by omega)
    have hlt : (t.translations.take pos.toNat).length = pos.toNat := by
      rw [List.length_take]; omega
    refine ⟨e, ?_, ?_, ?_⟩
    · rw [e, List.getElem?_append_right (by omega), hlt]
      simp
    · intro j hj
      rw [e, List.getElem?_append_left (by omega), List.getElem?_take_of_lt hj]
    · intro j hj
      rw [e, List.getElem?_append_right (by omega), hlt,
        show j + 1 - pos.toNat = (j - pos.toNat) + 1 by omega, List.getElem?_cons_succ,
        List.getElem?_drop]
      congr 1
      omega
  · intro h
    simp only [Translation.nRanges] at h ⊢
    have e : (t.addRange cls type pos).translations = t.translations ++ [newRange cls type] := by
      simp only [Translation.addRange]
      rw [if_pos h]
    refine ⟨e, ?_, ?_⟩
    · rw [e, List.getElem?_append_right (le_refl _)]
      simp
    · intro j hj
      rw [e, List.getElem?_append_left hj]
  · simp only [Translation.addRange]
    split_ifs <;> rfl
  · simp only [Translation.addRange]
    split_ifs <;> rfl
/-- Witness for C25: a Blend range added at position 1 of two ranges goes
between them, and added at position 7 or -1 goes to the end. -/
theorem addRange_position_witness :
    (Translation.addRange exampleClasses
        { translations := [TransRange.palette 0 1 2 3, TransRange.palette 4 5 6 7]
          built_in_name := "", desat_amount := 0 } 4 1).translations
      = [TransRange.palette 0 1 2 3, TransRange.blend 0 0 (rgba_t.rgb 255 0 0),
          TransRange.palette 4 5 6 7] ∧
    (Translation.addRange exampleClasses
        { translations := [TransRange.palette 0 1 2 3, TransRange.palette 4 5 6 7]
          built_in_name := "", desat_amount := 0 } 4 7).translations
      = [TransRange.palette 0 1 2 3, TransRange.palette 4 5 6 7,
          TransRange.blend 0 0 (rgba_t.rgb 255 0 0)] :=
  ⟨((addRange_position exampleClasses
      { translations := [TransRange.palette 0 1 2 3, TransRange.palette 4 5 6 7]
        built_in_name := "", desat_amount := 0 } 4 1).1 (by decide)).1,
   ((addRange_position exampleClasses
      { translations := [TransRange.palette 0 1 2 3, TransRange.palette 4 5 6 7]
        built_in_name := "", desat_amount := 0 } 4 7).2.1 (by decide)).1⟩

/-! ### C26: removeRange -/

/-- C26: for a list of `n` ranges, `removeRange(pos)` with `0 ≤ pos < n`
yields the list with exactly the element at `pos` deleted and the others in
their original order, of length `n - 1`; with `pos < 0` or `pos ≥ n` it
leaves the translation unchanged. -/
theorem removeRange_deletes (t : Translation) (pos : Int) :
    (0 ≤ pos ∧ pos < (t.nRanges : Int) →
      (t.removeRange pos).translations
          = t.translations.take pos.toNat ++ t.translations.drop (pos.toNat + 1) ∧
      (t.removeRange pos).nRanges = t.nRanges - 1 ∧
      (∀ j, j < pos.toNat → (t.removeRange pos).translations[j]? = t.translations[j]?) ∧
      (∀ j, pos.toNat ≤ j → (t.removeRange pos).translations[j]? = t.translations[j + 1]?) ∧
      (t.removeRange pos).built_in_name = t.built_in_name ∧
      (t.removeRange pos).desat_amount = t.desat_amount) ∧
    (pos < 0 ∨ pos ≥ (t.nRanges : Int) → t.removeRange pos = t) := by
  refine ⟨?_, ?_⟩
  · rintro ⟨h0, hn⟩
    simp only [Translation.nRanges] at hn ⊢
    have hp : pos.toNat < t.translations.length := by omega
    have e : t.removeRange pos
        = { t with translations := t.translations.eraseIdx pos.toNat } := by
      simp only [Translation.removeRange]
      rw [if_neg (by omega)]
    rw [e]
    refine ⟨List.eraseIdx_eq_take_drop_succ _ _, ?_, ?_, ?_, rfl, rfl⟩
    · simp only [List.length_eraseIdx, hp, if_true]
    · intro j hj
      simp only [List.getElem?_eraseIdx, hj, if_true]
    · intro j hj
      simp only [List.getElem?_eraseIdx, show ¬ j < pos.toNat by omega, if_false]
  · intro h
    simp only [Translation.nRanges] at h
    simp only [Translation.removeRange]
    rw [if_pos h]

/-- Witness for C26: removing position 1 of three ranges leaves the first and
the third; removing position 3 changes nothing. -/
theorem removeRange_deletes_witness :
    (Translation.removeRange
        { translations := [TransRange.palette 0 1 2 3, TransRange.palette 4 5 6 7,
            TransRange.palette 8 9 10 11]
          built_in_name := "", desat_amount := 0 } 1).translations
      = [TransRange.palette 0 1 2 3, TransRange.palette 8 9 10 11] ∧
    Translation.removeRange
        { translations := [TransRange.palette 0 1 2 3, TransRange.palette 4 5 6 7,
            TransRange.palette 8 9 10 11]
          built_in_name := "", desat_amount := 0 } 3
      = { translations := [TransRange.palette 0 1 2 3, TransRange.palette 4 5 6 7,
            TransRange.palette 8 9 10 11]
          built_in_name := "", desat_amount := 0 } :=
  ⟨((removeRange_deletes
      { translations := [TransRange.palette 0 1 2 3, TransRange.palette 4 5 6 7,
          TransRange.palette 8 9 10 11]
        built_in_name := "", desat_amount := 0 } 1).1 (by decide)).1,
   (removeRange_deletes
      { translations := [TransRange.palette 0 1 2 3, TransRange.palette 4 5 6 7,
          TransRange.palette 8 9 10 11]
        built_in_name := "", desat_amount := 0 } 3).2 (by decide)⟩
/-! ### C27: swapRanges -/

/-- The list after storing `y` at `a` and then `x` at `b`, read at `j`, when
`x` and `y` were the elements at `a` and `b`. -/
theorem getElem?_set_set {α : Type} (l : List α) (a b : Nat) (x y : α)
    (ha : l[a]? = some x) (hb : l[b]? = some y) (j : Nat) :
    ((l.set a y).set b x)[j]? = if j = b then l[a]? else if j = a then l[b]? else l[j]? := by
  have hla : a < l.length := by
    rcases Nat.lt_or_ge a l.length with h | h
    · exact h
    · rw [List.getElem?_eq_none h] at ha; cases ha
  have hlb : b < l.length := by
    rcases Nat.lt_or_ge b l.length with h | h
    · exact h
    · rw [List.getElem?_eq_none h] at hb; cases hb
  simp only [List.getElem?_set, List.length_set, hla, hlb, if_true, ha, hb]
  by_cases h1 : j = b
  · simp [h1]
  · by_cases h2 : j = a
    · subst h2
      simp [h1, Ne.symm h1]
    · simp [h1, h2, Ne.symm h1, Ne.symm h2]

/-- What `swapRanges` does to the list when both positions are inside it. -/
theorem swapRanges_inside (t : Translation) (pos1 pos2 : Int)
    (h : 0 ≤ pos1 ∧ pos1 < (t.nRanges : Int) ∧ 0 ≤ pos2 ∧ pos2 < (t.nRanges : Int)) :
    (t.swapRanges pos1 pos2).built_in_name = t.built_in_name ∧
    (t.swapRanges pos1 pos2).desat_amount = t.desat_amount ∧
    (t.swapRanges pos1 pos2).translations.length = t.translations.length ∧
    ∀ j, (t.swapRanges pos1 pos2).translations[j]?
      = if j = pos2.toNat then t.translations[pos1.toNat]?
        else if j = pos1.toNat then t.translations[pos2.toNat]? else t.translations[j]? := by
  obtain ⟨h1, h2, h3, h4⟩ := h
  simp only [Translation.nRanges] at h2 h4
  have ha : pos1.toNat < t.translations.length := by omega
  have hb : pos2.toNat < t.translations.length := by omega
  obtain ⟨x, ea⟩ : ∃ x, t.translations[pos1.toNat]? = some x :=
    ⟨_, List.getElem?_eq_getElem ha⟩
  obtain ⟨y, eb⟩ : ∃ y, t.translations[pos2.toNat]? = some y :=
    ⟨_, List.getElem?_eq_getElem hb⟩
  have e : t.swapRanges pos1 pos2
      = { t with translations := (t.translations.set pos1.toNat y).set pos2.toNat x } := by
    simp only [Translation.swapRanges]
    rw [if_neg (by omega)]
    simp only [ea, eb]
  rw [e]
  refine ⟨rfl, rfl, ?_, ?_⟩
  · simp only [List.length_set]
  · intro j
    exact getElem?_set_set _ _ _ _ _ ea eb j

/-- C27: for a list of `n` ranges, `swapRanges(p1, p2)` with both positions in
`0..n-1` exchanges the ranges at `p1` and `p2` and leaves every other position
and the length unchanged, so that the same swap applied twice restores the
translation; if either position is negative or `≥ n` the translation is
unchanged. -/
theorem swapRanges_exchanges (t : Translation) (pos1 pos2 : Int) :
    (0 ≤ pos1 ∧ pos1 < (t.nRanges : Int) ∧ 0 ≤ pos2 ∧ pos2 < (t.nRanges : Int) →
      (t.swapRanges pos1 pos2).translations[pos1.toNat]? = t.translations[pos2.toNat]? ∧
      (t.swapRanges pos1 pos2).translations[pos2.toNat]? = t.translations[pos1.toNat]? ∧
      (∀ j, j ≠ pos1.toNat → j ≠ pos2.toNat →
        (t.swapRanges pos1 pos2).translations[j]? = t.translations[j]?) ∧
      (t.swapRanges pos1 pos2).nRanges = t.nRanges ∧
      (t.swapRanges pos1 pos2).built_in_name = t.built_in_name ∧
      (t.swapRanges pos1 pos2).desat_amount = t.desat_amount ∧
      (t.swapRanges pos1 pos2).swapRanges pos1 pos2 = t) ∧
    (pos1 < 0 ∨ pos2 < 0 ∨ pos1 ≥ (t.nRanges : Int) ∨ pos2 ≥ (t.nRanges : Int) →
      t.swapRanges pos1 pos2 = t) := by
  refine ⟨?_, ?_⟩
  · intro h
    obtain ⟨hn, hd, hl, hg⟩ := swapRanges_inside t pos1 pos2 h
    have h' : 0 ≤ pos1 ∧ pos1 < ((t.swapRanges pos1 pos2).nRanges : Int) ∧ 0 ≤ pos2 ∧
        pos2 < ((t.swapRanges pos1 pos2).nRanges : Int) := by
      simp only [Translation.nRanges, hl]
      exact h
    obtain ⟨hn2, hd2, hl2, hg2⟩ := swapRanges_inside (t.swapRanges pos1 pos2) pos1 pos2 h'
    refine ⟨?_, ?_, ?_, ?_, hn, hd, ?_⟩
    · rw [hg]
      by_cases e : pos1.toNat = pos2.toNat
      · simp [e]
      · simp [e]
    · rw [hg]; simp
    · intro j hj1 hj2
      rw [hg]; simp [hj1, hj2]
    · simp only [Translation.nRanges, hl]
    · have hlist : ((t.swapRanges pos1 pos2).swapRanges pos1 pos2).translations
          = t.translations := by
        apply List.ext_getElem?
        intro j
        simp only [hg2, hg]
        split_ifs <;> simp_all
      have hname : ((t.swapRanges pos1 pos2).swapRanges pos1 pos2).built_in_name
          = t.built_in_name := by rw [hn2, hn]
      have hdes : ((t.swapRanges pos1 pos2).swapRanges pos1 pos2).desat_amount
          = t.desat_amount := by rw [hd2, hd]
      generalize (t.swapRanges pos1 pos2).swapRanges pos1 pos2 = u at hlist hname hdes
      obtain ⟨ul, un, ud⟩ := u
      obtain ⟨tl, tn, td⟩ := t
      simp only at hlist hname hdes
      rw [hlist, hname, hdes]
  · intro h
    simp only [Translation.nRanges] at h
    simp only [Translation.swapRanges]
    rw [if_pos h]

/-- Witness for C27: swapping positions 0 and 2 of three ranges exchanges the
first and the third, and swapping with position 3 changes nothing. -/
theorem swapRanges_exchanges_witness :
    Translation.swapRanges (Translation.swapRanges
        { translations := [TransRange.palette 0 1 2 3, TransRange.palette 4 5 6 7,
            TransRange.palette 8 9 10 11]
          built_in_name := "", desat_amount := 0 } 0 2) 0 2
      = { translations := [TransRange.palette 0 1 2 3, TransRange.palette 4 5 6 7,
            TransRange.palette 8 9 10 11]
          built_in_name := "", desat_amount := 0 } ∧
    Translation.swapRanges
        { translations := [TransRange.palette 0 1 2 3, TransRange.palette 4 5 6 7,
            TransRange.palette 8 9 10 11]
          built_in_name := "", desat_amount := 0 } 0 2
      = { translations := [TransRange.palette 8 9 10 11, TransRange.palette 4 5 6 7,
            TransRange.palette 0 1 2 3]
          built_in_name := "", desat_amount := 0 } ∧
    Translation.swapRanges
        { translations := [TransRange.palette 0 1 2 3, TransRange.palette 4 5 6 7,
            TransRange.palette 8 9 10 11]
          built_in_name := "", desat_amount := 0 } 0 3
      = { translations := [TransRange.palette 0 1 2 3, TransRange.palette 4 5 6 7,
            TransRange.palette 8 9 10 11]
          built_in_name := "", desat_amount := 0 } :=
  ⟨((swapRanges_exchanges
      { translations := [TransRange.palette 0 1 2 3, TransRange.palette 4 5 6 7,
          TransRange.palette 8 9 10 11]
        built_in_name := "", desat_amount := 0 } 0 2).1 (by decide)).2.2.2.2.2.2,
   by decide,
   (swapRanges_exchanges
      { translations := [TransRange.palette 0 1 2 3, TransRange.palette 4 5 6 7,
          TransRange.palette 8 9 10 11]
        built_in_name := "", desat_amount := 0 } 0 3).2 (by decide)⟩

/-! ### The loop of translate, range by range -/

/-- A range that is not a matching special range hands the working colour it
leaves to the rest of the loop. -/
theorem translateRanges_cons_step (env : Env) (col : rgba_t) (pal : Palette8bit) (i : Nat)
    (r : TransRange) (rest : List TransRange) (colour : rgba_t)
    (h : r.isSpecial = false ∨ i < r.oStart ∨ i > r.oEnd) :
    translateRanges env col pal i (r :: rest) colour
      = translateRanges env col pal i rest (translateRanges env col pal i [r] colour) := by
  by_cases hmiss : i < r.oStart ∨ i > r.oEnd
  · rw [translateRanges_miss env col pal i r rest colour hmiss,
      translateRanges_miss env col pal i r [] colour hmiss]
    rfl
  · cases r with
    | special o e name =>
      rcases h with h | h
      · simp [TransRange.isSpecial] at h
      · exact absurd h hmiss
    | palette _ _ _ _ => simp only [translateRanges, hmiss, if_false]
    | colour _ _ _ _ => simp only [translateRanges, hmiss, if_false]
    | desat _ _ _ _ _ _ _ _ => simp only [translateRanges, hmiss, if_false]
    | blend _ _ _ => simp only [translateRanges, hmiss, if_false]
    | tint _ _ _ _ => simp only [translateRanges, hmiss, if_false]

/-- The loop over two lists in a row, when no special range of the first one
matches: the second list starts from the working colour the first leaves. -/
theorem translateRanges_append (env : Env) (col : rgba_t) (pal : Palette8bit) (i : Nat)
    (post : List TransRange) :
    ∀ (pre : List TransRange) (colour : rgba_t),
      (∀ r ∈ pre, r.isSpecial = false ∨ i < r.oStart ∨ i > r.oEnd) →
      translateRanges env col pal i (pre ++ post) colour
        = translateRanges env col pal i post (translateRanges env col pal i pre colour) := by
  intro pre
  induction pre with
  | nil => intro colour _; rfl
  | cons r rest ih =>
    intro colour h
    have hr := h r (List.mem_cons_self _ _)
    rw [List.cons_append, translateRanges_cons_step env col pal i r _ colour hr,
      translateRanges_cons_step env col pal i r rest colour hr]
    exact ih _ (fun x hx => h x (List.mem_cons_of_mem _ hx))

/-- The alpha the loop leaves is that of the working colour it started with,
when no palette range and no special range of the list matches. -/
theorem translateRanges_alpha (env : Env) (col : rgba_t) (pal : Palette8bit) (i : Nat) :
    ∀ (l : List TransRange) (colour : rgba_t),
      (∀ r ∈ l, (r.kind ≠ RangeKind.palette ∧ r.isSpecial = false) ∨ i < r.oStart ∨ i > r.oEnd) →
      (translateRanges env col pal i l colour).a = colour.a := by
  intro l
  induction l with
  | nil => intro colour _; rfl
  | cons r rest ih =>
    intro colour h
    have hr := h r (List.mem_cons_self _ _)
    have hrest := fun x hx => h x (List.mem_cons_of_mem _ hx)
    by_cases hmiss : i < r.oStart ∨ i > r.oEnd
    · rw [translateRanges_miss env col pal i r rest colour hmiss]
      exact ih colour hrest
    · rcases hr with ⟨hk, hs⟩ | hr
      · cases r with
        | special o e name => simp [TransRange.isSpecial] at hs
        | palette _ _ _ _ => simp [TransRange.kind] at hk
        | colour _ _ _ _ =>
          simp only [translateRanges, hmiss, if_false]
          rw [ih _ hrest]
        | desat _ _ _ _ _ _ _ _ =>
          simp only [translateRanges, hmiss, if_false]
          rw [ih _ hrest]
        | blend _ _ _ =>
          simp only [translateRanges, hmiss, if_false]
          rw [ih _ hrest]
        | tint _ _ _ _ =>
          simp only [translateRanges, hmiss, if_false]
          rw [ih _ hrest]
      · exact absurd hr hmiss

/-- What a single matching range that is not special leaves of the working
colour: its r, g, b do not depend on the working colour; its alpha and index
do not either for a palette range; for the other variants the alpha is that
of the working colour, and the index does not depend on the working colour
when the nearest palette index is a function of r, g, b alone. -/
theorem translateRanges_single (env : Env) (col : rgba_t) (pal : Palette8bit) (i : Nat)
    (r : TransRange) (hs : r.isSpecial = false) (hin : r.oStart ≤ i ∧ i ≤ r.oEnd)
    (c1 c2 : rgba_t) :
    (translateRanges env col pal i [r] c1).r = (translateRanges env col pal i [r] c2).r ∧
    (translateRanges env col pal i [r] c1).g = (translateRanges env col pal i [r] c2).g ∧
    (translateRanges env col pal i [r] c1).b = (translateRanges env col pal i [r] c2).b ∧
    (r.kind = RangeKind.palette →
      (translateRanges env col pal i [r] c1).a = (translateRanges env col pal i [r] c2).a ∧
      (translateRanges env col pal i [r] c1).index
        = (translateRanges env col pal i [r] c2).index) ∧
    (r.kind ≠ RangeKind.palette → (translateRanges env col pal i [r] c1).a = c1.a) ∧
    ((∀ x y : rgba_t, x.r = y.r → x.g = y.g → x.b = y.b →
        pal.nearestColour x = pal.nearestColour y) →
      (translateRanges env col pal i [r] c1).index
        = (translateRanges env col pal i [r] c2).index) := by
  have hmiss : ¬ (i < r.oStart ∨ i > r.oEnd) := by omega
  cases r with
  | special o e name => simp [TransRange.isSpecial] at hs
  | palette _ _ _ _ =>
    simp [translateRanges, hmiss, TransRange.kind]
  | colour _ _ _ _ =>
    refine ⟨?_, ?_, ?_, ?_, ?_, ?_⟩
    · simp only [translateRanges, hmiss, if_false]
    · simp only [translateRanges, hmiss, if_false]
    · simp only [translateRanges, hmiss, if_false]
    · intro h
      simp [TransRange.kind] at h
    · intro _
      simp only [translateRanges, hmiss, if_false]
    · intro hn
      simp only [translateRanges, hmiss, if_false]
      exact hn _ _ rfl rfl rfl
  | desat _ _ _ _ _ _ _ _ =>
    refine ⟨?_, ?_, ?_, ?_, ?_, ?_⟩
    · simp only [translateRanges, hmiss, if_false]
    · simp only [translateRanges, hmiss, if_false]
    · simp only [translateRanges, hmiss, if_false]
    · intro h
      simp [TransRange.kind] at h
    · intro _
      simp only [translateRanges, hmiss, if_false]
    · intro hn
      simp only [translateRanges, hmiss, if_false]
      exact hn _ _ rfl rfl rfl
  | blend _ _ _ =>
    refine ⟨?_, ?_, ?_, ?_, ?_, ?_⟩
    · simp only [translateRanges, hmiss, if_false]
    · simp only [translateRanges, hmiss, if_false]
    · simp only [translateRanges, hmiss, if_false]
    · intro h
      simp [TransRange.kind] at h
    · intro _
      simp only [translateRanges, hmiss, if_false]
    · intro hn
      simp only [translateRanges, hmiss, if_false]
      exact hn _ _ rfl rfl rfl
  | tint _ _ _ _ =>
    refine ⟨?_, ?_, ?_, ?_, ?_, ?_⟩
    · simp only [translateRanges, hmiss, if_false]
    · simp only [translateRanges, hmiss, if_false]
    · simp only [translateRanges, hmiss, if_false]
    · intro h
      simp [TransRange.kind] at h
    · intro _
      simp only [translateRanges, hmiss, if_false]
    · intro hn
      simp only [translateRanges, hmiss, if_false]
      exact hn _ _ rfl rfl rfl

/-- The loop over a list whose last matching range `L` is not special and
which has no matching special range before it is the step of `L` alone, from
the working colour that the ranges before it leave. -/
theorem translateRanges_last_match (env : Env) (col : rgba_t) (pal : Palette8bit) (i : Nat)
    (pre post : List TransRange) (L : TransRange) (colour : rgba_t)
    (hpre : ∀ r ∈ pre, r.isSpecial = false ∨ i < r.oStart ∨ i > r.oEnd)
    (hL : L.isSpecial = false)
    (hpost : ∀ r ∈ post, i < r.oStart ∨ i > r.oEnd) :
    translateRanges env col pal i (pre ++ L :: post) colour
      = translateRanges env col pal i [L] (translateRanges env col pal i pre colour) := by
  rw [translateRanges_append env col pal i _ pre colour hpre,
    translateRanges_cons_step env col pal i L post _ (Or.inl hL),
    translateRanges_all_miss env col pal i post _ hpost]

/-! ### C28: the destination index of a palette range -/

/-- The destination index for index 1 of the range `[0, 4] -> [0, 7]`, in
every `double` format: 7/4 with the fraction dropped. -/
theorem lerpByte_seven_quarters (F : FloatFormat 53) :
    lerpByte F 0 7 (rangeFrac F 1 0 4) = 1 := by
  have hf : rangeFrac F 1 0 4 = 1 / 4 := by
    unfold rangeFrac
    rw [if_pos (by decide)]
    have h := F.rnd_div_pow 1 2 (by norm_num) (by norm_num)
    norm_num at h ⊢
    exact h
  have h1 : F.rnd ((1 : ℚ) / 4 * (((7 : Nat) : ℚ) - ((0 : Nat) : ℚ))) = 7 / 4 := by
    have h := F.rnd_div_pow 7 2 (by norm_num) (by norm_num)
    norm_num at h ⊢
    exact h
  have h2 : F.rnd ((((0 : Nat) : ℚ)) + 7 / 4) = 7 / 4 := by
    have h := F.rnd_div_pow 7 2 (by norm_num) (by norm_num)
    norm_num at h ⊢
    exact h
  unfold lerpByte
  rw [hf, h1, h2]
  have ht : truncToInt (7 / 4 : ℚ) = 1 := by
    apply truncToInt_eq <;> norm_num
  rw [ht]
  decide

/-- In exact arithmetic the destination index is the integer part of
`d_start + t * (d_end - d_start)`. -/
theorem lerpByte_exact_floor (F : FloatFormat 53) (hF : ∀ x, F.rnd x = x)
    (i o_start o_end d_start d_end : Nat) (hs : o_start ≤ i) (he : i ≤ o_end)
    (hds : d_start ≤ 255) (hde : d_end ≤ 255) :
    ((lerpByte F d_start d_end (rangeFrac F i o_start o_end) : Nat) : Int)
      = ⌊(d_start : ℚ)
          + (if o_start = o_end then 0 else ((i : ℚ) - o_start) / ((o_end : ℚ) - o_start))
            * ((d_end : ℚ) - d_start)⌋ := by
  have hrf : rangeFrac F i o_start o_end
      = if o_start = o_end then 0 else ((i : ℚ) - o_start) / ((o_end : ℚ) - o_start) := by
    unfold rangeFrac
    by_cases h : o_start = o_end
    · simp [h]
    · simp [h, hF]
  rw [← hrf]
  have ht0 : 0 ≤ rangeFrac F i o_start o_end := by
    rw [hrf]
    split_ifs with h
    · exact le_refl _
    · apply div_nonneg
      · rw [sub_nonneg]; exact_mod_cast hs
      · rw [sub_nonneg]; exact_mod_cast le_trans hs he
  have ht1 : rangeFrac F i o_start o_end ≤ 1 := by
    rw [hrf]
    split_ifs with h
    · norm_num
    · have hlt : o_start < o_end := by omega
      have hpos : (0 : ℚ) < (o_end : ℚ) - o_start := by
        rw [sub_pos]; exact_mod_cast hlt
      rw [div_le_one hpos]
      have : (i : ℚ) ≤ o_end := by exact_mod_cast he
      linarith
  generalize rangeFrac F i o_start o_end = t at ht0 ht1 ⊢
  unfold lerpByte
  rw [hF, hF]
  have hsq : (0 : ℚ) ≤ d_start := by positivity
  have heq : (0 : ℚ) ≤ d_end := by positivity
  have hsq2 : (d_start : ℚ) ≤ 255 := by exact_mod_cast hds
  have heq2 : (d_end : ℚ) ≤ 255 := by exact_mod_cast hde
  have hv0 : (0 : ℚ) ≤ (d_start : ℚ) + t * ((d_end : ℚ) - d_start) := by
    have : (d_start : ℚ) + t * ((d_end : ℚ) - d_start) = (1 - t) * d_start + t * d_end := by ring
    rw [this]
    have h1 : 0 ≤ (1 - t) * (d_start : ℚ) := mul_nonneg (by linarith) hsq
    have h2 : 0 ≤ t * (d_end : ℚ) := mul_nonneg ht0 heq
    linarith
  have hv1 : (d_start : ℚ) + t * ((d_end : ℚ) - d_start) ≤ 255 := by
    have : (d_start : ℚ) + t * ((d_end : ℚ) - d_start) = (1 - t) * d_start + t * d_end := by ring
    rw [this]
    have h1 : (1 - t) * (d_start : ℚ) ≤ (1 - t) * 255 :=
      mul_le_mul_of_nonneg_left hsq2 (by linarith)
    have h2 : t * (d_end : ℚ) ≤ t * 255 := mul_le_mul_of_nonneg_left heq2 ht0
    linarith
  generalize (d_start : ℚ) + t * ((d_end : ℚ) - d_start) = v at hv0 hv1 ⊢
  have hk0 : 0 ≤ ⌊v⌋ := Int.floor_nonneg.mpr hv0
  have hk1 : ⌊v⌋ ≤ 255 := by
    have h := Int.floor_le v
    have h2 : ((⌊v⌋ : Int) : ℚ) ≤ ((255 : Int) : ℚ) := by
      push_cast
      linarith
    exact_mod_cast h2
  rw [truncToInt_eq hk0 (Int.floor_le v) (Int.lt_floor_add_one v)]
  unfold toUInt8
  omega

/-- C28 (amended): for a palette range with `o_start ≤ i ≤ o_end` that is the
last matching range of a list with no matching special range before it,
`translate` returns the r, g, b, a of the palette colour at the destination
index `d` and the index `d`, where `d` is the value of the `double`
expression `d_start + t * (d_end - d_start)` with its fraction dropped, not
rounded; in exact arithmetic, for `d_start`, `d_end` below 256,
`d = floor (d_start + t * (d_end - d_start))` with
`t = (i - o_start) / (o_end - o_start)`, and `t = 0` when
`o_start = o_end`. -/
theorem translate_palette_index (env : Env) (pre post : List TransRange)
    (o_start o_end d_start d_end amount : Nat) (col : rgba_t) (pal : Option Palette8bit)
    (hpre : ∀ r ∈ pre, r.isSpecial = false ∨
      resolveIndex col (pal.getD env.currentPalette) < r.oStart ∨
      resolveIndex col (pal.getD env.currentPalette) > r.oEnd)
    (hpost : ∀ r ∈ post, resolveIndex col (pal.getD env.currentPalette) < r.oStart ∨
      resolveIndex col (pal.getD env.currentPalette) > r.oEnd)
    (hs : o_start ≤ resolveIndex col (pal.getD env.currentPalette))
    (he : resolveIndex col (pal.getD env.currentPalette) ≤ o_end) :
    ∃ d : Nat,
      d = lerpByte env.f64 d_start d_end
        (rangeFrac env.f64 (resolveIndex col (pal.getD env.currentPalette)) o_start o_end) ∧
      (Translation.translate env
        { translations := pre ++ TransRange.palette o_start o_end d_start d_end :: post
          built_in_name := "", desat_amount := amount } col pal).r
        = ((pal.getD env.currentPalette).colour d).r ∧
      (Translation.translate env
        { translations := pre ++ TransRange.palette o_start o_end d_start d_end :: post
          built_in_name := "", desat_amount := amount } col pal).g
        = ((pal.getD env.currentPalette).colour d).g ∧
      (Translation.translate env
        { translations := pre ++ TransRange.palette o_start o_end d_start d_end :: post
          built_in_name := "", desat_amount := amount } col pal).b
        = ((pal.getD env.currentPalette).colour d).b ∧
      (Translation.translate env
        { translations := pre ++ TransRange.palette o_start o_end d_start d_end :: post
          built_in_name := "", desat_amount := amount } col pal).a
        = ((pal.getD env.currentPalette).colour d).a ∧
      (Translation.translate env
        { translations := pre ++ TransRange.palette o_start o_end d_start d_end :: post
          built_in_name := "", desat_amount := amount } col pal).index = (d : Int) ∧
      ((∀ x, env.f64.rnd x = x) → d_start ≤ 255 → d_end ≤ 255 →
        (d : Int) = ⌊(d_start : ℚ)
          + (if o_start = o_end then 0
              else ((resolveIndex col (pal.getD env.currentPalette) : ℚ) - o_start)
                / ((o_end : ℚ) - o_start))
            * ((d_end : ℚ) - d_start)⌋) := by
  have hlen : ¬ (("" : String).length ≠ 0) := by decide
  simp only [Translation.translate, hlen, if_false]
  generalize pal.getD env.currentPalette = p at hpre hpost hs he ⊢
  generalize resolveIndex col p = i at hpre hpost hs he ⊢
  rw [translateRanges_last_match env col p i pre post
      (TransRange.palette o_start o_end d_start d_end) _ hpre rfl hpost,
    translateRanges_palette_hit env col p i o_start o_end d_start d_end [] _ hs he]
  refine ⟨_, rfl, rfl, rfl, rfl, rfl, rfl, ?_⟩
  intro hF hds hde
  exact lerpByte_exact_floor env.f64 hF i o_start o_end d_start d_end hs he hds hde

/-- Witness for C28: index 1 of the single range `[0, 4] -> [0, 7]` in exact
arithmetic goes to index 1, the integer part of 7/4. -/
theorem translate_palette_index_witness :
    (Translation.translate exactEnv
        { translations := [] ++ TransRange.palette 0 4 0 7 :: []
          built_in_name := "", desat_amount := 0 }
        { r := 9, g := 9, b := 9, a := 255, index := 1, blend := 0 } none).index = 1 :=
  let ⟨_, _, _, _, _, _, h6, h7⟩ := translate_palette_index exactEnv [] [] 0 4 0 7 0
    { r := 9, g := 9, b := 9, a := 255, index := 1, blend := 0 } none
    (by decide) (by decide) (by decide) (by decide)
  (h6.trans (h7 (fun _ => rfl) (by decide) (by decide))).trans (by
    have hi : resolveIndex { r := 9, g := 9, b := 9, a := 255, index := 1, blend := 0 }
        ((none : Option Palette8bit).getD exactEnv.currentPalette) = 1 := by decide
    rw [hi, if_neg (by decide), Int.floor_eq_iff]
    norm_num)

/-- C28 (counterexample): for the range `[0, 4] -> [0, 7]` and
index 1 the destination index is 1 in every arithmetic, while
`d_start + t * (d_end - d_start) = 7/4` rounds to 2. -/
theorem translate_palette_truncates :
    (∀ (env : Env) (pal : Option Palette8bit),
      (Translation.translate env
        { translations := [TransRange.palette 0 4 0 7], built_in_name := "", desat_amount := 0 }
        { r := 9, g := 9, b := 9, a := 255, index := 1, blend := 0 } pal).index = 1) ∧
    round ((0 : ℚ) + ((1 : ℚ) - 0) / ((4 : ℚ) - 0) * ((7 : ℚ) - 0)) = 2 := by
  refine ⟨?_, ?_⟩
  · intro env pal
    have hlen : ¬ (("" : String).length ≠ 0) := by decide
    have hi : ∀ p : Palette8bit,
        resolveIndex { r := 9, g := 9, b := 9, a := 255, index := 1, blend := 0 } p = 1 := by
      intro p
      simp only [resolveIndex]
      rw [if_neg (by decide)]
      decide
    simp only [Translation.translate, hlen, if_false, hi]
    rw [translateRanges_palette_hit env _ _ 1 0 4 0 7 [] _ (by decide) (by decide),
      lerpByte_seven_quarters]
    rfl
  · rw [round_eq]
    norm_num [Int.floor_eq_iff]

/-! ### C29: the last matching range -/

/-- C29 (amended): for a list without special ranges whose last matching
range is `L`, the r, g and b that `translate` returns are those it returns
for the list `[L]`; the alpha is too when `L` is a palette range or no palette
range before `L` matches; and the index is too when `L` is a palette range or
the nearest index of the palette is a function of r, g, b alone. (A Colour,
Desaturated, Blend or Tint range leaves the alpha as it is, so after an
earlier matching palette range the alpha is that of a palette colour.) -/
theorem translate_last_match (env : Env) (pre post : List TransRange) (L : TransRange)
    (amount : Nat) (col : rgba_t) (pal : Option Palette8bit)
    (hpre : ∀ r ∈ pre, r.isSpecial = false)
    (hL : L.isSpecial = false)
    (hin : L.oStart ≤ resolveIndex col (pal.getD env.currentPalette) ∧
      resolveIndex col (pal.getD env.currentPalette) ≤ L.oEnd)
    (hpost : ∀ r ∈ post, r.isSpecial = false ∧
      (resolveIndex col (pal.getD env.currentPalette) < r.oStart ∨
        resolveIndex col (pal.getD env.currentPalette) > r.oEnd)) :
    (Translation.translate env
        { translations := pre ++ L :: post, built_in_name := "", desat_amount := amount }
        col pal).r
      = (Translation.translate env
        { translations := [L], built_in_name := "", desat_amount := amount } col pal).r ∧
    (Translation.translate env
        { translations := pre ++ L :: post, built_in_name := "", desat_amount := amount }
        col pal).g
      = (Translation.translate env
        { translations := [L], built_in_name := "", desat_amount := amount } col pal).g ∧
    (Translation.translate env
        { translations := pre ++ L :: post, built_in_name := "", desat_amount := amount }
        col pal).b
      = (Translation.translate env
        { translations := [L], built_in_name := "", desat_amount := amount } col pal).b ∧
    (L.kind = RangeKind.palette ∨
        (∀ r ∈ pre, r.kind = RangeKind.palette →
          resolveIndex col (pal.getD env.currentPalette) < r.oStart ∨
          resolveIndex col (pal.getD env.currentPalette) > r.oEnd) →
      (Translation.translate env
          { translations := pre ++ L :: post, built_in_name := "", desat_amount := amount }
          col pal).a
        = (Translation.translate env
          { translations := [L], built_in_name := "", desat_amount := amount } col pal).a) ∧
    (L.kind = RangeKind.palette ∨
        (∀ x y : rgba_t, x.r = y.r → x.g = y.g → x.b = y.b →
          (pal.getD env.currentPalette).nearestColour x
            = (pal.getD env.currentPalette).nearestColour y) →
      (Translation.translate env
          { translations := pre ++ L :: post, built_in_name := "", desat_amount := amount }
          col pal).index
        = (Translation.translate env
          { translations := [L], built_in_name := "", desat_amount := amount }
          col pal).index) := by
  have hlen : ¬ (("" : String).length ≠ 0) := by decide
  simp only [Translation.translate, hlen, if_false]
  generalize pal.getD env.currentPalette = p at hin hpost ⊢
  generalize resolveIndex col p = i at hin hpost ⊢
  rw [translateRanges_last_match env col p i pre post L _ (fun r hr => Or.inl (hpre r hr)) hL
    (fun r hr => (hpost r hr).2)]
  obtain ⟨h1, h2, h3, h4, h5, h6⟩ := translateRanges_single env col p i L hL hin
    (translateRanges env col p i pre { col with blend := -1 }) { col with blend := -1 }
  refine ⟨h1, h2, h3, ?_, ?_⟩
  · intro h
    by_cases hk : L.kind = RangeKind.palette
    · exact (h4 hk).1
    · rcases h with h | h
      · exact absurd h hk
      · rw [h5 hk]
        have h7 := (translateRanges_single env col p i L hL hin
          { col with blend := -1 } { col with blend := -1 }).2.2.2.2.1 hk
        rw [h7]
        apply translateRanges_alpha
        intro r hr
        by_cases hrk : r.kind = RangeKind.palette
        · exact Or.inr (h r hr hrk)
        · exact Or.inl ⟨hrk, hpre r hr⟩
  · intro h
    rcases h with h | h
    · exact (h4 h).2
    · exact h6 h

/-- Witness for C29: index 10 with a Colour range over `[0, 20]`, then the
palette range `[5, 15] -> [100, 120]`, then a range that does not match. -/
theorem translate_last_match_witness :
    (Translation.translate exactEnv
        { translations := [TransRange.colour 0 20 (rgba_t.rgb 0 0 0) (rgba_t.rgb 255 255 255),
            TransRange.palette 5 15 100 120, TransRange.palette 30 40 0 0]
          built_in_name := "", desat_amount := 0 }
        { r := 1, g := 2, b := 3, a := 0, index := 10, blend := 0 } none).r
      = (Translation.translate exactEnv
        { translations := [TransRange.palette 5 15 100 120], built_in_name := ""
          desat_amount := 0 }
        { r := 1, g := 2, b := 3, a := 0, index := 10, blend := 0 } none).r ∧
    (Translation.translate exactEnv
        { translations := [TransRange.colour 0 20 (rgba_t.rgb 0 0 0) (rgba_t.rgb 255 255 255),
            TransRange.palette 5 15 100 120, TransRange.palette 30 40 0 0]
          built_in_name := "", desat_amount := 0 }
        { r := 1, g := 2, b := 3, a := 0, index := 10, blend := 0 } none).a
      = (Translation.translate exactEnv
        { translations := [TransRange.palette 5 15 100 120], built_in_name := ""
          desat_amount := 0 }
        { r := 1, g := 2, b := 3, a := 0, index := 10, blend := 0 } none).a :=
  ⟨(translate_last_match exactEnv
      [TransRange.colour 0 20 (rgba_t.rgb 0 0 0) (rgba_t.rgb 255 255 255)]
      [TransRange.palette 30 40 0 0] (TransRange.palette 5 15 100 120) 0
      { r := 1, g := 2, b := 3, a := 0, index := 10, blend := 0 } none
      (by decide) (by decide) (by decide) (by decide)).1,
   (translate_last_match exactEnv
      [TransRange.colour 0 20 (rgba_t.rgb 0 0 0) (rgba_t.rgb 255 255 255)]
      [TransRange.palette 30 40 0 0] (TransRange.palette 5 15 100 120) 0
      { r := 1, g := 2, b := 3, a := 0, index := 10, blend := 0 } none
      (by decide) (by decide) (by decide) (by decide)).2.2.2.1 (Or.inl rfl)⟩

/-- C29 (counterexample): for a colour of alpha 0 at index 10 and
the greyscale palette (alpha 255), the list of a palette range and a Colour
range, both matching, returns alpha 255, while the list of the Colour range
alone, the last matching one, returns alpha 0. -/
theorem translate_alpha_from_earlier_palette :
    (∀ env : Env,
      (Translation.translate env
        { translations := [TransRange.palette 0 255 0 255,
            TransRange.colour 0 255 (rgba_t.rgb 0 0 0) (rgba_t.rgb 255 255 255)]
          built_in_name := "", desat_amount := 0 }
        { r := 10, g := 10, b := 10, a := 0, index := 10, blend := 0 }
        (some greyPalette)).a = 255) ∧
    (∀ env : Env,
      (Translation.translate env
        { translations := [TransRange.colour 0 255 (rgba_t.rgb 0 0 0) (rgba_t.rgb 255 255 255)]
          built_in_name := "", desat_amount := 0 }
        { r := 10, g := 10, b := 10, a := 0, index := 10, blend := 0 }
        (some greyPalette)).a = 0) := by
  refine ⟨fun env => ?_, fun env => ?_⟩
  · rfl
  · rfl

/-! ### C30: the first matching special range -/

/-- A list with a matching special range splits at the first one. -/
theorem first_matching_special (i : Nat) :
    ∀ ranges : List TransRange,
      (∃ r ∈ ranges, r.isSpecial = true ∧ r.oStart ≤ i ∧ i ≤ r.oEnd) →
      ∃ (pre : List TransRange) (o e : Nat) (name : String) (post : List TransRange),
        ranges = pre ++ TransRange.special o e name :: post ∧
        (∀ r ∈ pre, r.isSpecial = false ∨ i < r.oStart ∨ i > r.oEnd) ∧ o ≤ i ∧ i ≤ e := by
  intro ranges
  induction ranges with
  | nil =>
    rintro ⟨r, hr, _⟩
    cases hr
  | cons x rest ih =>
    rintro ⟨r, hr, hsp, h1, h2⟩
    by_cases hx : x.isSpecial = true ∧ x.oStart ≤ i ∧ i ≤ x.oEnd
    · obtain ⟨hxs, hx1, hx2⟩ := hx
      cases x with
      | special o e name =>
        exact ⟨[], o, e, name, rest, rfl, (fun r hr => by cases hr), hx1, hx2⟩
      | palette _ _ _ _ => simp [TransRange.isSpecial] at hxs
      | colour _ _ _ _ => simp [TransRange.isSpecial] at hxs
      | desat _ _ _ _ _ _ _ _ => simp [TransRange.isSpecial] at hxs
      | blend _ _ _ => simp [TransRange.isSpecial] at hxs
      | tint _ _ _ _ => simp [TransRange.isSpecial] at hxs
    · have hrest : ∃ r ∈ rest, r.isSpecial = true ∧ r.oStart ≤ i ∧ i ≤ r.oEnd := by
        rcases List.mem_cons.mp hr with h | h
        · subst h
          exact absurd ⟨hsp, h1, h2⟩ hx
        · exact ⟨r, h, hsp, h1, h2⟩
      obtain ⟨pre, o, e, name, post, heq, hpre, ho, he⟩ := ih hrest
      refine ⟨x :: pre, o, e, name, post, by rw [heq]; rfl, ?_, ho, he⟩
      intro r hr
      rcases List.mem_cons.mp hr with h | h
      · subst h
        by_cases hs : r.isSpecial = true
        · right
          have : ¬ (r.oStart ≤ i ∧ i ≤ r.oEnd) := fun hh => hx ⟨hs, hh⟩
          omega
        · left
          simpa using hs
      · exact hpre r h

/-- C30: when at least one special range of the list matches the resolved
index, the list splits at the first such range, and `translate` returns
`specialBlend(col, type, pal)` for the input colour `col` and the blend code
`type` of the name of that range; the result is the same for every other choice of
the ranges before it (none of them a matching special range) and after it. -/
theorem translate_special_first_match (env : Env) (ranges : List TransRange) (amount : Nat)
    (col : rgba_t) (pal : Option Palette8bit)
    (h : ∃ r ∈ ranges, r.isSpecial = true ∧
      r.oStart ≤ resolveIndex col (pal.getD env.currentPalette) ∧
      resolveIndex col (pal.getD env.currentPalette) ≤ r.oEnd) :
    ∃ (pre : List TransRange) (o e : Nat) (name : String) (post : List TransRange),
      ranges = pre ++ TransRange.special o e name :: post ∧
      (∀ r ∈ pre, r.isSpecial = false ∨
        resolveIndex col (pal.getD env.currentPalette) < r.oStart ∨
        resolveIndex col (pal.getD env.currentPalette) > r.oEnd) ∧
      o ≤ resolveIndex col (pal.getD env.currentPalette) ∧
      resolveIndex col (pal.getD env.currentPalette) ≤ e ∧
      Translation.translate env
          { translations := ranges, built_in_name := "", desat_amount := amount } col pal
        = specialBlend env.f32 col (specialType name) (pal.getD env.currentPalette) ∧
      ∀ (pre2 post2 : List TransRange) (amount2 : Nat),
        (∀ r ∈ pre2, r.isSpecial = false ∨
          resolveIndex col (pal.getD env.currentPalette) < r.oStart ∨
          resolveIndex col (pal.getD env.currentPalette) > r.oEnd) →
        Translation.translate env
            { translations := pre2 ++ TransRange.special o e name :: post2, built_in_name := ""
              desat_amount := amount2 } col pal
          = Translation.translate env
            { translations := ranges, built_in_name := "", desat_amount := amount } col pal := by
  obtain ⟨pre, o, e, name, post, heq, hpre, ho, he⟩ := first_matching_special _ ranges h
  have e1 : Translation.translate env
      { translations := ranges, built_in_name := "", desat_amount := amount } col pal
      = specialBlend env.f32 col (specialType name) (pal.getD env.currentPalette) := by
    rw [heq]
    exact translate_first_special env pre post o e name amount col pal hpre ho he
  refine ⟨pre, o, e, name, post, heq, hpre, ho, he, e1, ?_⟩
  intro pre2 post2 amount2 hpre2
  rw [e1]
  exact translate_first_special env pre2 post2 o e name amount2 col pal hpre2 ho he

/-- Witness for C30: index 10 with a palette range, the special range
`[0, 255] = $inverse` and a later special range `$ice`: the result is the
inverse blend of the input colour. -/
theorem translate_special_first_match_witness :
    Translation.translate exactEnv
        { translations := [TransRange.palette 0 20 50 70, TransRange.special 0 255 "inverse",
            TransRange.special 0 255 "ice"]
          built_in_name := "", desat_amount := 0 }
        { r := 1, g := 2, b := 3, a := 255, index := 10, blend := 0 } none
      = specialBlend exactEnv.f32 { r := 1, g := 2, b := 3, a := 255, index := 10, blend := 0 }
          BLEND_INVERSE exactEnv.currentPalette := by
  obtain ⟨pre, o, e, name, post, h1, h2, _, _, h5, _⟩ := translate_special_first_match exactEnv
    [TransRange.palette 0 20 50 70, TransRange.special 0 255 "inverse",
      TransRange.special 0 255 "ice"] 0
    { r := 1, g := 2, b := 3, a := 255, index := 10, blend := 0 } none
    ⟨TransRange.special 0 255 "inverse", by decide, by decide, by decide, by decide⟩
  have hname : specialType name = BLEND_INVERSE := by
    match pre, h1, h2 with
    | [], h1, _ => simp at h1
    | [_], h1, _ =>
      simp only [List.cons_append, List.nil_append, List.cons.injEq, TransRange.special.injEq]
        at h1
      rw [← h1.2.1.2.2]
      decide
    | _ :: x :: _, h1, h2 =>
      simp only [List.cons_append, List.cons.injEq] at h1
      have hx := h2 x (by simp)
      rw [← h1.2.1] at hx
      exfalso
      revert hx
      decide
  rw [h5, hname]
  rfl

/-! ### C31: the preset gradients -/

/-- The integer part of a negative number is minus the integer part of its
opposite. -/
theorem truncToInt_neg (x : ℚ) : truncToInt (-x) = -truncToInt x := by
  unfold truncToInt
  rw [Rat.num_neg_eq_neg_num, Rat.den_neg_eq_den, Int.neg_tdiv]

/-- A channel of a preset gradient for the grey value `N / 256` when the start
is an integer `a` and `e - s` is a number `m / 4` of quarters: every `float`
operation is exact. -/
theorem gradientChannel_exact (F : FloatFormat 24) (N : Nat) (hN : N ≤ 65535) (s e : ℚ)
    (a m : Int) (hs : s = a) (he : e - s = (m : ℚ) / 4) (ha : |a| ≤ 1) (hm : |m| ≤ 8) :
    gradientChannel F s e ((N : ℚ) / 256)
      = toUInt8 (MIN 255 (truncToInt (((1024 * a + N * m : Int) : ℚ) / 1024))) := by
  have ha' := abs_le.mp ha
  have hm' := abs_le.mp hm
  have h1 : F.rnd (e - s) = (m : ℚ) / 4 := by
    rw [he]
    have h := F.rnd_div_pow m 2 (by
      have : |m| ≤ 8 := hm
      calc |m| ≤ 8 := hm
        _ < 2 ^ 24 := by norm_num) (by norm_num)
    norm_num at h ⊢
    exact h
  have hNm : |(N : Int) * m| < 2 ^ 24 := by
    rw [abs_lt]
    constructor <;> nlinarith [hm'.1, hm'.2, (Int.ofNat_nonneg N), (show (N : Int) ≤ 65535 by exact_mod_cast hN)]
  have h2 : F.rnd ((N : ℚ) / 256 * ((m : ℚ) / 4)) = (((N : Int) * m : Int) : ℚ) / 1024 := by
    have h := F.rnd_div_pow ((N : Int) * m) 10 hNm (by norm_num)
    have e1 : (N : ℚ) / 256 * ((m : ℚ) / 4) = (((N : Int) * m : Int) : ℚ) / 2 ^ 10 := by
      push_cast
      ring
    rw [e1, h]
    norm_num
  have hsum : |1024 * a + (N : Int) * m| < 2 ^ 24 := by
    have := abs_lt.mp hNm
    rw [abs_lt]
    constructor <;> nlinarith [hm'.1, hm'.2, ha'.1, ha'.2, (Int.ofNat_nonneg N),
      (show (N : Int) ≤ 65535 by exact_mod_cast hN)]
  have h3 : F.rnd (s + (((N : Int) * m : Int) : ℚ) / 1024)
      = ((1024 * a + N * m : Int) : ℚ) / 1024 := by
    have h := F.rnd_div_pow (1024 * a + (N : Int) * m) 10 hsum (by norm_num)
    have e1 : s + (((N : Int) * m : Int) : ℚ) / 1024
        = ((1024 * a + (N : Int) * m : Int) : ℚ) / 2 ^ 10 := by
      rw [hs]
      push_cast
      ring
    rw [e1, h]
    norm_num
  unfold gradientChannel
  rw [h1, h2, h3]

/-- A channel of a preset gradient that starts at 0 and ends at `m / 4`:
`min(255, floor(grey * m / 4))`. -/
theorem gradientChannel_from_zero (F : FloatFormat 24) (N : Nat) (hN : N ≤ 65535) (e : ℚ)
    (m : Nat) (he : e = (m : ℚ) / 4) (hm : m ≤ 8) :
    gradientChannel F 0 e ((N : ℚ) / 256) = min 255 (N * m / 1024) := by
  have h := gradientChannel_exact F N hN 0 e 0 (m : Int) (by norm_num)
    (by rw [he]; push_cast; ring) (by norm_num)
    (by rw [abs_of_nonneg (by positivity)]; exact_mod_cast hm)
  rw [h]
  have e1 : ((1024 * 0 + (N : Int) * (m : Int) : Int) : ℚ) / 1024
      = ((N * m : Nat) : ℚ) / ((1024 : Nat) : ℚ) := by
    push_cast
    ring
  rw [e1, truncToInt_natCast_div _ _ (by norm_num)]
  unfold MIN toUInt8
  split <;> omega

/-- A channel of the Inverse gradient, from 1 to 0: the integer part of
`1 - grey`, which is negative from `grey = 2` on and wraps around in the
`uint8_t`. -/
theorem gradientChannel_inverse (F : FloatFormat 24) (N : Nat) (hN : N ≤ 65535) :
    gradientChannel F 1 0 ((N : ℚ) / 256)
      = if N = 0 then 1 else if N < 512 then 0 else 257 - N / 256 := by
  have h := gradientChannel_exact F N hN 1 0 1 (-4) (by norm_num) (by norm_num) (by norm_num)
    (by norm_num)
  rw [h]
  by_cases h0 : N = 0
  · subst h0
    rw [if_pos rfl]
    have : truncToInt (((1024 * 1 + ((0 : Nat) : Int) * (-4) : Int) : ℚ) / 1024) = 1 := by
      apply truncToInt_eq <;> norm_num
    rw [this]
    decide
  · rw [if_neg h0]
    by_cases h1 : N ≤ 256
    · have : truncToInt (((1024 * 1 + (N : Int) * (-4) : Int) : ℚ) / 1024) = 0 := by
        have hNq : (N : ℚ) ≤ 256 := by exact_mod_cast h1
        have hNp : (0 : ℚ) < N := by exact_mod_cast Nat.pos_of_ne_zero h0
        apply truncToInt_eq (le_refl _)
        · push_cast
          apply div_nonneg _ (by norm_num)
          linarith
        · push_cast
          rw [div_lt_iff₀ (by norm_num)]
          linarith
      rw [this, if_pos (by omega)]
      decide
    · have e1 : ((1024 * 1 + (N : Int) * (-4) : Int) : ℚ) / 1024
          = -(((N - 256 : Nat) : ℚ) / ((256 : Nat) : ℚ)) := by
        have : ((N - 256 : Nat) : ℚ) = (N : ℚ) - 256 := by
          rw [Nat.cast_sub (by omega)]
          norm_num
        rw [this]
        push_cast
        ring
      rw [e1, truncToInt_neg, truncToInt_natCast_div _ _ (by norm_num)]
      unfold MIN toUInt8
      split_ifs <;> omega
/-- The r, g, b of the five preset gradients for a colour with channels in
0..255, in terms of `N = 77 r + 143 g + 37 b` (the grey value is `N / 256`). -/
theorem specialBlend_preset_channels (F : FloatFormat 24) (col : rgba_t) (pal : Palette8bit)
    (hr : col.r ≤ 255) (hg : col.g ≤ 255) (hb : col.b ≤ 255) (N : Nat)
    (hN : N = col.r * 77 + col.g * 143 + col.b * 37) :
    ((specialBlend F col BLEND_INVERSE pal).r
        = (if N = 0 then 1 else if N < 512 then 0 else 257 - N / 256) ∧
      (specialBlend F col BLEND_INVERSE pal).g
        = (if N = 0 then 1 else if N < 512 then 0 else 257 - N / 256) ∧
      (specialBlend F col BLEND_INVERSE pal).b
        = (if N = 0 then 1 else if N < 512 then 0 else 257 - N / 256)) ∧
    ((specialBlend F col BLEND_GOLD pal).r = min 255 (3 * N / 512) ∧
      (specialBlend F col BLEND_GOLD pal).g = min 255 (3 * N / 1024) ∧
      (specialBlend F col BLEND_GOLD pal).b = 0) ∧
    ((specialBlend F col BLEND_RED pal).r = min 255 (3 * N / 512) ∧
      (specialBlend F col BLEND_RED pal).g = 0 ∧
      (specialBlend F col BLEND_RED pal).b = 0) ∧
    ((specialBlend F col BLEND_GREEN pal).r = min 255 (5 * N / 1024) ∧
      (specialBlend F col BLEND_GREEN pal).g = min 255 (3 * N / 512) ∧
      (specialBlend F col BLEND_GREEN pal).b = min 255 (N / 256)) ∧
    ((specialBlend F col BLEND_BLUE pal).r = 0 ∧
      (specialBlend F col BLEND_BLUE pal).g = 0 ∧
      (specialBlend F col BLEND_BLUE pal).b = min 255 (3 * N / 512)) := by
  have hN' : N ≤ 65535 := by omega
  have hgrey : greyZDoom F col = (N : ℚ) / 256 := by
    rw [greyZDoom_eq F col hr hg hb, hN]
  have hinv := gradientChannel_inverse F N hN'
  have h0 : gradientChannel F 0 0 ((N : ℚ) / 256) = 0 := by
    rw [gradientChannel_from_zero F N hN' 0 0 (by norm_num) (by norm_num)]
    omega
  have h6 : gradientChannel F 0 (3 / 2) ((N : ℚ) / 256) = min 255 (3 * N / 512) := by
    rw [gradientChannel_from_zero F N hN' _ 6 (by norm_num) (by norm_num)]
    omega
  have h3 : gradientChannel F 0 (3 / 4) ((N : ℚ) / 256) = min 255 (3 * N / 1024) := by
    rw [gradientChannel_from_zero F N hN' _ 3 (by norm_num) (by norm_num)]
    omega
  have h5 : gradientChannel F 0 (5 / 4) ((N : ℚ) / 256) = min 255 (5 * N / 1024) := by
    rw [gradientChannel_from_zero F N hN' _ 5 (by norm_num) (by norm_num)]
    omega
  have h4 : gradientChannel F 0 1 ((N : ℚ) / 256) = min 255 (N / 256) := by
    rw [gradientChannel_from_zero F N hN' _ 4 (by norm_num) (by norm_num)]
    omega
  refine ⟨?_, ?_, ?_, ?_, ?_⟩
  · simp only [specialBlend, hgrey, blendCoefficients, BLEND_INVERSE, BLEND_INVALID, BLEND_ICE,
      BLEND_DESAT_FIRST, BLEND_DESAT_LAST, BLEND_GOLD, BLEND_RED, BLEND_GREEN, BLEND_BLUE]
    simp only [Nat.reduceEqDiff, if_false, if_true, Nat.reduceLeDiff, and_false, hinv]
    exact ⟨trivial, trivial, trivial⟩
  · simp only [specialBlend, hgrey, blendCoefficients, BLEND_INVERSE, BLEND_INVALID, BLEND_ICE,
      BLEND_DESAT_FIRST, BLEND_DESAT_LAST, BLEND_GOLD, BLEND_RED, BLEND_GREEN, BLEND_BLUE]
    simp only [Nat.reduceEqDiff, if_false, if_true, Nat.reduceLeDiff, and_false, h0, h6, h3]
    exact ⟨trivial, trivial, trivial⟩
  · simp only [specialBlend, hgrey, blendCoefficients, BLEND_INVERSE, BLEND_INVALID, BLEND_ICE,
      BLEND_DESAT_FIRST, BLEND_DESAT_LAST, BLEND_GOLD, BLEND_RED, BLEND_GREEN, BLEND_BLUE]
    simp only [Nat.reduceEqDiff, if_false, if_true, Nat.reduceLeDiff, and_false, h0, h6]
    exact ⟨trivial, trivial, trivial⟩
  · simp only [specialBlend, hgrey, blendCoefficients, BLEND_INVERSE, BLEND_INVALID, BLEND_ICE,
      BLEND_DESAT_FIRST, BLEND_DESAT_LAST, BLEND_GOLD, BLEND_RED, BLEND_GREEN, BLEND_BLUE]
    simp only [Nat.reduceEqDiff, if_false, if_true, Nat.reduceLeDiff, and_false, h5, h6, h4]
    exact ⟨trivial, trivial, trivial⟩
  · simp only [specialBlend, hgrey, blendCoefficients, BLEND_INVERSE, BLEND_INVALID, BLEND_ICE,
      BLEND_DESAT_FIRST, BLEND_DESAT_LAST, BLEND_GOLD, BLEND_RED, BLEND_GREEN, BLEND_BLUE]
    simp only [Nat.reduceEqDiff, if_false, if_true, Nat.reduceLeDiff, and_false, h0, h6]
    exact ⟨trivial, trivial, trivial⟩
/-- The presets that start at 0 drop the fraction and do not round: the
colour (1, 1, 1) under Red has red 1 in every `float` format, where
`g * 3/2 = 771/512` rounds to 2. -/
theorem specialBlend_red_truncates :
    (∀ (F : FloatFormat 24) (pal : Palette8bit),
      (specialBlend F (rgba_t.rgb 1 1 1) BLEND_RED pal).r = 1) ∧
    max 0 (min 255 (round ((0 : ℚ) + ((77 * 1 + 143 * 1 + 37 * 1 : ℚ) / 256) * (3 / 2 - 0))))
      = 2 := by
  refine ⟨?_, ?_⟩
  · intro F pal
    exact (specialBlend_preset_channels F (rgba_t.rgb 1 1 1) pal
      (by decide) (by decide) (by decide) 257 (by decide)).2.2.1.1
  · have h : round ((0 : ℚ) + ((77 * 1 + 143 * 1 + 37 * 1 : ℚ) / 256) * (3 / 2 - 0)) = 2 := by
      rw [round_eq, Int.floor_eq_iff]
      norm_num
    rw [h]
    decide

/-! ### C32, C38: the Ice ramp -/

/-- The index into `IceRange` that `specialBlend` computes for a colour with
channels in 0..255: `floor(grey) >> 4`, which is at most 15 as it is. -/
theorem ice_index (F : FloatFormat 24) (col : rgba_t)
    (hr : col.r ≤ 255) (hg : col.g ≤ 255) (hb : col.b ≤ 255) :
    truncToInt (greyZDoom F col)
        = (((col.r * 77 + col.g * 143 + col.b * 37) / 256 : Nat) : Int) ∧
    truncToInt (greyZDoom F col) >>> 4
        = ((((col.r * 77 + col.g * 143 + col.b * 37) / 256) >>> 4 : Nat) : Int) ∧
    ((col.r * 77 + col.g * 143 + col.b * 37) / 256) >>> 4 ≤ 15 ∧
    toUInt8 (MIN (truncToInt (greyZDoom F col) >>> 4) 15)
        = ((col.r * 77 + col.g * 143 + col.b * 37) / 256) >>> 4 := by
  have ht : truncToInt (greyZDoom F col)
      = (((col.r * 77 + col.g * 143 + col.b * 37) / 256 : Nat) : Int) := by
    rw [greyZDoom_eq F col hr hg hb]
    exact truncToInt_natCast_div _ 256 (by norm_num)
  have hs : truncToInt (greyZDoom F col) >>> 4
      = ((((col.r * 77 + col.g * 143 + col.b * 37) / 256) >>> 4 : Nat) : Int) := by
    rw [ht]
    rfl
  have hle : ((col.r * 77 + col.g * 143 + col.b * 37) / 256) >>> 4 ≤ 15 := by
    rw [Nat.shiftRight_eq_div_pow]
    omega
  refine ⟨ht, hs, hle, ?_⟩
  rw [hs]
  generalize ((col.r * 77 + col.g * 143 + col.b * 37) / 256) >>> 4 = k at hle
  unfold MIN toUInt8
  split_ifs <;> omega

/-- The r, g, b that `specialBlend` with type Ice returns for a colour with
channels in 0..255: those of the ramp colour at `floor(grey) >> 4`. -/
theorem specialBlend_ice_channels (F : FloatFormat 24) (col : rgba_t) (pal : Palette8bit)
    (hr : col.r ≤ 255) (hg : col.g ≤ 255) (hb : col.b ≤ 255) :
    ∃ c : rgba_t,
      IceRange[min 15 (((col.r * 77 + col.g * 143 + col.b * 37) / 256) >>> 4)]? = some c ∧
      (specialBlend F col BLEND_ICE pal).r = c.r ∧
      (specialBlend F col BLEND_ICE pal).g = c.g ∧
      (specialBlend F col BLEND_ICE pal).b = c.b := by
  obtain ⟨-, -, hle, hdi⟩ := ice_index F col hr hg hb
  have hmin : min 15 (((col.r * 77 + col.g * 143 + col.b * 37) / 256) >>> 4)
      = ((col.r * 77 + col.g * 143 + col.b * 37) / 256) >>> 4 := by omega
  have hlen : ((col.r * 77 + col.g * 143 + col.b * 37) / 256) >>> 4 < IceRange.length := by
    have : IceRange.length = 16 := rfl
    omega
  refine ⟨IceRange.getD (((col.r * 77 + col.g * 143 + col.b * 37) / 256) >>> 4) rgba_t.zero,
    ?_, ?_, ?_, ?_⟩
  · rw [hmin, List.getD_eq_getElem?_getD, List.getElem?_eq_getElem hlen]
    rfl
  all_goals
    simp only [specialBlend, BLEND_ICE, BLEND_INVALID, hdi]
    rfl
/-- C32: for every input colour with channels in 0..255, `specialBlend` with
type Ice returns the r, g, b of `IceRange[min(15, floor(g) >> 4)]` with
`g = (77 R + 143 G + 37 B) / 256`, so the output is always one of the 16
colours of the ramp. -/
theorem specialBlend_ice_ramp (F : FloatFormat 24) (col : rgba_t) (pal : Palette8bit)
    (hr : col.r ≤ 255) (hg : col.g ≤ 255) (hb : col.b ≤ 255) :
    ∃ c : rgba_t,
      IceRange[min 15 (((col.r * 77 + col.g * 143 + col.b * 37) / 256) >>> 4)]? = some c ∧
      c ∈ IceRange ∧
      (specialBlend F col BLEND_ICE pal).r = c.r ∧
      (specialBlend F col BLEND_ICE pal).g = c.g ∧
      (specialBlend F col BLEND_ICE pal).b = c.b := by
  obtain ⟨c, hc, h1, h2, h3⟩ := specialBlend_ice_channels F col pal hr hg hb
  exact ⟨c, hc, List.mem_iff_getElem?.mpr ⟨_, hc⟩, h1, h2, h3⟩

/-- Witness for C32: white has grey 255 and goes to the last colour of the
ramp, (148, 148, 172). -/
theorem specialBlend_ice_ramp_witness :
    (specialBlend (exactArith 24) (rgba_t.rgb 255 255 255) BLEND_ICE greyPalette).r = 148 ∧
    (specialBlend (exactArith 24) (rgba_t.rgb 255 255 255) BLEND_ICE greyPalette).g = 148 ∧
    (specialBlend (exactArith 24) (rgba_t.rgb 255 255 255) BLEND_ICE greyPalette).b = 172 := by
  obtain ⟨c, hc, -, h1, h2, h3⟩ := specialBlend_ice_ramp (exactArith 24)
    (rgba_t.rgb 255 255 255) greyPalette (by decide) (by decide) (by decide)
  have h15 : IceRange[min 15 ((((rgba_t.rgb 255 255 255).r * 77
      + (rgba_t.rgb 255 255 255).g * 143 + (rgba_t.rgb 255 255 255).b * 37) / 256) >>> 4)]?
      = some (rgba_t.rgb 148 148 172) := by decide
  have e : c = rgba_t.rgb 148 148 172 := Option.some.inj (hc.symm.trans h15)
  subst e
  exact ⟨h1, h2, h3⟩

/-- C38: for every r, g, b in 0..255 the grey value
`(77 r + 143 g + 37 b) / 256` is below 256, although the weights sum to 257,
so `floor(grey) >> 4` lies in 0..15: the minimum with 15 does not change it
and the index into `IceRange` is within its 16 entries. -/
theorem ice_lookup_in_bounds (F : FloatFormat 24) (col : rgba_t)
    (hr : col.r ≤ 255) (hg : col.g ≤ 255) (hb : col.b ≤ 255) :
    (77 + 143 + 37 = 257) ∧
    greyZDoom F col = ((col.r * 77 + col.g * 143 + col.b * 37 : Nat) : ℚ) / 256 ∧
    greyZDoom F col < 256 ∧
    0 ≤ truncToInt (greyZDoom F col) >>> 4 ∧
    truncToInt (greyZDoom F col) >>> 4 ≤ 15 ∧
    MIN (truncToInt (greyZDoom F col) >>> 4) 15 = truncToInt (greyZDoom F col) >>> 4 ∧
    toUInt8 (MIN (truncToInt (greyZDoom F col) >>> 4) 15) < IceRange.length := by
  obtain ⟨-, hs, hle, hdi⟩ := ice_index F col hr hg hb
  have hgrey := greyZDoom_eq F col hr hg hb
  have hlt : greyZDoom F col < 256 := by
    rw [hgrey, div_lt_iff₀ (by norm_num)]
    have : col.r * 77 + col.g * 143 + col.b * 37 < 256 * 256 := by omega
    exact_mod_cast this
  have hlen : IceRange.length = 16 := rfl
  refine ⟨rfl, hgrey, hlt, ?_, ?_, ?_, ?_⟩
  · rw [hs]
    exact Int.ofNat_nonneg _
  · rw [hs]
    exact_mod_cast hle
  · rw [hs]
    unfold MIN
    split_ifs <;> omega
  · rw [hdi, hlen]
    omega

/-- Witness for C38: white, the colour of the largest grey value,
`65535 / 256`. -/
theorem ice_lookup_in_bounds_witness :
    greyZDoom (exactArith 24) (rgba_t.rgb 255 255 255) < 256 ∧
    truncToInt (greyZDoom (exactArith 24) (rgba_t.rgb 255 255 255)) >>> 4 ≤ 15 ∧
    MIN (truncToInt (greyZDoom (exactArith 24) (rgba_t.rgb 255 255 255)) >>> 4) 15
      = truncToInt (greyZDoom (exactArith 24) (rgba_t.rgb 255 255 255)) >>> 4 :=
  ⟨(ice_lookup_in_bounds (exactArith 24) (rgba_t.rgb 255 255 255)
      (by decide) (by decide) (by decide)).2.2.1,
   (ice_lookup_in_bounds (exactArith 24) (rgba_t.rgb 255 255 255)
      (by decide) (by decide) (by decide)).2.2.2.2.1,
   (ice_lookup_in_bounds (exactArith 24) (rgba_t.rgb 255 255 255)
      (by decide) (by decide) (by decide)).2.2.2.2.2.1⟩
/-! ### C33, C34, C35: what read emits -/

/-- The run that `read` is scanning climbs by one per index, from any list of
ranges and after any number of passes of the loop. -/
theorem readLoop_run_climbs (data : Nat → Nat) :
    ∀ (fuel : Nat) (s : ReadState),
      (s.o_start ≤ s.i ∧ s.val = data s.i ∧ s.d_start = data s.o_start ∧
        ∀ j, s.o_start ≤ j → j ≤ s.i → data j = s.d_start + (j - s.o_start)) →
      ((readLoop data fuel s).o_start ≤ (readLoop data fuel s).i ∧
        (readLoop data fuel s).val = data (readLoop data fuel s).i ∧
        (readLoop data fuel s).d_start = data (readLoop data fuel s).o_start ∧
        ∀ j, (readLoop data fuel s).o_start ≤ j → j ≤ (readLoop data fuel s).i →
          data j = (readLoop data fuel s).d_start + (j - (readLoop data fuel s).o_start)) := by
  intro fuel
  induction fuel with
  | zero => intro s h; exact h
  | succ n ih =>
    intro s h
    simp only [readLoop]
    split_ifs with hi
    · apply ih
      obtain ⟨h1, h2, h3, h4⟩ := h
      by_cases hbrk : data (s.i + 1) ≠ s.val + 1 ∨ s.i + 1 = 255
      · simp only [readBody, hbrk, if_true]
        refine ⟨le_refl _, trivial, trivial, ?_⟩
        intro j hj1 hj2
        have : j = s.i + 1 := by omega
        subst this
        simp
      · simp only [readBody, hbrk, if_false]
        have hnext : data (s.i + 1) = s.val + 1 := by
          by_contra hne
          exact hbrk (Or.inl hne)
        refine ⟨by omega, trivial, h3, ?_⟩
        intro j hj1 hj2
        by_cases hj : j ≤ s.i
        · exact h4 j hj1 hj
        · have : j = s.i + 1 := by omega
          subst this
          rw [hnext, h2, h4 s.i h1 (le_refl _)]
          omega
    · exact h

/-- C33: for every table, whenever a pass of the loop of `read` closes a run,
`[o_start, i] -> [d_start, val]`, the run is appended as a range if and only
if it is not an identity mapping, that is unless `o_start = d_start` and
`o_end = d_end`: a closed run climbs by one per index, so that
`d_end - d_start = o_end - o_start`, and the test of the code,
`o_start != d_start && o_end != d_end`, holds exactly when the run is no
identity. -/
theorem read_emits_iff_not_identity (data : Nat → Nat) (l : List TransRange) (k : Nat)
    (s : ReadState) (hs : s = readLoop data k (readInit data l)) (_hi : s.i < 255)
    (hclose : data (s.i + 1) ≠ s.val + 1 ∨ s.i + 1 = 255) :
    s.o_start ≤ s.i ∧ s.val - s.d_start = s.i - s.o_start ∧ s.d_start ≤ s.val ∧
    ((s.o_start ≠ s.d_start ∧ s.i ≠ s.val) ↔ ¬ (s.o_start = s.d_start ∧ s.i = s.val)) ∧
    ((readBody data s).translations
        = s.translations ++ [TransRange.palette s.o_start s.i s.d_start s.val]
      ↔ ¬ (s.o_start = s.d_start ∧ s.i = s.val)) ∧
    ((readBody data s).translations = s.translations
      ↔ (s.o_start = s.d_start ∧ s.i = s.val)) := by
  have hinit : (readInit data l).o_start ≤ (readInit data l).i ∧
      (readInit data l).val = data (readInit data l).i ∧
      (readInit data l).d_start = data (readInit data l).o_start ∧
      ∀ j, (readInit data l).o_start ≤ j → j ≤ (readInit data l).i →
        data j = (readInit data l).d_start + (j - (readInit data l).o_start) := by
    refine ⟨le_refl _, rfl, rfl, ?_⟩
    intro j hj1 hj2
    simp only [readInit] at hj1 hj2 ⊢
    have : j = 0 := by omega
    subst this
    rfl
  have hrun := readLoop_run_climbs data k (readInit data l) hinit
  rw [← hs] at hrun
  obtain ⟨h1, h2, h3, h4⟩ := hrun
  have hval : s.val = s.d_start + (s.i - s.o_start) := by
    rw [h2]
    exact h4 s.i h1 (le_refl _)
  have hbody : (readBody data s).translations
      = if s.o_start ≠ s.d_start ∧ s.i ≠ s.val then
          s.translations ++ [TransRange.palette s.o_start s.i s.d_start s.val]
        else s.translations := by
    simp only [readBody, hclose, if_true, Nat.add_sub_cancel]
  have hiff : (s.o_start ≠ s.d_start ∧ s.i ≠ s.val) ↔ ¬ (s.o_start = s.d_start ∧ s.i = s.val) := by
    constructor
    · rintro ⟨ha, _⟩ ⟨hb, _⟩
      exact ha hb
    · intro hn
      constructor
      · intro ha
        apply hn
        exact ⟨ha, by omega⟩
      · intro hb
        apply hn
        exact ⟨by omega, hb⟩
  refine ⟨h1, by omega, by omega, hiff, ?_, ?_⟩
  · rw [hbody]
    by_cases ht : s.o_start ≠ s.d_start ∧ s.i ≠ s.val
    · rw [if_pos ht]
      exact ⟨fun _ => hiff.mp ht, fun _ => rfl⟩
    · rw [if_neg ht]
      constructor
      · intro he
        have := congrArg List.length he
        simp at this
      · intro hn
        exact absurd (hiff.mpr hn) ht
  · rw [hbody]
    by_cases ht : s.o_start ≠ s.d_start ∧ s.i ≠ s.val
    · rw [if_pos ht]
      constructor
      · intro he
        have := congrArg List.length he
        simp at this
      · intro hid
        exact absurd hid (hiff.mp ht)
    · rw [if_neg ht]
      constructor
      · intro _
        by_contra hn
        exact ht (hiff.mpr hn)
      · intro _
        rfl

/-- Witness for C33: in the table that starts `5, 1, 2, ...` the first pass
closes the run `[0, 0] -> [5, 5]`, which is no identity and is appended. -/
theorem read_emits_iff_not_identity_witness :
    (readBody (fun i => if i = 0 then 5 else i)
        (readLoop (fun i => if i = 0 then 5 else i) 0
          (readInit (fun i => if i = 0 then 5 else i) []))).translations
      = (readLoop (fun i => if i = 0 then 5 else i) 0
          (readInit (fun i => if i = 0 then 5 else i) [])).translations
        ++ [TransRange.palette 0 0 5 5] :=
  (read_emits_iff_not_identity (fun i => if i = 0 then 5 else i) [] 0 _ rfl (by decide)
    (by decide)).2.2.2.2.1.mpr (by decide)
/-- In exact arithmetic the destination index of a palette range whose
destination is as long as its origin is `d_start + (i - o_start)`. -/
theorem lerpByte_slope_one (F : FloatFormat 53) (hF : ∀ x, F.rnd x = x)
    (i o e d : Nat) (hs : o ≤ i) (he : i ≤ e) (hd : d + (e - o) ≤ 255) :
    lerpByte F d (d + (e - o)) (rangeFrac F i o e) = d + (i - o) := by
  have h := lerpByte_exact_floor F hF i o e d (d + (e - o)) hs he (by omega) hd
  have hval : (d : ℚ) + (if o = e then 0 else ((i : ℚ) - o) / ((e : ℚ) - o))
      * (((d + (e - o) : Nat) : ℚ) - d) = ((d + (i - o) : Nat) : ℚ) := by
    have hio : ((i - o : Nat) : ℚ) = (i : ℚ) - o := Nat.cast_sub hs
    have heo : ((e - o : Nat) : ℚ) = (e : ℚ) - o := Nat.cast_sub (le_trans hs he)
    by_cases hoe : o = e
    · have hi : i = o := by omega
      subst hoe
      subst hi
      simp
    · rw [if_neg hoe]
      have hne : (e : ℚ) - o ≠ 0 := by
        have : o < e := by omega
        have : (o : ℚ) < e := by exact_mod_cast this
        linarith
      push_cast
      rw [hio, heo]
      field_simp
  rw [hval, Int.floor_natCast] at h
  exact_mod_cast h

/-- A range of a list in increasing order without overlap is the only one
that contains an index it contains: the list splits around it into ranges
that do not match. -/
theorem split_at_matching (l : List TransRange) (r : TransRange) (i : Nat)
    (hp : l.Pairwise (fun p q => p.oEnd < q.oStart)) (hr : r ∈ l)
    (h1 : r.oStart ≤ i) (h2 : i ≤ r.oEnd) :
    ∃ pre post : List TransRange, l = pre ++ r :: post ∧
      (∀ x ∈ pre, i < x.oStart ∨ i > x.oEnd) ∧ (∀ x ∈ post, i < x.oStart ∨ i > x.oEnd) := by
  obtain ⟨pre, post, hl⟩ := List.append_of_mem hr
  refine ⟨pre, post, hl, ?_, ?_⟩
  · intro x hx
    rw [hl, List.pairwise_append] at hp
    have := hp.2.2 x hx r (List.mem_cons_self _ _)
    right
    omega
  · intro x hx
    rw [hl, List.pairwise_append] at hp
    have := (List.pairwise_cons.mp hp.2.1).1 x hx
    left
    omega

/-- C34: for every table, every range that `read` emits has a destination as
long as its origin, `d_end - d_start = o_end - o_start`, and the table has
`table[i] = d_start + (i - o_start)` for every `i` in `[o_start, o_end]`;
hence, in exact arithmetic and for a table of bytes, `translate` with the
ranges read from the table sends every index `i` that a range covers to the
destination index `table[i]`. -/
theorem read_ranges_reproduce_table (env : Env) (data : Nat → Nat) :
    (∀ r ∈ (Translation.new.read data).translations,
      ∃ o e d f : Nat, r = TransRange.palette o e d f ∧ o ≤ e ∧ d ≤ f ∧ f - d = e - o ∧
        ∀ i, o ≤ i → i ≤ e → data i = d + (i - o)) ∧
    ((∀ x, env.f64.rnd x = x) → (∀ j, j ≤ 255 → data j < 256) →
      ∀ (col : rgba_t) (pal : Option Palette8bit),
        (∃ r ∈ (Translation.new.read data).translations,
          r.oStart ≤ resolveIndex col (pal.getD env.currentPalette) ∧
          resolveIndex col (pal.getD env.currentPalette) ≤ r.oEnd) →
        (Translation.translate env (Translation.new.read data) col pal).index
          = (data (resolveIndex col (pal.getD env.currentPalette)) : Int)) := by
  obtain ⟨htab, hpair, -⟩ := read_structure data
  refine ⟨?_, ?_⟩
  · intro r hr
    obtain ⟨o, e, d, f, hre, h1, h2, h3, h4, h5⟩ := htab r hr
    exact ⟨o, e, d, f, hre, h1, by omega, by omega, h5⟩
  · intro hF hbytes col pal hcov
    have hlen : ¬ (("" : String).length ≠ 0) := by decide
    have hname : (Translation.new.read data).built_in_name = "" := rfl
    simp only [Translation.translate, hname, hlen, if_false]
    generalize pal.getD env.currentPalette = p at hcov ⊢
    generalize resolveIndex col p = i at hcov ⊢
    obtain ⟨r, hr, hi1, hi2⟩ := hcov
    obtain ⟨pre, post, hl, hpre, hpost⟩ :=
      split_at_matching _ r i hpair hr hi1 hi2
    obtain ⟨o, e, d, f, hre, h1, h2, h3, h4, h5⟩ := htab r hr
    subst hre
    simp only [TransRange.oStart, TransRange.oEnd] at hi1 hi2
    rw [hl, translateRanges_last_match env col p i pre post (TransRange.palette o e d f) _
        (fun x hx => Or.inr (hpre x hx)) rfl hpost,
      translateRanges_palette_hit env col p i o e d f [] _ hi1 hi2]
    have hf : f ≤ 255 := by
      have := hbytes e (by omega)
      have := h5 e h1 (le_refl _)
      omega
    subst h3
    show ((lerpByte env.f64 d (d + (e - o)) (rangeFrac env.f64 i o e) : Nat) : Int) = _
    rw [lerpByte_slope_one env.f64 hF i o e d hi1 hi2 hf, h5 i hi1 hi2]

/-- Witness for C34: for the table that maps `240..255` down by 16, index 245
is covered by the range read from it and goes to `table[245] = 229`. -/
theorem read_ranges_reproduce_table_witness :
    (Translation.translate exactEnv (Translation.new.read topBlockTable)
        { r := 1, g := 2, b := 3, a := 255, index := 245, blend := 0 } none).index
      = 229 :=
  (read_ranges_reproduce_table exactEnv topBlockTable).2 (fun _ => rfl)
    (fun j hj => by
      unfold topBlockTable
      split <;> omega)
    { r := 1, g := 2, b := 3, a := 255, index := 245, blend := 0 } none
    ⟨TransRange.palette 240 254 224 238, by rw [read_topBlockTable]; exact List.mem_singleton.mpr rfl,
      by decide, by decide⟩

/-- C35: for every table, the ranges that `read` appends to an empty
Translation each have `o_start ≤ o_end ≤ 254`; they are in strictly
increasing order of origin with pairwise disjoint origins, each `o_start`
greater than the `o_end` of every range before it; and palette index 255 is
covered by none of them. -/
theorem read_ranges_ordered (data : Nat → Nat) :
    (∀ r ∈ (Translation.new.read data).translations, r.oStart ≤ r.oEnd ∧ r.oEnd ≤ 254) ∧
    (Translation.new.read data).translations.Pairwise (fun p q => p.oEnd < q.oStart) ∧
    (Translation.new.read data).translations.Pairwise (fun p q => p.oStart < q.oStart) ∧
    (Translation.new.read data).translations.Pairwise
      (fun p q => ∀ i, ¬ ((p.oStart ≤ i ∧ i ≤ p.oEnd) ∧ (q.oStart ≤ i ∧ i ≤ q.oEnd))) ∧
    (∀ r ∈ (Translation.new.read data).translations, ¬ (r.oStart ≤ 255 ∧ 255 ≤ r.oEnd)) := by
  obtain ⟨htab, hpair, -⟩ := read_structure data
  have hb : ∀ r ∈ (Translation.new.read data).translations,
      r.oStart ≤ r.oEnd ∧ r.oEnd ≤ 254 := by
    intro r hr
    obtain ⟨o, e, d, f, hre, h1, h2, -⟩ := htab r hr
    subst hre
    simp only [TransRange.oStart, TransRange.oEnd]
    omega
  refine ⟨hb, hpair, ?_, ?_, ?_⟩
  · rw [List.pairwise_iff_forall_sublist] at hpair ⊢
    intro p q hsub
    have hp : p ∈ (Translation.new.read data).translations := hsub.subset (by simp)
    have := hpair hsub
    have := (hb p hp).1
    omega
  · rw [List.pairwise_iff_forall_sublist] at hpair ⊢
    intro p q hsub i
    have := hpair hsub
    omega
  · intro r hr
    have := (hb r hr).2
    omega
/-! ### C36: the keyword desaturate without an amount -/

/-- A blank or a special character of the translation grammar is no capital
letter: `toLower` leaves it as it is. -/
theorem toLower_of_separator (c : Char)
    (h : c.isWhitespace = true ∨ c ∈ "[]:%,=#@$".data) : c.toLower = c := by
  have hmem : c ∈ [Char.ofNat 32, Char.ofNat 9, Char.ofNat 13, Char.ofNat 10, Char.ofNat 91,
      Char.ofNat 93, Char.ofNat 58, Char.ofNat 37, Char.ofNat 44, Char.ofNat 61, Char.ofNat 35,
      Char.ofNat 64, Char.ofNat 36] := by
    rcases h with h | h
    · simp only [Char.isWhitespace, Bool.or_eq_true, decide_eq_true_eq] at h
      simp only [List.mem_cons]
      rcases h with ((h | h) | h) | h <;> subst h <;> decide
    · simp only [List.mem_cons, List.mem_singleton, List.not_mem_nil, or_false] at h
      rcases h with h | h | h | h | h | h | h | h | h <;> subst h <;> decide
  simp only [List.mem_cons, List.mem_singleton, List.not_mem_nil, or_false] at hmem
  rcases hmem with h | h | h | h | h | h | h | h | h | h | h | h | h <;> subst h <;> rfl

/-- A text that reads `desaturate` up to letter case is one token. -/
theorem tokenize_desaturate (text : String) (h : lower text = "desaturate") :
    (Tokenizer.openString "[]:%,=#@$" text).peekToken = text := by
  have hdata : text.data.map Char.toLower = "desaturate".data := by
    have := congrArg String.data h
    exact this
  have hw : ∀ c ∈ text.data, c.isWhitespace = false ∧ c ∉ "[]:%,=#@$".data := by
    intro c hc
    have hfacts : ∀ x ∈ "desaturate".data, x.isWhitespace = false ∧ x ∉ "[]:%,=#@$".data := by
      decide
    by_cases hsep : c.isWhitespace = true ∨ c ∈ "[]:%,=#@$".data
    · have hfix := toLower_of_separator c hsep
      have hin : c.toLower ∈ text.data.map Char.toLower := List.mem_map_of_mem _ hc
      rw [hdata, hfix] at hin
      exact hfacts c hin
    · constructor
      · cases hws : c.isWhitespace with
        | false => rfl
        | true => exact absurd (Or.inl hws) hsep
      · exact fun hm => hsep (Or.inr hm)
  have hne : text.data ≠ [] := by
    intro he
    rw [he] at hdata
    cases hdata
  simp only [Tokenizer.openString, Tokenizer.peekToken,
    tokenize_word_end "[]:%,=#@$".data text.data hw hne, List.headD_cons]

/-- C36: after `parse` of the word `desaturate`, in any letter case, on a
freshly constructed Translation, `built_in_name` is `Desaturate` and
`desat_amount` is still 0; the blend type `translate` derives is then 0, the
code of Ice and none of the Desaturate levels 1..31, so that for every colour
the result is that of `specialBlend` with type Ice, the same as for the Ice
preset. -/
theorem parse_desaturate_is_ice (env : Env) (text : String)
    (h : lower text = "desaturate") :
    Translation.new.parse env text
      = { translations := [], built_in_name := "Desaturate", desat_amount := 0 } ∧
    (Translation.new.parse env text).built_in_name = "Desaturate" ∧
    (Translation.new.parse env text).desat_amount = 0 ∧
    builtInType (Translation.new.parse env text).built_in_name
        (Translation.new.parse env text).desat_amount = BLEND_ICE ∧
    BLEND_ICE = 0 ∧
    ¬ (BLEND_DESAT_FIRST ≤ builtInType (Translation.new.parse env text).built_in_name
          (Translation.new.parse env text).desat_amount ∧
        builtInType (Translation.new.parse env text).built_in_name
          (Translation.new.parse env text).desat_amount ≤ BLEND_DESAT_LAST) ∧
    ∀ (col : rgba_t) (pal : Option Palette8bit),
      (Translation.new.parse env text).translate env col pal
        = specialBlend env.f32 col BLEND_ICE (pal.getD env.currentPalette) ∧
      (Translation.new.parse env text).translate env col pal
        = Translation.translate env
            { translations := [], built_in_name := "Ice", desat_amount := 0 } col pal := by
  have hparse : Translation.new.parse env text
      = { translations := [], built_in_name := "Desaturate", desat_amount := 0 } := by
    have htok : lower (Tokenizer.openString "[]:%,=#@$" text).peekToken = "desaturate" := by
      rw [tokenize_desaturate text h, h]
    simp only [Translation.parse, htok]
    rfl
  have hty : builtInType "Desaturate" 0 = BLEND_ICE := by decide
  rw [hparse]
  refine ⟨rfl, rfl, rfl, hty, rfl, ?_, ?_⟩
  · simp only [hty]
    decide
  · intro col pal
    have hlen : ("Desaturate" : String).length ≠ 0 := by decide
    have hlen2 : ("Ice" : String).length ≠ 0 := by decide
    have hty2 : builtInType "Ice" 0 = BLEND_ICE := by decide
    simp only [Translation.translate, hlen, hlen2, hty, hty2, ne_eq, not_false_eq_true, if_true,
      and_self]

/-- Witness for C36: the text `DeSaTuRaTe`. -/
theorem parse_desaturate_is_ice_witness :
    Translation.new.parse exactEnv "DeSaTuRaTe"
      = { translations := [], built_in_name := "Desaturate", desat_amount := 0 } ∧
    builtInType (Translation.new.parse exactEnv "DeSaTuRaTe").built_in_name
        (Translation.new.parse exactEnv "DeSaTuRaTe").desat_amount = BLEND_ICE :=
  ⟨(parse_desaturate_is_ice exactEnv "DeSaTuRaTe" (by decide)).1,
   (parse_desaturate_is_ice exactEnv "DeSaTuRaTe" (by decide)).2.2.2.1⟩

/-! ### C37: a range whose origin is reversed -/

/-- C37: a range with `o_start > o_end` contains no palette index, and a
Translation holding only such a range returns every colour with its r, g, b,
a and index unchanged. -/
theorem translate_reversed_origin_no_match (env : Env) (r : TransRange) (amount : Nat)
    (col : rgba_t) (pal : Option Palette8bit) (h : r.oStart > r.oEnd) :
    (∀ i : Nat, ¬ (r.oStart ≤ i ∧ i ≤ r.oEnd)) ∧
    Translation.translate env
        { translations := [r], built_in_name := "", desat_amount := amount } col pal
      = { col with blend := -1 } ∧
    (Translation.translate env
        { translations := [r], built_in_name := "", desat_amount := amount } col pal).r
      = col.r ∧
    (Translation.translate env
        { translations := [r], built_in_name := "", desat_amount := amount } col pal).g
      = col.g ∧
    (Translation.translate env
        { translations := [r], built_in_name := "", desat_amount := amount } col pal).b
      = col.b ∧
    (Translation.translate env
        { translations := [r], built_in_name := "", desat_amount := amount } col pal).a
      = col.a ∧
    (Translation.translate env
        { translations := [r], built_in_name := "", desat_amount := amount } col pal).index
      = col.index := by
  have hlen : ¬ (("" : String).length ≠ 0) := by decide
  have e : Translation.translate env
      { translations := [r], built_in_name := "", desat_amount := amount } col pal
      = { col with blend := -1 } := by
    simp only [Translation.translate, hlen, if_false]
    apply translateRanges_all_miss
    intro x hx
    rw [List.mem_singleton] at hx
    subst hx
    omega
  rw [e]
  exact ⟨fun i hi => by omega, rfl, rfl, rfl, rfl, rfl, rfl⟩

/-- Witness for C37: the range that `parse` builds from `16:0=#[255,0,0]`
leaves the colour at index 8 as it is. -/
theorem translate_reversed_origin_no_match_witness :
    Translation.translate exactEnv (Translation.new.parse exactEnv "16:0=#[255,0,0]")
        { r := 1, g := 2, b := 3, a := 255, index := 8, blend := 0 } none
      = { r := 1, g := 2, b := 3, a := 255, index := 8, blend := -1 } :=
  (translate_reversed_origin_no_match exactEnv (TransRange.blend 16 0 (rgba_t.rgb 255 0 0)) 0
    { r := 1, g := 2, b := 3, a := 255, index := 8, blend := 0 } none (by decide)).2.1

end SLADE
